import Mathlib

/-!
# OpenGL framebuffer-object pool (`src/opengl/ogl_fbo.c`)

A shallow embedding of the FBO pool of the OpenGL backend and of the
render-target binder built on it.

Conventions of the embedding

* A bitmap pointer is a natural number; `NULL` is `none`.
* A pointer to an `ALLEGRO_FBO_INFO` is a `Ref`: either the address of a slot
  of the display's `fbos` array or the address of a record obtained from
  `al_malloc`.
* `last_use_time` is a C `double`.  The code only assigns and compares
  timestamps (`<`), so they are embedded in the linear order of the integers;
  `DBL_MAX` is the largest finite double, which is the integer
  `2^1024 - 2^971`.  NaN is not represented.
* `ALLEGRO_MAX_OPENGL_FBOS` is declared in a header outside this file; the
  capacity of the pool is the length of the list `fbos`.
* `ASSERT` is compiled out in release builds; the embedding follows the
  release build and states the asserted conditions as hypotheses.
* A C execution that leaves the `fbos` array (`&fbos[-1]`) or dereferences a
  `NULL` or unallocated pointer has no defined result: the embedding
  returns `none` there.
* Logging, the GL viewport and the projection matrix are not part of the
  state.
-/

namespace OglFbo

/-! ## Data model -/

/-- The three values of `fbo_state`. -/
inductive FBO_STATE where
  | FBO_INFO_UNUSED
  | FBO_INFO_TRANSIENT
  | FBO_INFO_PERSISTENT
  deriving DecidableEq, Repr

open FBO_STATE

/-- Timestamps (`double last_use_time`, `al_get_time()`). -/
abbrev Time := Int

/-- The constant `DBL_MAX` of `<float.h>`: `(2 - 2^-52) * 2^1023`, that is
`2^1024 - 2^971`, written out in decimal. -/
def DBL_MAX : Time :=
  179769313486231570814527423731704356798070567525844996598917476803157260780028538760589558632766878171540458953514382464234321326889464182768467546703537516986049910576551282076245490090389328944075868508455133942304583236903222948165808559332123348274797826204144723168738177180919299881250404026184124858368

/-- The record `ALLEGRO_FBO_INFO`. -/
structure ALLEGRO_FBO_INFO where
  fbo_state : FBO_STATE
  fbo : Nat
  owner : Option Nat
  last_use_time : Time
  deriving DecidableEq, Repr

/-- The value `_al_ogl_reset_fbo_info` writes into `*info`. -/
def _al_ogl_reset_fbo_info : ALLEGRO_FBO_INFO :=
  { fbo_state := FBO_INFO_UNUSED, fbo := 0, owner := none, last_use_time := 0 }

/-! ## `ogl_find_unused_fbo` -/

/-- The `for` loop of `ogl_find_unused_fbo`, started at index `i` on the slots
that are still to be visited, with the current `min_time` and
`min_time_index`.  The result is the index of the returned slot. -/
def find_loop : List ALLEGRO_FBO_INFO → Nat → Time → Int → Int
  | [], _, _, min_time_index => min_time_index
  | s :: rest, i, min_time, min_time_index =>
    if s.fbo_state = FBO_INFO_UNUSED then (i : Int)
    else if s.last_use_time < min_time then find_loop rest (i + 1) s.last_use_time (i : Int)
    else find_loop rest (i + 1) min_time min_time_index

/-- Index of the slot whose address `ogl_find_unused_fbo` returns
(`-1` when the loop never assigned `min_time_index`). -/
def ogl_find_unused_fbo (fbos : List ALLEGRO_FBO_INFO) : Int :=
  find_loop fbos 0 DBL_MAX (-1)

/-- The slot `fbos[i]` for a C `int` index; `none` outside the array. -/
def slotAt (fbos : List ALLEGRO_FBO_INFO) (i : Int) : Option ALLEGRO_FBO_INFO :=
  if 0 ≤ i then fbos[i.toNat]? else none

/-! ## Bitmaps, the display and the GL context -/

/-- A pointer to an `ALLEGRO_FBO_INFO`: `&extras->fbos[i]`, or the address of
the `k`-th record obtained from `al_malloc`. -/
inductive Ref where
  | slot (i : Nat)
  | heap (k : Nat)
  deriving DecidableEq, Repr

/-- The fields of `ALLEGRO_BITMAP` and of its `ALLEGRO_BITMAP_EXTRA_OPENGL`
that the file reads or writes. -/
structure ALLEGRO_BITMAP where
  /-- `bitmap->parent` -/
  parent : Option Nat
  /-- `bitmap->display` -/
  display : Nat
  /-- `bitmap->flags & ALLEGRO_FORCE_LOCKING` -/
  force_locking : Bool
  /-- `extra->is_backbuffer` -/
  is_backbuffer : Bool
  /-- `extra->fbo_info` -/
  fbo_info : Option Ref

/-- The display passed to `_al_ogl_setup_fbo` and `_al_ogl_persist_fbo`, the
bitmaps, the records obtained from `al_malloc` and the framebuffer binding. -/
structure World where
  /-- `display->ogl_extras->fbos`, `ALLEGRO_MAX_OPENGL_FBOS` slots -/
  fbos : List ALLEGRO_FBO_INFO
  /-- the records obtained from `al_malloc`, in allocation order -/
  heap : List ALLEGRO_FBO_INFO
  /-- the bitmaps, by address -/
  bitmaps : Nat → ALLEGRO_BITMAP
  /-- `display->ogl_extras->opengl_target` -/
  opengl_target : Option Nat
  /-- `display->ogl_extras->extension_list`:
  `ALLEGRO_GL_EXT_framebuffer_object || ALLEGRO_GL_OES_framebuffer_object` -/
  extension_list_fbo : Bool
  /-- `d->ogl_extras->is_shared`, for the display with address `d` -/
  is_shared : Nat → Bool
  /-- the framebuffer binding (`GL_FRAMEBUFFER_BINDING_EXT`, or
  `_al_gl_curr_fbo` on Android) -/
  bound_fbo : Nat

/-- What the build and the platform answer during one call. -/
structure GLEnv where
  /-- `IS_OPENGLES` -/
  is_opengles : Bool
  /-- `ALLEGRO_IPHONE` is defined -/
  iphone : Bool
  /-- the framebuffer bound when `_al_iphone_setup_opengl_view(display)`
  returns; the function is declared outside this file -/
  iphone_view_fbo : Nat
  /-- `al_get_opengl_extension_list()`:
  `ALLEGRO_GL_EXT_framebuffer_object || ALLEGRO_GL_OES_framebuffer_object` -/
  cur_fbo_ext : Bool
  /-- `al_get_current_display()` -/
  current_display : Nat
  /-- the name `glGenFramebuffersEXT(1, &info->fbo)` stores (`0`: none) -/
  gen : Nat
  /-- the value of
  `UNLESS_ANDROID_OR_RPI(glCheckFramebufferStatusEXT(..) != GL_FRAMEBUFFER_COMPLETE_EXT)` -/
  incomplete : Bool
  /-- `al_get_time()` -/
  now : Time

/-- Dereference a record pointer. -/
def getRec (w : World) : Ref → Option ALLEGRO_FBO_INFO
  | .slot i => w.fbos[i]?
  | .heap k => w.heap[k]?

/-- Store through a record pointer. -/
def setRec (w : World) (r : Ref) (s : ALLEGRO_FBO_INFO) : World :=
  match r with
  | .slot i => { w with fbos := w.fbos.set i s }
  | .heap k => { w with heap := w.heap.set k s }

/-- The assignment `b->extra->fbo_info = v`. -/
def set_fbo_info (w : World) (b : Nat) (v : Option Ref) : World :=
  { w with bitmaps := Function.update w.bitmaps b { w.bitmaps b with fbo_info := v } }

/-- The statement `if (bitmap->parent) bitmap = bitmap->parent;`. -/
def resolve (w : World) (b : Nat) : Nat :=
  match (w.bitmaps b).parent with
  | some p => p
  | none => b

/-- `_al_ogl_bind_framebuffer(fbo)`: binds `fbo`, returns what was bound. -/
def _al_ogl_bind_framebuffer (w : World) (fbo : Nat) : World × Nat :=
  ({ w with bound_fbo := fbo }, w.bound_fbo)

/-! ## `_al_ogl_create_persistent_fbo` -/

/-- `_al_ogl_create_persistent_fbo(b)`.  The record is obtained from
`al_malloc` first and freed again on the two failure paths that follow; the
heap of the model receives it on success only. -/
def _al_ogl_create_persistent_fbo (w : World) (env : GLEnv) (b : Nat) : World × Bool :=
  let t := resolve w b
  if w.is_shared (w.bitmaps t).display = false ∧
      (w.bitmaps t).display ≠ env.current_display then
    (w, false)
  else if (w.bitmaps t).is_backbuffer = true then
    (w, false)
  else if env.gen = 0 then
    (w, false)
  else
    let old_fbo := (_al_ogl_bind_framebuffer w env.gen).2
    let w1 := (_al_ogl_bind_framebuffer w env.gen).1
    if env.incomplete = true then
      ((_al_ogl_bind_framebuffer w1 old_fbo).1, false)
    else
      let w2 := (_al_ogl_bind_framebuffer w1 old_fbo).1
      let info : ALLEGRO_FBO_INFO :=
        { fbo_state := FBO_INFO_PERSISTENT, fbo := env.gen, owner := some t,
          last_use_time := env.now }
      (set_fbo_info { w2 with heap := w2.heap ++ [info] } t (some (.heap w2.heap.length)), true)

/-! ## `_al_ogl_persist_fbo` -/

/-- The scan `for (i = 0; i < n; i++) if (transient_fbo_info == &extras->fbos[i])`:
the index at which the loop body is entered, if any. -/
def pool_index_of (r : Ref) (n : Nat) : Option Nat :=
  (List.range n).find? (fun i => decide (r = Ref.slot i))

/-- `_al_ogl_persist_fbo(display, r)`: the state after the call and the
returned pointer. -/
def _al_ogl_persist_fbo (w : World) (r : Ref) : World × Ref :=
  match pool_index_of r w.fbos.length with
  | some i =>
    match w.fbos[i]? with
    | some s =>
      let new_info : ALLEGRO_FBO_INFO := { s with fbo_state := FBO_INFO_PERSISTENT }
      ({ w with heap := w.heap ++ [new_info],
                fbos := w.fbos.set i _al_ogl_reset_fbo_info }, .heap w.heap.length)
    | none => (w, r)
  | none => (w, r)

/-! ## `_al_ogl_setup_fbo` -/

/-- Lines 267-299: `ogl_find_unused_fbo`, the eviction of a TRANSIENT slot
and `glGenFramebuffersEXT`.  Returns the state and `info`. -/
def take_pool_slot (w : World) (env : GLEnv) : Option (World × Option Ref) :=
  let idx := ogl_find_unused_fbo w.fbos
  match slotAt w.fbos idx with
  | none => none
  | some s =>
    let info := Ref.slot idx.toNat
    if s.fbo_state = FBO_INFO_TRANSIENT then
      match s.owner with
      | none => none
      | some o =>
        let w1 := setRec (set_fbo_info w o none) info _al_ogl_reset_fbo_info
        some (setRec w1 info { _al_ogl_reset_fbo_info with fbo := env.gen }, some info)
    else
      some (setRec w info { s with fbo := env.gen }, some info)

/-- Lines 252-304: the choice of `info` for the bitmap `t`. -/
def select_fbo_info (w : World) (env : GLEnv) (t : Nat) : Option (World × Option Ref) :=
  if (w.bitmaps t).fbo_info = none ∧ (w.bitmaps t).force_locking = false then
    if env.is_opengles = true ∨ env.cur_fbo_ext = true then take_pool_slot w env
    else some (w, none)
  else some (w, (w.bitmaps t).fbo_info)

/-- Lines 306-381: bind `info`, attach the texture of `t`, check
completeness. -/
def bind_fbo_info (w : World) (env : GLEnv) (t : Nat) : Option Ref → Option World
  | none => some w
  | some r =>
    match getRec w r with
    | none => none
    | some s =>
      if s.fbo = 0 then some w
      else
        let s1 : ALLEGRO_FBO_INFO :=
          { fbo_state :=
              if s.fbo_state = FBO_INFO_UNUSED then FBO_INFO_TRANSIENT else s.fbo_state,
            fbo := s.fbo, owner := some t, last_use_time := env.now }
        let w1 := (_al_ogl_bind_framebuffer (set_fbo_info (setRec w r s1) t (some r)) s.fbo).1
        if env.incomplete = true then
          some (set_fbo_info
            (setRec (_al_ogl_bind_framebuffer w1 0).1 r _al_ogl_reset_fbo_info) t none)
        else
          some { w1 with opengl_target := some t }

/-- Lines 383-407: the backbuffer branch.  With `ALLEGRO_IPHONE` the last
statements that touch the binding are `glBindFramebufferEXT(GL_FRAMEBUFFER_EXT, 0)`
of line 403 and the call `_al_iphone_setup_opengl_view(display)` of line 404,
whose result is `iphone_view_fbo`.  Without it the binding is written by
`_al_ogl_bind_framebuffer(0)` of line 391 only, under the guard of line 387. -/
def setup_backbuffer (w : World) (env : GLEnv) (t : Nat) : World :=
  let w1 := { w with opengl_target := some t }
  if env.iphone = true then { w1 with bound_fbo := env.iphone_view_fbo }
  else if env.is_opengles = true ∨ w.extension_list_fbo = true then
    (_al_ogl_bind_framebuffer w1 0).1
  else w1

/-- `_al_ogl_setup_fbo(display, b)`. -/
def _al_ogl_setup_fbo (w : World) (env : GLEnv) (b : Nat) : Option World :=
  let t := resolve w b
  if (w.bitmaps t).is_backbuffer = false then
    match select_fbo_info w env t with
    | none => none
    | some (w1, info) => bind_fbo_info w1 env t info
  else
    some (setup_backbuffer w env t)

/-! ## Sequences of calls -/

/-- The pool after initialisation: every slot reset, nothing allocated, no
bitmap associated. -/
def Initial (w : World) : Prop :=
  (∀ s ∈ w.fbos, s = _al_ogl_reset_fbo_info) ∧ w.heap = [] ∧
    ∀ b, (w.bitmaps b).fbo_info = none

/-- A call of one of the three entry points. -/
inductive Call where
  /-- `_al_ogl_setup_fbo(display, b)` -/
  | setup (env : GLEnv) (b : Nat)
  /-- `_al_ogl_persist_fbo(display, r)`, the returned pointer not stored -/
  | persist (r : Ref)
  /-- `b->extra->fbo_info = _al_ogl_persist_fbo(display, b->extra->fbo_info)` -/
  | promote (b : Nat)
  /-- `_al_ogl_create_persistent_fbo(b)` -/
  | create (env : GLEnv) (b : Nat)

/-- Modelled from the spec: the callers of `_al_ogl_persist_fbo` are not in
this file.  By the data model a bitmap refers "to a separately-heap-allocated
persistent record once promoted", so the caller stores the returned pointer in
the bitmap whose record it passed.  The precondition is the function's
`ASSERT`. -/
def persist_and_store (w : World) (b : Nat) : Option World :=
  match (w.bitmaps b).fbo_info with
  | none => none
  | some r =>
    match getRec w r with
    | none => none
    | some s =>
      if s.fbo_state = FBO_INFO_TRANSIENT then
        some (set_fbo_info (_al_ogl_persist_fbo w r).1 b (some (_al_ogl_persist_fbo w r).2))
      else none

/-- The effect of a call made with its asserted precondition
(`ASSERT(transient_fbo_info->fbo_state == FBO_INFO_TRANSIENT)`,
`ASSERT(!ogl_bitmap->fbo_info)`); `none` when the precondition fails or the
call has no defined result. -/
def Call.run (w : World) : Call → Option World
  | .setup env b => _al_ogl_setup_fbo w env b
  | .persist r =>
    match getRec w r with
    | none => none
    | some s => if s.fbo_state = FBO_INFO_TRANSIENT then some (_al_ogl_persist_fbo w r).1 else none
  | .promote b => persist_and_store w b
  | .create env b =>
    if (w.bitmaps (resolve w b)).fbo_info = none then
      some (_al_ogl_create_persistent_fbo w env b).1
    else none

/-- A sequence of calls, each made in the state the previous one left. -/
def runCalls : World → List Call → Option World
  | w, [] => some w
  | w, c :: cs => (c.run w).bind (fun w1 => runCalls w1 cs)

/-- The states reachable from an initialised pool by calls of
`_al_ogl_setup_fbo`, `_al_ogl_persist_fbo` and `_al_ogl_create_persistent_fbo`. -/
def Reachable (w : World) : Prop :=
  ∃ w0 cs, Initial w0 ∧ runCalls w0 cs = some w

/-- A call other than a `_al_ogl_persist_fbo` whose result is dropped. -/
def Call.stores : Call → Bool
  | .persist _ => false
  | _ => true

/-- The reachable states when every promotion stores the returned pointer. -/
def ReachableStored (w : World) : Prop :=
  ∃ w0 cs, Initial w0 ∧ (∀ c ∈ cs, c.stores = true) ∧ runCalls w0 cs = some w

/-! ## Concrete inputs -/

/-- A pool of two slots, the first PERSISTENT and older than the second,
which is TRANSIENT. -/
def pool_persistent_oldest : List ALLEGRO_FBO_INFO :=
  [ { fbo_state := FBO_INFO_PERSISTENT, fbo := 3, owner := some 1, last_use_time := 0 },
    { fbo_state := FBO_INFO_TRANSIENT, fbo := 4, owner := some 2, last_use_time := 5 } ]

/-- A full pool of three TRANSIENT slots in which the oldest timestamp occurs
twice. -/
def pool_full_tie : List ALLEGRO_FBO_INFO :=
  [ { fbo_state := FBO_INFO_TRANSIENT, fbo := 7, owner := some 1, last_use_time := 9 },
    { fbo_state := FBO_INFO_TRANSIENT, fbo := 8, owner := some 2, last_use_time := 4 },
    { fbo_state := FBO_INFO_TRANSIENT, fbo := 9, owner := some 3, last_use_time := 4 } ]

/-- A bitmap that is neither a sub-bitmap nor the backbuffer, without
association. -/
def plain_bitmap : ALLEGRO_BITMAP :=
  { parent := none, display := 0, force_locking := false, is_backbuffer := false,
    fbo_info := none }

/-- A display with a pool of two reset slots and no bitmap associated. -/
def world_reset2 : World :=
  { fbos := [_al_ogl_reset_fbo_info, _al_ogl_reset_fbo_info]
    heap := []
    bitmaps := fun _ => plain_bitmap
    opengl_target := none
    extension_list_fbo := true
    is_shared := fun _ => false
    bound_fbo := 0 }

/-- A desktop GL context with the FBO extension, where handle generation
yields `g`, the completeness check passes and the clock reads `t`. -/
def env_ok (g : Nat) (t : Time) : GLEnv :=
  { is_opengles := false, iphone := false, iphone_view_fbo := 0, cur_fbo_ext := true,
    current_display := 0,
    gen := g, incomplete := false, now := t }

/-- As `env_ok`, with the completeness check failing. -/
def env_incomplete (g : Nat) (t : Time) : GLEnv :=
  { is_opengles := false, iphone := false, iphone_view_fbo := 0, cur_fbo_ext := true,
    current_display := 0,
    gen := g, incomplete := true, now := t }

/-- Bitmap `1` holds the TRANSIENT slot `0` (handle 11), bitmap `2` the
PERSISTENT record `heap 0` (handle 12); slot `1` is UNUSED. -/
def world_two_targets : World :=
  { fbos := [ { fbo_state := FBO_INFO_TRANSIENT, fbo := 11, owner := some 1,
                last_use_time := 1 }, _al_ogl_reset_fbo_info ]
    heap := [ { fbo_state := FBO_INFO_PERSISTENT, fbo := 12, owner := some 2,
                last_use_time := 2 } ]
    bitmaps := fun b =>
      if b = 1 then { plain_bitmap with fbo_info := some (.slot 0) }
      else if b = 2 then { plain_bitmap with fbo_info := some (.heap 0) }
      else plain_bitmap
    opengl_target := some 2
    extension_list_fbo := true
    is_shared := fun _ => false
    bound_fbo := 12 }

/-- A display whose extension list has no framebuffer-object extension, with
backbuffer bitmap `0`, while framebuffer 7 is bound in the GL context. -/
def world_no_fbo_ext : World :=
  { fbos := [_al_ogl_reset_fbo_info, _al_ogl_reset_fbo_info]
    heap := []
    bitmaps := fun b =>
      if b = 0 then { plain_bitmap with is_backbuffer := true } else plain_bitmap
    opengl_target := some 1
    extension_list_fbo := false
    is_shared := fun _ => false
    bound_fbo := 7 }

/-- A display with a pool of two reset slots and no bitmap associated, on
which bitmap `2` has `ALLEGRO_FORCE_LOCKING`. -/
def world_force_locking : World :=
  { fbos := [_al_ogl_reset_fbo_info, _al_ogl_reset_fbo_info]
    heap := []
    bitmaps := fun b =>
      if b = 2 then { plain_bitmap with force_locking := true } else plain_bitmap
    opengl_target := none
    extension_list_fbo := true
    is_shared := fun _ => false
    bound_fbo := 0 }

/-! ## What the invariants observe

The invariants relate two things only: which record each bitmap refers to, and
what each record pointer holds.  `Obs` is that view of a `World`, and `AbsStep`
lists the elementary updates by which the three entry points change it. -/

/-- The association of every bitmap and the content behind every pointer. -/
structure Obs where
  /-- `b->extra->fbo_info` -/
  assoc : Nat → Option Ref
  /-- the record a pointer refers to; `none` where nothing is allocated -/
  recs : Ref → Option ALLEGRO_FBO_INFO

/-- The view of a state. -/
def obs (w : World) : Obs :=
  { assoc := fun b => (w.bitmaps b).fbo_info, recs := getRec w }

/-- The view after `b->extra->fbo_info = v`. -/
def Obs.setAssoc (o : Obs) (b : Nat) (v : Option Ref) : Obs :=
  { o with assoc := Function.update o.assoc b v }

/-- The view after `*r = s`. -/
def Obs.setRec (o : Obs) (r : Ref) (s : ALLEGRO_FBO_INFO) : Obs :=
  { o with recs := Function.update o.recs r (some s) }

/-- The elementary updates.  With `lit = false` the update `persist`, a
promotion whose returned pointer is not stored, is left out. -/
inductive AbsStep (lit : Bool) : Obs → Obs → Prop where
  /-- a store that keeps state and owner (`glGenFramebuffersEXT(1, &info->fbo)`) -/
  | frame (o : Obs) (r : Ref) (s s1 : ALLEGRO_FBO_INFO) :
      o.recs r = some s → s1.fbo_state = s.fbo_state → s1.owner = s.owner →
      AbsStep lit o (o.setRec r s1)
  /-- lines 270-283: the owner of a TRANSIENT slot loses it and the slot is reset -/
  | evict (o : Obs) (i : Nat) (s : ALLEGRO_FBO_INFO) (a : Nat) :
      o.recs (.slot i) = some s → s.fbo_state = FBO_INFO_TRANSIENT → s.owner = some a →
      AbsStep lit o ((o.setAssoc a none).setRec (.slot i) _al_ogl_reset_fbo_info)
  /-- lines 313-317 on a slot just taken from the pool -/
  | attach_new (o : Obs) (i : Nat) (s s1 : ALLEGRO_FBO_INFO) (t : Nat) :
      o.recs (.slot i) = some s → s.fbo_state ≠ FBO_INFO_TRANSIENT → o.assoc t = none →
      s1.owner = some t →
      s1.fbo_state =
        (if s.fbo_state = FBO_INFO_UNUSED then FBO_INFO_TRANSIENT else s.fbo_state) →
      AbsStep lit o ((o.setRec (.slot i) s1).setAssoc t (some (.slot i)))
  /-- lines 313-317 on the record the bitmap already refers to -/
  | attach_old (o : Obs) (r : Ref) (s s1 : ALLEGRO_FBO_INFO) (t : Nat) :
      o.recs r = some s → o.assoc t = some r → s1.owner = some t →
      s1.fbo_state =
        (if s.fbo_state = FBO_INFO_UNUSED then FBO_INFO_TRANSIENT else s.fbo_state) →
      AbsStep lit o ((o.setRec r s1).setAssoc t (some r))
  /-- lines 358-359: the record is reset and the association cleared -/
  | fail (o : Obs) (r : Ref) (t : Nat) :
      o.assoc t = some r →
      AbsStep lit o ((o.setRec r _al_ogl_reset_fbo_info).setAssoc t none)
  /-- lines 183-186: a fresh PERSISTENT record for a bitmap without association -/
  | create (o : Obs) (k : Nat) (x : ALLEGRO_FBO_INFO) (t : Nat) :
      o.recs (.heap k) = none → o.assoc t = none → x.owner = some t →
      x.fbo_state = FBO_INFO_PERSISTENT →
      AbsStep lit o ((o.setRec (.heap k) x).setAssoc t (some (.heap k)))
  /-- lines 201-204: the copy to a fresh record and the reset of the slot -/
  | persist (o : Obs) (i k : Nat) (s : ALLEGRO_FBO_INFO) :
      lit = true → o.recs (.slot i) = some s → s.fbo_state = FBO_INFO_TRANSIENT →
      o.recs (.heap k) = none →
      AbsStep lit o
        ((o.setRec (.heap k) { s with fbo_state := FBO_INFO_PERSISTENT }).setRec (.slot i)
          _al_ogl_reset_fbo_info)
  /-- lines 201-204 followed by the caller's store of the returned pointer -/
  | promote (o : Obs) (i k : Nat) (s : ALLEGRO_FBO_INFO) (t : Nat) :
      o.recs (.slot i) = some s → s.fbo_state = FBO_INFO_TRANSIENT →
      o.recs (.heap k) = none → o.assoc t = some (.slot i) →
      AbsStep lit o
        (((o.setRec (.heap k) { s with fbo_state := FBO_INFO_PERSISTENT }).setRec (.slot i)
          _al_ogl_reset_fbo_info).setAssoc t (some (.heap k)))

/-- Several elementary updates in a row. -/
inductive AbsSteps (lit : Bool) : Obs → Obs → Prop where
  | refl (o : Obs) : AbsSteps lit o o
  | tail (o o1 o2 : Obs) : AbsSteps lit o o1 → AbsStep lit o1 o2 → AbsSteps lit o o2

/-! ## The invariants -/

/-- The owner/state relation of one record: the owner is non-NULL exactly when
the state is not `FBO_INFO_UNUSED`. -/
def OwnerState (s : ALLEGRO_FBO_INFO) : Prop :=
  s.owner ≠ none ↔ s.fbo_state ≠ FBO_INFO_UNUSED

/-- Every pool slot and every allocated record satisfies `OwnerState`. -/
def Obs.OwnerStateAll (o : Obs) : Prop :=
  ∀ r s, o.recs r = some s → OwnerState s

/-- No slot of the `fbos` array is PERSISTENT. -/
def Obs.PoolNotPersistent (o : Obs) : Prop :=
  ∀ i s, o.recs (.slot i) = some s → s.fbo_state ≠ FBO_INFO_PERSISTENT

/-- Record to bitmap: a record in use is referred to by its owner. -/
def Obs.Back (o : Obs) (r : Ref) : Prop :=
  ∀ s, o.recs r = some s → s.fbo_state ≠ FBO_INFO_UNUSED →
    ∃ b, s.owner = some b ∧ o.assoc b = some r

/-- Bitmap to record: a bitmap refers to a record in use that it owns. -/
def Obs.Fwd (o : Obs) (b : Nat) : Prop :=
  ∀ r, o.assoc b = some r →
    ∃ s, o.recs r = some s ∧ s.fbo_state ≠ FBO_INFO_UNUSED ∧ s.owner = some b

/-- The references agree: a bitmap's `fbo_info` refers to the record `r`
exactly when `r` is in use and its owner is that bitmap. -/
def Agree (w : World) : Prop :=
  ∀ b r, (w.bitmaps b).fbo_info = some r ↔
    ∃ s, getRec w r = some s ∧ s.fbo_state ≠ FBO_INFO_UNUSED ∧ s.owner = some b

/-- Capacity 2: bitmaps `1`, `2`, `1` are activated in this order. -/
def calls_ABA : List Call :=
  [.setup (env_ok 11 1) 1, .setup (env_ok 12 2) 2, .setup (env_ok 13 3) 1]

/-- The state after `calls_ABA`, started on `world_reset2`. -/
def world_after_ABA : World :=
  (runCalls world_reset2 calls_ABA).getD world_reset2

/-- Bitmap `1` is activated, then its slot is promoted without storing the
pointer that `_al_ogl_persist_fbo` returns. -/
def calls_persist_dropped : List Call :=
  [.setup (env_ok 11 1) 1, .persist (.slot 0)]

/-- The state after `calls_persist_dropped`, started on `world_reset2`. -/
def world_persist_dropped : World :=
  (runCalls world_reset2 calls_persist_dropped).getD world_reset2

/-- Bitmap `1` is activated and promoted, the returned pointer stored; bitmap
`2` is activated; bitmap `3` gets a persistent FBO. -/
def calls_promote_stored : List Call :=
  [.setup (env_ok 11 1) 1, .promote 1, .setup (env_ok 12 2) 2, .create (env_ok 13 3) 3]

/-- The state after `calls_promote_stored`, started on `world_reset2`. -/
def world_promote_stored : World :=
  (runCalls world_reset2 calls_promote_stored).getD world_reset2

/-- Two activations, of bitmaps `1` and `2`, with handles 11 and 12. -/
def acts_two : List (GLEnv × Nat) :=
  [(env_ok 11 1, 1), (env_ok 12 2, 2)]

/-- No record out of use keeps a handle: an UNUSED record has `fbo == 0`. -/
def NoStaleHandle (w : World) : Prop :=
  ∀ r s, getRec w r = some s → s.fbo_state = FBO_INFO_UNUSED → s.fbo = 0

/-- Slot `0` is UNUSED; the allocated record `heap 0` is TRANSIENT, owned by
bitmap `1`, which refers to it. -/
def world_transient_heap : World :=
  { fbos := [_al_ogl_reset_fbo_info]
    heap := [ { fbo_state := FBO_INFO_TRANSIENT, fbo := 21, owner := some 1,
                last_use_time := 4 } ]
    bitmaps := fun b =>
      if b = 1 then { plain_bitmap with fbo_info := some (.heap 0) } else plain_bitmap
    opengl_target := none
    extension_list_fbo := true
    is_shared := fun _ => false
    bound_fbo := 0 }

/-! ## Window modules (`src/win/wwnd.c`)

`struct WINDOW_MODULES` has eight `int` fields of four bytes each.  The flags
`_keyboard_installed`, ... and the card numbers are globals of the library;
`remove_keyboard`, ... and the constant `TRUE` are declared outside this file
and are parameters of the model. -/

/-- The record `struct WINDOW_MODULES`. -/
structure WINDOW_MODULES where
  keyboard : Int
  mouse : Int
  sound : Int
  digi_card : Int
  midi_card : Int
  sound_input : Int
  digi_input_card : Int
  midi_input_card : Int
  deriving DecidableEq, Repr

/-- The globals that `exit_window_modules` reads. -/
structure WinGlobals where
  _keyboard_installed : Int
  _mouse_installed : Int
  _sound_installed : Int
  _sound_input_installed : Int
  digi_card : Int
  midi_card : Int
  digi_input_card : Int
  midi_input_card : Int
  deriving DecidableEq, Repr

/-- What is declared outside the file: the size in bytes of a pointer (4 or 8
on Windows), the constant `TRUE`, and the four removal functions. -/
structure WinEnv where
  /-- `sizeof(struct WINDOW_MODULES *)` -/
  sizeof_ptr : Nat
  /-- the constant `TRUE` -/
  TRUE : Int
  remove_keyboard : WinGlobals → WinGlobals
  remove_mouse : WinGlobals → WinGlobals
  remove_sound : WinGlobals → WinGlobals
  remove_sound_input : WinGlobals → WinGlobals

/-- One `int` field after `memset(wm, 0, n)`: the field at byte offset `off` is
0 when its four bytes lie within the first `n` bytes, and is untouched when
none of them does (`n` is a multiple of four). -/
def memset_field (old : Int) (off n : Nat) : Int :=
  if off + 4 ≤ n then 0 else old

/-- The record after `memset(wm, 0, n)`. -/
def memset_zero (wm : WINDOW_MODULES) (n : Nat) : WINDOW_MODULES :=
  { keyboard := memset_field wm.keyboard 0 n
    mouse := memset_field wm.mouse 4 n
    sound := memset_field wm.sound 8 n
    digi_card := memset_field wm.digi_card 12 n
    midi_card := memset_field wm.midi_card 16 n
    sound_input := memset_field wm.sound_input 20 n
    digi_input_card := memset_field wm.digi_input_card 24 n
    midi_input_card := memset_field wm.midi_input_card 28 n }

/-- Lines 126-131: the keyboard. -/
def exit_keyboard (e : WinEnv) (s : Option WINDOW_MODULES × WinGlobals) :
    Option WINDOW_MODULES × WinGlobals :=
  if s.2._keyboard_installed ≠ 0 then
    (s.1.map (fun m => { m with keyboard := e.TRUE }), e.remove_keyboard s.2)
  else s

/-- Lines 133-138: the mouse. -/
def exit_mouse (e : WinEnv) (s : Option WINDOW_MODULES × WinGlobals) :
    Option WINDOW_MODULES × WinGlobals :=
  if s.2._mouse_installed ≠ 0 then
    (s.1.map (fun m => { m with mouse := e.TRUE }), e.remove_mouse s.2)
  else s

/-- Lines 140-148: the sound. -/
def exit_sound (e : WinEnv) (s : Option WINDOW_MODULES × WinGlobals) :
    Option WINDOW_MODULES × WinGlobals :=
  if s.2._sound_installed ≠ 0 then
    (s.1.map (fun m => { m with sound := e.TRUE, digi_card := s.2.digi_card,
                                midi_card := s.2.midi_card }), e.remove_sound s.2)
  else s

/-- Lines 150-158: the sound input. -/
def exit_sound_input (e : WinEnv) (s : Option WINDOW_MODULES × WinGlobals) :
    Option WINDOW_MODULES × WinGlobals :=
  if s.2._sound_input_installed ≠ 0 then
    (s.1.map (fun m => { m with sound_input := e.TRUE,
                                digi_input_card := s.2.digi_input_card,
                                midi_input_card := s.2.midi_input_card }),
      e.remove_sound_input s.2)
  else s

/-- `exit_window_modules(wm)`: the record behind `wm` (`none` for `NULL`) and
the globals after the call.  The first statement is
`memset(wm, 0, sizeof(wm))`, with the size of the pointer. -/
def exit_window_modules (e : WinEnv) (wm : Option WINDOW_MODULES) (g : WinGlobals) :
    Option WINDOW_MODULES × WinGlobals :=
  exit_sound_input e (exit_sound e (exit_mouse e (exit_keyboard e
    (wm.map (fun m => memset_zero m e.sizeof_ptr), g))))

/-- The installations `init_window_modules(wm)` asks for: keyboard, mouse,
sound with its two cards, sound input with its two cards. -/
structure InstallCalls where
  keyboard : Bool
  mouse : Bool
  sound : Option (Int × Int)
  sound_input : Option (Int × Int)
  deriving DecidableEq, Repr

/-- `init_window_modules(wm)`. -/
def init_window_modules (wm : WINDOW_MODULES) : InstallCalls :=
  { keyboard := decide (wm.keyboard ≠ 0)
    mouse := decide (wm.mouse ≠ 0)
    sound := if wm.sound ≠ 0 then some (wm.digi_card, wm.midi_card) else none
    sound_input :=
      if wm.sound_input ≠ 0 then some (wm.digi_input_card, wm.midi_input_card) else none }

/-- The module part of `win_set_window` when `_allegro_count > 0`:
`exit_window_modules(&wm)` on the local `wm`, whose content is whatever the
stack holds, then `init_window_modules(&wm)`. -/
def win_set_window_modules (e : WinEnv) (stack : WINDOW_MODULES) (g : WinGlobals) :
    Option InstallCalls :=
  (exit_window_modules e (some stack) g).1.map init_window_modules

/-- A 32-bit and a 64-bit build in which every removal function clears the
flag of its module. -/
def win_env (ptr : Nat) : WinEnv :=
  { sizeof_ptr := ptr
    TRUE := -1
    remove_keyboard := fun g => { g with _keyboard_installed := 0 }
    remove_mouse := fun g => { g with _mouse_installed := 0 }
    remove_sound := fun g => { g with _sound_installed := 0 }
    remove_sound_input := fun g => { g with _sound_input_installed := 0 } }

/-- Only the keyboard is installed. -/
def globals_keyboard_only : WinGlobals :=
  { _keyboard_installed := -1, _mouse_installed := 0, _sound_installed := 0,
    _sound_input_installed := 0, digi_card := 0, midi_card := 0, digi_input_card := 0,
    midi_input_card := 0 }

/-- A `WINDOW_MODULES` that holds left-over values in `sound` and
`sound_input` and in the card fields. -/
def wm_leftover : WINDOW_MODULES :=
  { keyboard := 0, mouse := 0, sound := 1, digi_card := 7, midi_card := 9,
    sound_input := 1, digi_input_card := 3, midi_input_card := 5 }

/-- A reset pool of two slots; bitmap `5` is a sub-bitmap of bitmap `4`. -/
def world_sub : World :=
  { fbos := [_al_ogl_reset_fbo_info, _al_ogl_reset_fbo_info]
    heap := []
    bitmaps := fun b => if b = 5 then { plain_bitmap with parent := some 4 } else plain_bitmap
    opengl_target := none
    extension_list_fbo := true
    is_shared := fun _ => false
    bound_fbo := 0 }

/-- As `world_sub`, but bitmap `4` has itself a parent, bitmap `3`. -/
def world_nested : World :=
  { fbos := [_al_ogl_reset_fbo_info, _al_ogl_reset_fbo_info]
    heap := []
    bitmaps := fun b =>
      if b = 5 then { plain_bitmap with parent := some 4 }
      else if b = 4 then { plain_bitmap with parent := some 3 }
      else plain_bitmap
    opengl_target := none
    extension_list_fbo := true
    is_shared := fun _ => false
    bound_fbo := 0 }

/-- Every association refers to a record that exists. -/
def Obs.AssocValid (o : Obs) : Prop :=
  ∀ b r, o.assoc b = some r → o.recs r ≠ none

/-- A record outside the array is referred to by one bitmap at most. -/
def Obs.HeapUnique (o : Obs) : Prop :=
  ∀ b c k, o.assoc b = some (.heap k) → o.assoc c = some (.heap k) → b = c

/-- Every timestamp in the pool array is a clock reading below `DBL_MAX`. -/
def PoolTimesFinite (w : World) : Prop :=
  ∀ x ∈ w.fbos, x.last_use_time < DBL_MAX

/-- Four activations, of bitmaps `2`, `4`, `5` and `6`, with handles 14 to 17
at clock readings 4 to 7. -/
def acts_pressure : List (GLEnv × Nat) :=
  [(env_ok 14 4, 2), (env_ok 15 5, 4), (env_ok 16 6, 5), (env_ok 17 7, 6)]

/-! ## The `ASSERT` of lines 309-310 -/

/-- The `ASSERT` of lines 309-310 in `_al_ogl_setup_fbo(display, b)`, which is
compiled in unless `ALLEGRO_CFG_OPENGLES` is defined (`cfg_opengles`): `false`
when control reaches it, with `info` and `info->fbo` not 0, and the display's
extension list has no framebuffer-object extension. -/
def setup_fbo_assert (cfg_opengles : Bool) (w : World) (env : GLEnv) (b : Nat) : Bool :=
  let t := resolve w b
  if (w.bitmaps t).is_backbuffer = false then
    match select_fbo_info w env t with
    | some (w1, some r) =>
      match getRec w1 r with
      | some s => decide (s.fbo = 0) || cfg_opengles || w1.extension_list_fbo
      | none => true
    | _ => true
  else true

/-- The assertion of lines 309-310 holds in the call, if the call is one of
`_al_ogl_setup_fbo`. -/
def Call.asserted (cfg_opengles : Bool) (w : World) : Call → Bool
  | .setup env b => setup_fbo_assert cfg_opengles w env b
  | _ => true

/-- A sequence of calls in which the `ASSERT` of lines 309-310 holds whenever
control reaches it; `none` when it fails. -/
def runAsserted (cfg_opengles : Bool) : World → List Call → Option World
  | w, [] => some w
  | w, c :: cs =>
    if c.asserted cfg_opengles w = true then
      (c.run w).bind (fun w1 => runAsserted cfg_opengles w1 cs)
    else none

/-- Modelled from the spec: the code that creates sub-bitmaps is not in this
file.  By the data model "a bitmap with a parent (a sub-region view) always
resolves to its parent's association", and the bitmap that "resolve to parent
first" yields "is not a sub-bitmap": a parent has no parent. -/
def FlatParents (w : World) : Prop :=
  ∀ b p, (w.bitmaps b).parent = some p → (w.bitmaps p).parent = none

/-- No sub-bitmap has an association of its own. -/
def SubBitmapsUnassociated (w : World) : Prop :=
  ∀ b, (w.bitmaps b).parent ≠ none → (w.bitmaps b).fbo_info = none

/-! # Theorems -/

/-- The decimal constant is `2^1024 - 2^971`. -/
theorem DBL_MAX_eq : DBL_MAX = 2 ^ 1024 - 2 ^ 971 := by
  unfold DBL_MAX; norm_num

theorem find_loop_unused (pre : List ALLEGRO_FBO_INFO) (s : ALLEGRO_FBO_INFO)
    (rest : List ALLEGRO_FBO_INFO) (hpre : ∀ x ∈ pre, x.fbo_state ≠ FBO_INFO_UNUSED)
    (hs : s.fbo_state = FBO_INFO_UNUSED) (i : Nat) (mt : Time) (mi : Int) :
    find_loop (pre ++ s :: rest) i mt mi = ((i + pre.length : Nat) : Int) := by
  induction pre generalizing i mt mi with
  | nil => simp [find_loop, hs]
  | cons a pre ih =>
    have ha : a.fbo_state ≠ FBO_INFO_UNUSED := hpre a (List.mem_cons_self _ _)
    have hp : ∀ x ∈ pre, x.fbo_state ≠ FBO_INFO_UNUSED :=
      fun x hx => hpre x (List.mem_cons_of_mem _ hx)
    simp only [List.cons_append, find_loop, ha, if_false, List.length_cons, List.append_eq]
    split
    · rw [ih hp]; congr 1; omega
    · rw [ih hp]; congr 1; omega

theorem find_loop_no_unused (l : List ALLEGRO_FBO_INFO)
    (hl : ∀ x ∈ l, x.fbo_state ≠ FBO_INFO_UNUSED) (i : Nat) (mt : Time) (mi : Int) :
    (find_loop l i mt mi = mi ∧ ∀ x ∈ l, mt ≤ x.last_use_time) ∨
    ∃ k s, l[k]? = some s ∧ find_loop l i mt mi = ((i + k : Nat) : Int) ∧
      s.last_use_time < mt ∧
      (∀ x ∈ l, s.last_use_time ≤ x.last_use_time) ∧
      ∀ j x, j < k → l[j]? = some x → s.last_use_time < x.last_use_time := by
  induction l generalizing i mt mi with
  | nil => left; simp [find_loop]
  | cons a l ih =>
    have ha : a.fbo_state ≠ FBO_INFO_UNUSED := hl a (List.mem_cons_self _ _)
    have hp : ∀ x ∈ l, x.fbo_state ≠ FBO_INFO_UNUSED :=
      fun x hx => hl x (List.mem_cons_of_mem _ hx)
    simp only [find_loop, ha, if_false]
    by_cases hlt : a.last_use_time < mt
    · simp only [hlt, if_true]
      right
      rcases ih hp (i + 1) a.last_use_time (i : Int) with
        ⟨hr, hmin⟩ | ⟨k, s, hk, hr, hs, hmin, hfirst⟩
      · refine ⟨0, a, by simp, by simpa using hr, hlt, ?_, ?_⟩
        · intro x hx
          rcases List.mem_cons.1 hx with rfl | hx
          · exact le_refl _
          · exact hmin x hx
        · intro j x hj; omega
      · refine ⟨k + 1, s, by simpa using hk, ?_, lt_trans hs hlt, ?_, ?_⟩
        · rw [hr]; congr 1; omega
        · intro x hx
          rcases List.mem_cons.1 hx with rfl | hx
          · exact le_of_lt hs
          · exact hmin x hx
        · intro j x hj hx
          cases j with
          | zero =>
            simp at hx; subst hx; exact hs
          | succ j =>
            simp at hx
            exact hfirst j x (by omega) hx
    · simp only [hlt, if_false]
      rcases ih hp (i + 1) mt mi with ⟨hr, hmin⟩ | ⟨k, s, hk, hr, hs, hmin, hfirst⟩
      · left
        refine ⟨hr, ?_⟩
        intro x hx
        rcases List.mem_cons.1 hx with rfl | hx
        · exact not_lt.1 hlt
        · exact hmin x hx
      · right
        refine ⟨k + 1, s, by simpa using hk, ?_, hs, ?_, ?_⟩
        · rw [hr]; congr 1; omega
        · intro x hx
          rcases List.mem_cons.1 hx with rfl | hx
          · exact le_of_lt (lt_of_lt_of_le hs (not_lt.1 hlt))
          · exact hmin x hx
        · intro j x hj hx
          cases j with
          | zero =>
            simp at hx; subst hx; exact lt_of_lt_of_le hs (not_lt.1 hlt)
          | succ j =>
            simp at hx
            exact hfirst j x (by omega) hx

theorem exists_first_unused (l : List ALLEGRO_FBO_INFO)
    (h : ∃ x ∈ l, x.fbo_state = FBO_INFO_UNUSED) :
    ∃ pre s rest, l = pre ++ s :: rest ∧ (∀ x ∈ pre, x.fbo_state ≠ FBO_INFO_UNUSED) ∧
      s.fbo_state = FBO_INFO_UNUSED := by
  induction l with
  | nil => simp at h
  | cons a l ih =>
    by_cases ha : a.fbo_state = FBO_INFO_UNUSED
    · exact ⟨[], a, l, rfl, by simp, ha⟩
    · have h2 : ∃ x ∈ l, x.fbo_state = FBO_INFO_UNUSED := by
        obtain ⟨x, hx, hxs⟩ := h
        rcases List.mem_cons.1 hx with rfl | hx
        · exact absurd hxs ha
        · exact ⟨x, hx, hxs⟩
      obtain ⟨pre, s, rest, hl, hpre, hs⟩ := ih h2
      refine ⟨a :: pre, s, rest, by simp [hl], ?_, hs⟩
      intro x hx
      rcases List.mem_cons.1 hx with rfl | hx
      · exact ha
      · exact hpre x hx

/-- With an UNUSED slot in the pool the finder returns the first one. -/
theorem find_unused_of_exists (fbos : List ALLEGRO_FBO_INFO)
    (h : ∃ x ∈ fbos, x.fbo_state = FBO_INFO_UNUSED) :
    ∃ (i : Nat) (s : ALLEGRO_FBO_INFO),
      ogl_find_unused_fbo fbos = (i : Int) ∧ fbos[i]? = some s ∧
      s.fbo_state = FBO_INFO_UNUSED ∧
      ∀ j x, j < i → fbos[j]? = some x → x.fbo_state ≠ FBO_INFO_UNUSED := by
  obtain ⟨pre, s, rest, hl, hpre, hs⟩ := exists_first_unused fbos h
  refine ⟨pre.length, s, ?_, ?_, hs, ?_⟩
  · unfold ogl_find_unused_fbo
    rw [hl, find_loop_unused pre s rest hpre hs]; simp
  · rw [hl, List.getElem?_append_right (le_refl _)]; simp
  · intro j x hj hx
    rw [hl, List.getElem?_append_left hj] at hx
    exact hpre x (List.getElem?_mem hx)

/-- Without an UNUSED slot, and with some timestamp below `DBL_MAX`, the
finder returns the first slot that has the least timestamp. -/
theorem find_oldest_of_full (fbos : List ALLEGRO_FBO_INFO)
    (hfull : ∀ x ∈ fbos, x.fbo_state ≠ FBO_INFO_UNUSED)
    (ht : ∃ x ∈ fbos, x.last_use_time < DBL_MAX) :
    ∃ (i : Nat) (s : ALLEGRO_FBO_INFO),
      ogl_find_unused_fbo fbos = (i : Int) ∧ fbos[i]? = some s ∧
      (∀ x ∈ fbos, s.last_use_time ≤ x.last_use_time) ∧
      ∀ j x, j < i → fbos[j]? = some x → s.last_use_time < x.last_use_time := by
  unfold ogl_find_unused_fbo
  rcases find_loop_no_unused fbos hfull 0 DBL_MAX (-1) with
    ⟨_, hmin⟩ | ⟨k, s, hk, hr, _, hmin, hfirst⟩
  · obtain ⟨x, hx, hxt⟩ := ht
    exact absurd (hmin x hx) (not_le.2 hxt)
  · exact ⟨k, s, by simpa using hr, hk, hmin, hfirst⟩

theorem slotAt_natCast (fbos : List ALLEGRO_FBO_INFO) (i : Nat) :
    slotAt fbos (i : Int) = fbos[i]? := by
  simp [slotAt]

/-- C3: on a non-empty pool whose slots are UNUSED or TRANSIENT, with timestamps
below `DBL_MAX`, `ogl_find_unused_fbo` returns the lowest-index UNUSED slot when
there is one; otherwise it returns a slot whose `last_use_time` is the least of
the pool, and among the slots with that timestamp the one of lowest index. -/
theorem ogl_find_unused_fbo_reference (fbos : List ALLEGRO_FBO_INFO) (hne : fbos ≠ [])
    (_hst : ∀ s ∈ fbos, s.fbo_state = FBO_INFO_UNUSED ∨ s.fbo_state = FBO_INFO_TRANSIENT)
    (ht : ∀ s ∈ fbos, s.last_use_time < DBL_MAX) :
    ∃ (i : Nat) (s : ALLEGRO_FBO_INFO),
      ogl_find_unused_fbo fbos = (i : Int) ∧ fbos[i]? = some s ∧
      ((∃ x ∈ fbos, x.fbo_state = FBO_INFO_UNUSED) →
        s.fbo_state = FBO_INFO_UNUSED ∧
        ∀ j x, j < i → fbos[j]? = some x → x.fbo_state ≠ FBO_INFO_UNUSED) ∧
      ((∀ x ∈ fbos, x.fbo_state ≠ FBO_INFO_UNUSED) →
        (∀ x ∈ fbos, s.last_use_time ≤ x.last_use_time) ∧
        ∀ j x, j < i → fbos[j]? = some x → s.last_use_time < x.last_use_time) := by
  by_cases hu : ∃ x ∈ fbos, x.fbo_state = FBO_INFO_UNUSED
  · obtain ⟨i, s, hi, hs, hst, hfirst⟩ := find_unused_of_exists fbos hu
    refine ⟨i, s, hi, hs, fun _ => ⟨hst, hfirst⟩, ?_⟩
    intro hfull
    obtain ⟨x, hx, hxs⟩ := hu
    exact absurd hxs (hfull x hx)
  · have hfull : ∀ x ∈ fbos, x.fbo_state ≠ FBO_INFO_UNUSED :=
      fun x hx hxs => hu ⟨x, hx, hxs⟩
    obtain ⟨a, ha⟩ := List.exists_mem_of_ne_nil fbos hne
    obtain ⟨i, s, hi, hs, hmin, hfirst⟩ :=
      find_oldest_of_full fbos hfull ⟨a, ha, ht a ha⟩
    exact ⟨i, s, hi, hs, fun h => absurd h hu, fun _ => ⟨hmin, hfirst⟩⟩

/-- C3, at a full pool with a tie: the second slot is returned, the first of the
two slots that carry the least timestamp. -/
theorem ogl_find_unused_fbo_reference_witness :
    ∃ (i : Nat) (s : ALLEGRO_FBO_INFO),
      ogl_find_unused_fbo pool_full_tie = (i : Int) ∧ pool_full_tie[i]? = some s ∧
      ((∃ x ∈ pool_full_tie, x.fbo_state = FBO_INFO_UNUSED) →
        s.fbo_state = FBO_INFO_UNUSED ∧
        ∀ j x, j < i → pool_full_tie[j]? = some x → x.fbo_state ≠ FBO_INFO_UNUSED) ∧
      ((∀ x ∈ pool_full_tie, x.fbo_state ≠ FBO_INFO_UNUSED) →
        (∀ x ∈ pool_full_tie, s.last_use_time ≤ x.last_use_time) ∧
        ∀ j x, j < i → pool_full_tie[j]? = some x → s.last_use_time < x.last_use_time) :=
  ogl_find_unused_fbo_reference pool_full_tie (by decide) (by decide) (by decide)

/-- The finder tests for UNUSED and compares timestamps; it has no test for
PERSISTENT.  On `pool_persistent_oldest`, a pool that no sequence of calls
produces, it returns the PERSISTENT slot, which has the least timestamp. -/
theorem find_unused_returns_persistent :
    (∃ x ∈ pool_persistent_oldest,
        x.fbo_state = FBO_INFO_UNUSED ∨ x.fbo_state = FBO_INFO_TRANSIENT) ∧
      (slotAt pool_persistent_oldest (ogl_find_unused_fbo pool_persistent_oldest)).map
        (fun s => s.fbo_state) = some FBO_INFO_PERSISTENT := by
  decide

/-! ## Stores and loads -/

@[simp] theorem setRec_bitmaps (w : World) (r : Ref) (s : ALLEGRO_FBO_INFO) :
    (setRec w r s).bitmaps = w.bitmaps := by
  cases r <;> rfl

@[simp] theorem setRec_opengl_target (w : World) (r : Ref) (s : ALLEGRO_FBO_INFO) :
    (setRec w r s).opengl_target = w.opengl_target := by
  cases r <;> rfl

@[simp] theorem setRec_bound_fbo (w : World) (r : Ref) (s : ALLEGRO_FBO_INFO) :
    (setRec w r s).bound_fbo = w.bound_fbo := by
  cases r <;> rfl

@[simp] theorem setRec_extension_list_fbo (w : World) (r : Ref) (s : ALLEGRO_FBO_INFO) :
    (setRec w r s).extension_list_fbo = w.extension_list_fbo := by
  cases r <;> rfl

@[simp] theorem setRec_is_shared (w : World) (r : Ref) (s : ALLEGRO_FBO_INFO) :
    (setRec w r s).is_shared = w.is_shared := by
  cases r <;> rfl

theorem getRec_setRec_self (w : World) (r : Ref) (s s1 : ALLEGRO_FBO_INFO)
    (h : getRec w r = some s) : getRec (setRec w r s1) r = some s1 := by
  cases r with
  | slot i =>
    simp only [getRec] at h
    obtain ⟨hi, _⟩ := List.getElem?_eq_some.1 h
    simp [getRec, setRec, hi]
  | heap k =>
    simp only [getRec] at h
    obtain ⟨hk, _⟩ := List.getElem?_eq_some.1 h
    simp [getRec, setRec, hk]

theorem getRec_setRec_ne (w : World) (r r1 : Ref) (s1 : ALLEGRO_FBO_INFO) (h : r1 ≠ r) :
    getRec (setRec w r s1) r1 = getRec w r1 := by
  cases r with
  | slot i =>
    cases r1 with
    | slot j =>
      have hij : i ≠ j := fun e => h (by rw [e])
      simp [getRec, setRec, hij]
    | heap k => rfl
  | heap k =>
    cases r1 with
    | slot j => rfl
    | heap j =>
      have hkj : k ≠ j := fun e => h (by rw [e])
      simp [getRec, setRec, hkj]

/-- A store through a pointer changes at most the record it points to. -/
theorem getRec_setRec (w : World) (r r1 : Ref) (s1 x : ALLEGRO_FBO_INFO)
    (h : getRec (setRec w r s1) r1 = some x) :
    (r1 = r ∧ x = s1) ∨ (r1 ≠ r ∧ getRec w r1 = some x) := by
  by_cases e : r1 = r
  · subst e
    left
    refine ⟨rfl, ?_⟩
    cases r1 with
    | slot i =>
      simp only [getRec, setRec] at h
      obtain ⟨hi, hx⟩ := List.getElem?_eq_some.1 h
      simp at hx; exact hx.symm
    | heap k =>
      simp only [getRec, setRec] at h
      obtain ⟨hi, hx⟩ := List.getElem?_eq_some.1 h
      simp at hx; exact hx.symm
  · right
    exact ⟨e, by rw [← getRec_setRec_ne w r r1 s1 e]; exact h⟩

@[simp] theorem getRec_set_fbo_info (w : World) (b : Nat) (v : Option Ref) (r : Ref) :
    getRec (set_fbo_info w b v) r = getRec w r := by
  cases r <;> rfl

@[simp] theorem set_fbo_info_fbos (w : World) (b : Nat) (v : Option Ref) :
    (set_fbo_info w b v).fbos = w.fbos := rfl

@[simp] theorem set_fbo_info_heap (w : World) (b : Nat) (v : Option Ref) :
    (set_fbo_info w b v).heap = w.heap := rfl

@[simp] theorem set_fbo_info_self (w : World) (b : Nat) (v : Option Ref) :
    ((set_fbo_info w b v).bitmaps b).fbo_info = v := by
  simp [set_fbo_info]

theorem set_fbo_info_ne (w : World) (b c : Nat) (v : Option Ref) (h : c ≠ b) :
    (set_fbo_info w b v).bitmaps c = w.bitmaps c := by
  simp [set_fbo_info, Function.update_noteq h]

@[simp] theorem set_fbo_info_parent (w : World) (b c : Nat) (v : Option Ref) :
    ((set_fbo_info w b v).bitmaps c).parent = (w.bitmaps c).parent := by
  by_cases h : c = b
  · subst h; simp [set_fbo_info]
  · rw [set_fbo_info_ne w b c v h]

@[simp] theorem set_fbo_info_is_backbuffer (w : World) (b c : Nat) (v : Option Ref) :
    ((set_fbo_info w b v).bitmaps c).is_backbuffer = (w.bitmaps c).is_backbuffer := by
  by_cases h : c = b
  · subst h; simp [set_fbo_info]
  · rw [set_fbo_info_ne w b c v h]

@[simp] theorem set_fbo_info_force_locking (w : World) (b c : Nat) (v : Option Ref) :
    ((set_fbo_info w b v).bitmaps c).force_locking = (w.bitmaps c).force_locking := by
  by_cases h : c = b
  · subst h; simp [set_fbo_info]
  · rw [set_fbo_info_ne w b c v h]

@[simp] theorem set_fbo_info_display (w : World) (b c : Nat) (v : Option Ref) :
    ((set_fbo_info w b v).bitmaps c).display = (w.bitmaps c).display := by
  by_cases h : c = b
  · subst h; simp [set_fbo_info]
  · rw [set_fbo_info_ne w b c v h]

/-- Writing back the association a bitmap already has changes nothing. -/
theorem set_fbo_info_same (w : World) (b : Nat) (v : Option Ref)
    (h : (w.bitmaps b).fbo_info = v) : (set_fbo_info w b v).bitmaps = w.bitmaps := by
  funext c
  by_cases hc : c = b
  · subst hc
    simp only [set_fbo_info, Function.update_same]
    rw [← h]
  · exact set_fbo_info_ne w b c v hc

/-! ## The pointer scan of `_al_ogl_persist_fbo` -/

theorem pool_index_of_slot (i n : Nat) :
    pool_index_of (.slot i) n = if i < n then some i else none := by
  unfold pool_index_of
  induction n with
  | zero => simp
  | succ n ih =>
    rw [List.range_succ, List.find?_append, ih]
    by_cases h : i < n
    · have h1 : i < n + 1 := by omega
      simp [h, h1]
    · by_cases h2 : i = n
      · subst h2; simp
      · have h1 : ¬ i < n + 1 := by omega
        simp [h, h1, h2]

theorem pool_index_of_heap (k n : Nat) : pool_index_of (.heap k) n = none := by
  simp [pool_index_of]

/-- C4: promoting the TRANSIENT slot `i` returns a record that did not exist
before, with the slot's handle, owner and timestamp and state PERSISTENT; slot
`i` is reset, and no other pool slot, earlier record or bitmap changes. -/
theorem persist_fbo_preserves_handle (w : World) (i : Nat) (s : ALLEGRO_FBO_INFO)
    (hs : w.fbos[i]? = some s) (_ht : s.fbo_state = FBO_INFO_TRANSIENT) :
    (_al_ogl_persist_fbo w (.slot i)).2 = .heap w.heap.length ∧
    getRec w (_al_ogl_persist_fbo w (.slot i)).2 = none ∧
    getRec (_al_ogl_persist_fbo w (.slot i)).1 (_al_ogl_persist_fbo w (.slot i)).2 =
      some { fbo_state := FBO_INFO_PERSISTENT, fbo := s.fbo, owner := s.owner,
             last_use_time := s.last_use_time } ∧
    (_al_ogl_persist_fbo w (.slot i)).1.fbos[i]? =
      some { fbo_state := FBO_INFO_UNUSED, fbo := 0, owner := none, last_use_time := 0 } ∧
    (_al_ogl_persist_fbo w (.slot i)).1.fbos.length = w.fbos.length ∧
    (∀ j, j ≠ i → (_al_ogl_persist_fbo w (.slot i)).1.fbos[j]? = w.fbos[j]?) ∧
    (∀ k, k < w.heap.length → (_al_ogl_persist_fbo w (.slot i)).1.heap[k]? = w.heap[k]?) ∧
    (_al_ogl_persist_fbo w (.slot i)).1.bitmaps = w.bitmaps := by
  obtain ⟨hi, _⟩ := List.getElem?_eq_some.1 hs
  have hp : _al_ogl_persist_fbo w (.slot i) =
      ({ w with heap := w.heap ++ [{ s with fbo_state := FBO_INFO_PERSISTENT }],
                fbos := w.fbos.set i _al_ogl_reset_fbo_info }, .heap w.heap.length) := by
    simp [_al_ogl_persist_fbo, pool_index_of_slot, hi, hs]
  rw [hp]
  refine ⟨rfl, by simp [getRec], by simp [getRec], ?_, by simp, ?_, ?_, rfl⟩
  · simp [hi, _al_ogl_reset_fbo_info]
  · intro j hj
    simp [Ne.symm hj]
  · intro k hk
    simp [List.getElem?_append_left hk]

/-- C4, at the TRANSIENT slot `0` of `world_two_targets`. -/
theorem persist_fbo_preserves_handle_witness :
    (_al_ogl_persist_fbo world_two_targets (.slot 0)).2 = .heap 1 ∧
    getRec (_al_ogl_persist_fbo world_two_targets (.slot 0)).1 (.heap 1) =
      some { fbo_state := FBO_INFO_PERSISTENT, fbo := 11, owner := some 1,
             last_use_time := 1 } ∧
    (_al_ogl_persist_fbo world_two_targets (.slot 0)).1.fbos[0]? =
      some { fbo_state := FBO_INFO_UNUSED, fbo := 0, owner := none, last_use_time := 0 } :=
  have h := persist_fbo_preserves_handle world_two_targets 0
    { fbo_state := FBO_INFO_TRANSIENT, fbo := 11, owner := some 1, last_use_time := 1 }
    rfl rfl
  ⟨h.1, h.2.2.1, h.2.2.2.1⟩

/-- In `world_no_fbo_ext` framebuffer 7 is bound although the display's
extension list has no FBO extension, a state that no sequence of calls passing
the `ASSERT` of lines 309-310 produces.  There the backbuffer branch does not
call `_al_ogl_bind_framebuffer(0)` and framebuffer 7 stays bound. -/
theorem setup_backbuffer_keeps_binding :
    (world_no_fbo_ext.bitmaps 0).is_backbuffer = true ∧
    (world_no_fbo_ext.bitmaps 0).parent = none ∧
    (_al_ogl_setup_fbo world_no_fbo_ext (env_ok 5 1) 0).map
      (fun w => (w.opengl_target, w.bound_fbo)) = some (some 0, 7) := by
  decide

/-- One re-activation of a bitmap whose record has a non-zero handle, with
the completeness check passing. -/
theorem setup_fbo_reuse_step (w : World) (env : GLEnv) (b : Nat) (r : Ref)
    (s : ALLEGRO_FBO_INFO)
    (hbb : (w.bitmaps (resolve w b)).is_backbuffer = false)
    (hinfo : (w.bitmaps (resolve w b)).fbo_info = some r)
    (hrec : getRec w r = some s) (hfbo : s.fbo ≠ 0)
    (hst : s.fbo_state ≠ FBO_INFO_UNUSED) (hok : env.incomplete = false) :
    ∃ w1, _al_ogl_setup_fbo w env b = some w1 ∧
      w1.bitmaps = w.bitmaps ∧
      getRec w1 r = some { s with owner := some (resolve w b), last_use_time := env.now } ∧
      (∀ r1, r1 ≠ r → getRec w1 r1 = getRec w r1) ∧
      w1.fbos.length = w.fbos.length ∧ w1.heap.length = w.heap.length ∧
      w1.opengl_target = some (resolve w b) ∧ w1.bound_fbo = s.fbo := by
  have hsel : select_fbo_info w env (resolve w b) = some (w, some r) := by
    simp [select_fbo_info, hinfo]
  have hcall : _al_ogl_setup_fbo w env b =
      some { (set_fbo_info (setRec w r
                { s with owner := some (resolve w b), last_use_time := env.now })
              (resolve w b) (some r)) with
             bound_fbo := s.fbo, opengl_target := some (resolve w b) } := by
    simp only [_al_ogl_setup_fbo, hbb, if_true, hsel, bind_fbo_info, hrec, hfbo, if_false,
      hok, hst, Bool.false_eq_true, _al_ogl_bind_framebuffer]
  refine ⟨_, hcall, ?_, ?_, ?_, ?_, ?_, rfl, rfl⟩
  · show (set_fbo_info (setRec w r _) (resolve w b) (some r)).bitmaps = _
    rw [set_fbo_info_same _ _ _ (by simpa using hinfo)]
    simp
  · show getRec (set_fbo_info (setRec w r _) (resolve w b) (some r)) r = _
    rw [getRec_set_fbo_info, getRec_setRec_self w r s _ hrec]
  · intro r1 hr1
    show getRec (set_fbo_info (setRec w r _) (resolve w b) (some r)) r1 = _
    rw [getRec_set_fbo_info, getRec_setRec_ne w r r1 _ hr1]
  · cases r <;> simp [set_fbo_info, setRec]
  · cases r <;> simp [set_fbo_info, setRec]

theorem resolve_congr (w w1 : World) (h : w1.bitmaps = w.bitmaps) (b : Nat) :
    resolve w1 b = resolve w b := by
  simp [resolve, h]

/-- Re-activations in a row, the first environment listed apart. -/
theorem setup_fbo_reuse_many (b : Nat) (r : Ref) (rest : List GLEnv) :
    ∀ (e : GLEnv) (w : World) (s : ALLEGRO_FBO_INFO),
    (w.bitmaps (resolve w b)).is_backbuffer = false →
    (w.bitmaps (resolve w b)).fbo_info = some r →
    getRec w r = some s → s.fbo ≠ 0 → s.fbo_state ≠ FBO_INFO_UNUSED →
    (∀ x ∈ e :: rest, x.incomplete = false) →
    ∃ w1, runCalls w ((e :: rest).map (fun x => Call.setup x b)) = some w1 ∧
      w1.bitmaps = w.bitmaps ∧
      getRec w1 r = some { s with owner := some (resolve w b),
                                  last_use_time :=
                                    ((e :: rest).getLast (List.cons_ne_nil e rest)).now } ∧
      (∀ r1, r1 ≠ r → getRec w1 r1 = getRec w r1) ∧
      w1.fbos.length = w.fbos.length ∧ w1.heap.length = w.heap.length ∧
      w1.opengl_target = some (resolve w b) ∧ w1.bound_fbo = s.fbo := by
  induction rest with
  | nil =>
    intro e w s hbb hinfo hrec hfbo hst hok
    obtain ⟨w1, hcall, h1⟩ :=
      setup_fbo_reuse_step w e b r s hbb hinfo hrec hfbo hst (hok e (List.mem_cons_self _ _))
    exact ⟨w1, by simp [runCalls, Call.run, hcall], h1⟩
  | cons e2 rest ih =>
    intro e w s hbb hinfo hrec hfbo hst hok
    obtain ⟨w1, hcall, hbm, hr, hothers, hlen, hheap, _, _⟩ :=
      setup_fbo_reuse_step w e b r s hbb hinfo hrec hfbo hst (hok e (List.mem_cons_self _ _))
    have hres : resolve w1 b = resolve w b := resolve_congr w w1 hbm b
    obtain ⟨w2, hrun, hbm2, hr2, hothers2, hlen2, hheap2, htgt2, hbound2⟩ :=
      ih e2 w1 _ (by rw [hres, hbm]; exact hbb) (by rw [hres, hbm]; exact hinfo) hr hfbo hst
        (fun x hx => hok x (List.mem_cons_of_mem _ hx))
    refine ⟨w2, ?_, hbm2.trans hbm, ?_, ?_, hlen2.trans hlen, hheap2.trans hheap, ?_, hbound2⟩
    · simp only [List.map_cons, runCalls, Call.run, hcall, Option.some_bind]
      simpa [runCalls, Call.run] using hrun
    · rw [hr2, hres]
      simp [List.getLast_cons]
    · intro r1 hr1
      rw [hothers2 r1 hr1, hothers r1 hr1]
    · rw [htgt2, hres]

/-- C7: a bitmap that is not the backbuffer and whose record has a non-zero
handle is activated any number of times, the completeness check passing each
time.  Every call returns; afterwards the bitmap refers to the same record,
whose handle and state are those it had and whose `last_use_time` is the clock
value read by the last call; no other record (pool slot or allocated record)
and no bitmap's association has changed.  The record of an association is in
use (`hst`); in a reachable state every record with a non-zero handle is
(`reachable_noStaleHandle`). -/
theorem setup_fbo_reactivate (w : World) (b : Nat) (r : Ref) (s : ALLEGRO_FBO_INFO)
    (envs : List GLEnv) (hne : envs ≠ [])
    (hbb : (w.bitmaps (resolve w b)).is_backbuffer = false)
    (hinfo : (w.bitmaps (resolve w b)).fbo_info = some r)
    (hrec : getRec w r = some s) (hfbo : s.fbo ≠ 0)
    (hst : s.fbo_state ≠ FBO_INFO_UNUSED)
    (hok : ∀ e ∈ envs, e.incomplete = false) :
    ∃ w1, runCalls w (envs.map (fun e => Call.setup e b)) = some w1 ∧
      w1.bitmaps = w.bitmaps ∧
      getRec w1 r = some { fbo_state := s.fbo_state, fbo := s.fbo,
                           owner := some (resolve w b),
                           last_use_time := (envs.getLast hne).now } ∧
      (∀ r1, r1 ≠ r → getRec w1 r1 = getRec w r1) ∧
      w1.fbos.length = w.fbos.length ∧ w1.heap.length = w.heap.length ∧
      w1.opengl_target = some (resolve w b) ∧ w1.bound_fbo = s.fbo := by
  cases envs with
  | nil => exact absurd rfl hne
  | cons e rest => exact setup_fbo_reuse_many b r rest e w s hbb hinfo hrec hfbo hst hok

/-- C7, at bitmap `1` of `world_two_targets`, activated three times. -/
theorem setup_fbo_reactivate_witness :
    ∃ w1, runCalls world_two_targets
        ([env_ok 0 5, env_ok 0 6, env_ok 0 9].map (fun e => Call.setup e 1)) = some w1 ∧
      w1.bitmaps = world_two_targets.bitmaps ∧
      getRec w1 (.slot 0) = some { fbo_state := FBO_INFO_TRANSIENT, fbo := 11,
                                   owner := some 1, last_use_time := 9 } ∧
      (∀ r1, r1 ≠ Ref.slot 0 → getRec w1 r1 = getRec world_two_targets r1) :=
  have h := setup_fbo_reactivate world_two_targets 1 (.slot 0)
    { fbo_state := FBO_INFO_TRANSIENT, fbo := 11, owner := some 1, last_use_time := 1 }
    [env_ok 0 5, env_ok 0 6, env_ok 0 9] (List.cons_ne_nil _ _) rfl rfl rfl (by decide)
    (by decide)
    (by decide)
  h.elim fun w1 h1 => ⟨w1, h1.1, h1.2.1, h1.2.2.1, h1.2.2.2.1⟩

/-- C5, as stated, fails: bitmap `2` has `ALLEGRO_FORCE_LOCKING` and a
persistent FBO.  The activation whose completeness check fails resets the
record and clears the association; the next activation, although the extension
is there, handle generation works and the check would pass, does not take a
slot from the pool: both slots stay UNUSED and the bitmap stays unassociated. -/
theorem setup_fbo_no_retry_when_force_locking :
    Initial world_force_locking ∧
    (runCalls world_force_locking
        [.create (env_ok 12 1) 2, .setup (env_incomplete 0 2) 2]).map
      (fun w => (getRec w (.heap 0), (w.bitmaps 2).fbo_info)) =
      some (some _al_ogl_reset_fbo_info, none) ∧
    (runCalls world_force_locking
        [.create (env_ok 12 1) 2, .setup (env_incomplete 0 2) 2,
         .setup (env_ok 20 3) 2]).map
      (fun w => (w.fbos, (w.bitmaps 2).fbo_info)) =
      some ([_al_ogl_reset_fbo_info, _al_ogl_reset_fbo_info], none) := by
  refine ⟨⟨by decide, rfl, ?_⟩, by decide, by decide⟩
  intro b
  show (if b = 2 then _ else _ : ALLEGRO_BITMAP).fbo_info = none
  split <;> rfl

/-- C5, amended: `_al_ogl_setup_fbo` is called on a bitmap that is not the
backbuffer, reaches the completeness check with record `r` (taken from the pool
or already associated, TRANSIENT or PERSISTENT) and the check fails.  The call
returns; afterwards the bitmap has no association, `r` is reset and framebuffer
0 is bound.  A later activation of the bitmap, provided it does not have
`ALLEGRO_FORCE_LOCKING` and the FBO extension is available, takes the
no-association path: its record is the one `ogl_find_unused_fbo` hands out. -/
theorem setup_fbo_incomplete (w w1 : World) (env : GLEnv) (b : Nat) (r : Ref)
    (s : ALLEGRO_FBO_INFO)
    (hbb : (w.bitmaps (resolve w b)).is_backbuffer = false)
    (hsel : select_fbo_info w env (resolve w b) = some (w1, some r))
    (hrec : getRec w1 r = some s) (hfbo : s.fbo ≠ 0)
    (hinc : env.incomplete = true) :
    ∃ w2, _al_ogl_setup_fbo w env b = some w2 ∧
      (w2.bitmaps (resolve w b)).fbo_info = none ∧
      getRec w2 r = some { fbo_state := FBO_INFO_UNUSED, fbo := 0, owner := none,
                           last_use_time := 0 } ∧
      w2.bound_fbo = 0 ∧
      ∀ env2 : GLEnv, (w2.bitmaps (resolve w b)).force_locking = false →
        (env2.is_opengles = true ∨ env2.cur_fbo_ext = true) →
        select_fbo_info w2 env2 (resolve w b) = take_pool_slot w2 env2 := by
  have hcall : _al_ogl_setup_fbo w env b =
      some (set_fbo_info
        (setRec { (set_fbo_info (setRec w1 r
            { fbo_state :=
                if s.fbo_state = FBO_INFO_UNUSED then FBO_INFO_TRANSIENT else s.fbo_state,
              fbo := s.fbo, owner := some (resolve w b), last_use_time := env.now })
            (resolve w b) (some r)) with bound_fbo := 0 } r _al_ogl_reset_fbo_info)
        (resolve w b) none) := by
    simp only [_al_ogl_setup_fbo, hbb, if_true, hsel, bind_fbo_info, hrec, hfbo, if_false,
      hinc, _al_ogl_bind_framebuffer]
  have hinfo2 : ∀ w3 : World, ((set_fbo_info w3 (resolve w b) none).bitmaps
      (resolve w b)).fbo_info = none := fun w3 => set_fbo_info_self w3 _ _
  refine ⟨_, hcall, hinfo2 _, ?_, ?_, ?_⟩
  · rw [getRec_set_fbo_info]
    apply getRec_setRec_self _ r
      { fbo_state :=
          if s.fbo_state = FBO_INFO_UNUSED then FBO_INFO_TRANSIENT else s.fbo_state,
        fbo := s.fbo, owner := some (resolve w b), last_use_time := env.now }
    show getRec (set_fbo_info (setRec w1 r _) (resolve w b) (some r)) r = _
    rw [getRec_set_fbo_info, getRec_setRec_self w1 r s _ hrec]
  · simp [set_fbo_info]
  · intro env2 hfl hext
    unfold select_fbo_info
    rw [if_pos ⟨hinfo2 _, hfl⟩, if_pos hext]

/-- C5, amended, at bitmap `2` of `world_two_targets`, whose record is the
PERSISTENT `heap 0`. -/
theorem setup_fbo_incomplete_witness :
    ∃ w2, _al_ogl_setup_fbo world_two_targets (env_incomplete 0 7) 2 = some w2 ∧
      (w2.bitmaps 2).fbo_info = none ∧
      getRec w2 (.heap 0) = some { fbo_state := FBO_INFO_UNUSED, fbo := 0, owner := none,
                                   last_use_time := 0 } ∧
      w2.bound_fbo = 0 ∧
      ∀ env2 : GLEnv, (w2.bitmaps 2).force_locking = false →
        (env2.is_opengles = true ∨ env2.cur_fbo_ext = true) →
        select_fbo_info w2 env2 2 = take_pool_slot w2 env2 :=
  setup_fbo_incomplete world_two_targets world_two_targets (env_incomplete 0 7) 2 (.heap 0)
    { fbo_state := FBO_INFO_PERSISTENT, fbo := 12, owner := some 2, last_use_time := 2 }
    rfl rfl rfl (by decide) rfl

/-! ## Elementary updates of the view -/

@[simp] theorem Obs.setRec_recs (o : Obs) (r r1 : Ref) (s : ALLEGRO_FBO_INFO) :
    (o.setRec r s).recs r1 = if r1 = r then some s else o.recs r1 := by
  simp [Obs.setRec, Function.update_apply]

@[simp] theorem Obs.setRec_assoc (o : Obs) (r : Ref) (s : ALLEGRO_FBO_INFO) :
    (o.setRec r s).assoc = o.assoc := rfl

@[simp] theorem Obs.setAssoc_assoc (o : Obs) (t b : Nat) (v : Option Ref) :
    (o.setAssoc t v).assoc b = if b = t then v else o.assoc b := by
  simp [Obs.setAssoc, Function.update_apply]

@[simp] theorem Obs.setAssoc_recs (o : Obs) (t : Nat) (v : Option Ref) :
    (o.setAssoc t v).recs = o.recs := rfl

theorem ownerState_reset : OwnerState _al_ogl_reset_fbo_info := by
  simp [OwnerState, _al_ogl_reset_fbo_info]

theorem ownerState_attached (s s1 : ALLEGRO_FBO_INFO) (t : Nat) (ho : s1.owner = some t)
    (hs : s1.fbo_state =
      (if s.fbo_state = FBO_INFO_UNUSED then FBO_INFO_TRANSIENT else s.fbo_state)) :
    OwnerState s1 := by
  unfold OwnerState
  rw [ho, hs]
  by_cases h : s.fbo_state = FBO_INFO_UNUSED
  · simp [h]
  · simp [h]

theorem Obs.OwnerStateAll_setRec (o : Obs) (r : Ref) (s1 : ALLEGRO_FBO_INFO)
    (h : o.OwnerStateAll) (h1 : OwnerState s1) : (o.setRec r s1).OwnerStateAll := by
  intro r1 x hx
  rw [Obs.setRec_recs] at hx
  split at hx
  · cases hx; exact h1
  · exact h r1 x hx

theorem Obs.OwnerStateAll_setAssoc (o : Obs) (t : Nat) (v : Option Ref)
    (h : o.OwnerStateAll) : (o.setAssoc t v).OwnerStateAll := h

/-- Every elementary update keeps the owner/state invariant. -/
theorem absStep_ownerStateAll (lit : Bool) (o o1 : Obs) (hstep : AbsStep lit o o1)
    (h : o.OwnerStateAll) : o1.OwnerStateAll := by
  cases hstep with
  | frame r s s1 hr hst how =>
    apply Obs.OwnerStateAll_setRec _ _ _ h
    have := h r s hr
    unfold OwnerState at this ⊢
    rw [hst, how]; exact this
  | evict i s a hr hst how =>
    exact Obs.OwnerStateAll_setRec _ _ _ (Obs.OwnerStateAll_setAssoc _ _ _ h) ownerState_reset
  | attach_new i s s1 t hr hst has how hs1 =>
    exact Obs.OwnerStateAll_setAssoc _ _ _
      (Obs.OwnerStateAll_setRec _ _ _ h (ownerState_attached s s1 t how hs1))
  | attach_old r s s1 t hr has how hs1 =>
    exact Obs.OwnerStateAll_setAssoc _ _ _
      (Obs.OwnerStateAll_setRec _ _ _ h (ownerState_attached s s1 t how hs1))
  | fail r t has =>
    exact Obs.OwnerStateAll_setAssoc _ _ _ (Obs.OwnerStateAll_setRec _ _ _ h ownerState_reset)
  | create k x t hr has how hst =>
    apply Obs.OwnerStateAll_setAssoc
    apply Obs.OwnerStateAll_setRec _ _ _ h
    simp [OwnerState, how, hst]
  | persist i k s hlit hr hst hk =>
    apply Obs.OwnerStateAll_setRec _ _ _ _ ownerState_reset
    apply Obs.OwnerStateAll_setRec _ _ _ h
    have := h _ s hr
    unfold OwnerState at this ⊢
    simp only [hst] at this
    simpa using this
  | promote i k s t hr hst hk has =>
    apply Obs.OwnerStateAll_setAssoc
    apply Obs.OwnerStateAll_setRec _ _ _ _ ownerState_reset
    apply Obs.OwnerStateAll_setRec _ _ _ h
    have := h _ s hr
    unfold OwnerState at this ⊢
    simp only [hst] at this
    simpa using this

theorem Obs.PoolNotPersistent_setRec (o : Obs) (r : Ref) (s1 : ALLEGRO_FBO_INFO)
    (h : o.PoolNotPersistent) (h1 : ∀ i, r = .slot i → s1.fbo_state ≠ FBO_INFO_PERSISTENT) :
    (o.setRec r s1).PoolNotPersistent := by
  intro i x hx
  rw [Obs.setRec_recs] at hx
  split at hx
  · rename_i e
    cases hx
    exact h1 i e.symm
  · exact h i x hx

theorem notPersistent_attached (s s1 : ALLEGRO_FBO_INFO)
    (hs : s.fbo_state ≠ FBO_INFO_PERSISTENT)
    (hs1 : s1.fbo_state =
      (if s.fbo_state = FBO_INFO_UNUSED then FBO_INFO_TRANSIENT else s.fbo_state)) :
    s1.fbo_state ≠ FBO_INFO_PERSISTENT := by
  rw [hs1]
  by_cases h : s.fbo_state = FBO_INFO_UNUSED
  · simp [h]
  · simp [h, hs]

/-- Every elementary update keeps PERSISTENT records out of the array. -/
theorem absStep_poolNotPersistent (lit : Bool) (o o1 : Obs) (hstep : AbsStep lit o o1)
    (h : o.PoolNotPersistent) : o1.PoolNotPersistent := by
  cases hstep with
  | frame r s s1 hr hst how =>
    apply Obs.PoolNotPersistent_setRec _ _ _ h
    intro i hi
    subst hi
    rw [hst]; exact h i s hr
  | evict i s a hr hst how =>
    apply Obs.PoolNotPersistent_setRec _ _ _ (by exact h)
    intro _ _; simp [_al_ogl_reset_fbo_info]
  | attach_new i s s1 t hr hst has how hs1 =>
    show (o.setRec (.slot i) s1).PoolNotPersistent
    apply Obs.PoolNotPersistent_setRec _ _ _ h
    intro _ _
    exact notPersistent_attached s s1 (h i s hr) hs1
  | attach_old r s s1 t hr has how hs1 =>
    show (o.setRec r s1).PoolNotPersistent
    apply Obs.PoolNotPersistent_setRec _ _ _ h
    intro i hi
    subst hi
    exact notPersistent_attached s s1 (h i s hr) hs1
  | fail r t has =>
    show (o.setRec r _al_ogl_reset_fbo_info).PoolNotPersistent
    apply Obs.PoolNotPersistent_setRec _ _ _ h
    intro _ _; simp [_al_ogl_reset_fbo_info]
  | create k x t hr has how hst =>
    show (o.setRec (.heap k) x).PoolNotPersistent
    apply Obs.PoolNotPersistent_setRec _ _ _ h
    intro i hi; cases hi
  | persist i k s hlit hr hst hk =>
    apply Obs.PoolNotPersistent_setRec
    · apply Obs.PoolNotPersistent_setRec _ _ _ h
      intro i hi; cases hi
    · intro _ _; simp [_al_ogl_reset_fbo_info]
  | promote i k s t hr hst hk has =>
    show ((o.setRec (.heap k) _).setRec (.slot i) _al_ogl_reset_fbo_info).PoolNotPersistent
    apply Obs.PoolNotPersistent_setRec
    · apply Obs.PoolNotPersistent_setRec _ _ _ h
      intro i hi; cases hi
    · intro _ _; simp [_al_ogl_reset_fbo_info]

theorem Obs.Back_setAssoc_other (o : Obs) (t : Nat) (v : Option Ref) (r1 : Ref)
    (h : o.Back r1) (hne : o.assoc t ≠ some r1) : (o.setAssoc t v).Back r1 := by
  intro s hs hst
  obtain ⟨b, hb, hab⟩ := h s hs hst
  refine ⟨b, hb, ?_⟩
  rw [Obs.setAssoc_assoc]
  split
  · rename_i e; subst e; exact absurd hab hne
  · exact hab

theorem Obs.Back_setAssoc_self (o : Obs) (t : Nat) (r1 : Ref)
    (h : ∀ s, o.recs r1 = some s → s.fbo_state ≠ FBO_INFO_UNUSED → s.owner = some t) :
    (o.setAssoc t (some r1)).Back r1 := by
  intro s hs hst
  exact ⟨t, h s hs hst, by simp⟩

theorem Obs.Back_setRec_other (o : Obs) (r r1 : Ref) (s1 : ALLEGRO_FBO_INFO)
    (h : o.Back r1) (hne : r1 ≠ r) : (o.setRec r s1).Back r1 := by
  intro s hs hst
  rw [Obs.setRec_recs, if_neg hne] at hs
  exact h s hs hst

theorem Obs.Back_setRec_unused (o : Obs) (r : Ref) (s1 : ALLEGRO_FBO_INFO)
    (h1 : s1.fbo_state = FBO_INFO_UNUSED) : (o.setRec r s1).Back r := by
  intro s hs hst
  rw [Obs.setRec_recs, if_pos rfl] at hs
  cases hs
  exact absurd h1 hst

theorem Obs.Back_setRec_reset (o : Obs) (r r1 : Ref) (h : o.Back r1) :
    (o.setRec r _al_ogl_reset_fbo_info).Back r1 := by
  by_cases e : r1 = r
  · subst e; exact Obs.Back_setRec_unused o r1 _ rfl
  · exact Obs.Back_setRec_other o r r1 _ h e

/-- The updates other than `create`, `persist` and `promote` keep `Back` at
every pointer; those three keep it at every pointer but the fresh record. -/
theorem absStep_back (lit : Bool) (o o1 : Obs) (hstep : AbsStep lit o o1)
    (hslots : ∀ i, o.Back (.slot i)) (r1 : Ref) (h : o.Back r1)
    (hold : o.recs r1 ≠ none) : o1.Back r1 := by
  cases hstep with
  | frame r s s1 hr hst how =>
    by_cases e : r1 = r
    · subst e
      intro x hx hxs
      rw [Obs.setRec_recs, if_pos rfl] at hx
      cases hx
      obtain ⟨b, hb, hab⟩ := h s hr (by rw [← hst]; exact hxs)
      exact ⟨b, by rw [how]; exact hb, hab⟩
    · exact Obs.Back_setRec_other o r r1 _ h e
  | evict i s a hr hst how =>
    obtain ⟨b, hb, hab⟩ := hslots i s hr (by simp [hst])
    have hba : b = a := by rw [how] at hb; cases hb; rfl
    subst hba
    by_cases e : r1 = .slot i
    · subst e; exact Obs.Back_setRec_unused _ _ _ rfl
    · apply Obs.Back_setRec_other _ _ _ _ _ e
      apply Obs.Back_setAssoc_other _ _ _ _ h
      rw [hab]; intro e2; cases e2; exact e rfl
  | attach_new i s s1 t hr hst has how hs1 =>
    by_cases e : r1 = .slot i
    · subst e
      apply Obs.Back_setAssoc_self
      intro x hx _
      rw [Obs.setRec_recs, if_pos rfl] at hx
      cases hx; exact how
    · apply Obs.Back_setAssoc_other
      · exact Obs.Back_setRec_other _ _ _ _ h e
      · show o.assoc t ≠ some r1
        rw [has]; simp
  | attach_old r s s1 t hr has how hs1 =>
    by_cases e : r1 = r
    · subst e
      apply Obs.Back_setAssoc_self
      intro x hx _
      rw [Obs.setRec_recs, if_pos rfl] at hx
      cases hx; exact how
    · apply Obs.Back_setAssoc_other
      · exact Obs.Back_setRec_other _ _ _ _ h e
      · show o.assoc t ≠ some r1
        rw [has]; intro e2; cases e2; exact e rfl
  | fail r t has =>
    by_cases e : r1 = r
    · subst e
      intro x hx hxs
      rw [Obs.setAssoc_recs, Obs.setRec_recs, if_pos rfl] at hx
      cases hx
      exact absurd rfl hxs
    · apply Obs.Back_setAssoc_other
      · exact Obs.Back_setRec_other _ _ _ _ h e
      · show o.assoc t ≠ some r1
        rw [has]; intro e2; cases e2; exact e rfl
  | create k x t hr has how hst =>
    have e : r1 ≠ .heap k := fun e => hold (by rw [e]; exact hr)
    apply Obs.Back_setAssoc_other
    · exact Obs.Back_setRec_other _ _ _ _ h e
    · show o.assoc t ≠ some r1
      rw [has]; simp
  | persist i k s hlit hr hst hk =>
    have e : r1 ≠ .heap k := fun e => hold (by rw [e]; exact hk)
    apply Obs.Back_setRec_reset
    exact Obs.Back_setRec_other _ _ _ _ h e
  | promote i k s t hr hst hk has =>
    have e : r1 ≠ .heap k := fun e => hold (by rw [e]; exact hk)
    by_cases e2 : r1 = .slot i
    · subst e2
      intro x hx hxs
      rw [Obs.setAssoc_recs, Obs.setRec_recs, if_pos rfl] at hx
      cases hx
      exact absurd rfl hxs
    · apply Obs.Back_setAssoc_other
      · apply Obs.Back_setRec_other _ _ _ _ _ e2
        exact Obs.Back_setRec_other _ _ _ _ h e
      · show o.assoc t ≠ some r1
        rw [has]; intro e3; cases e3; exact e2 rfl

/-- Every elementary update keeps `Back` at the pool slots. -/
theorem absStep_back_slots (lit : Bool) (o o1 : Obs) (hstep : AbsStep lit o o1)
    (hslots : ∀ i, o.Back (.slot i)) : ∀ i, o1.Back (.slot i) := by
  intro i
  by_cases hold : o.recs (.slot i) ≠ none
  · exact absStep_back lit o o1 hstep hslots (.slot i) (hslots i) hold
  · -- outside the array no update stores anything but a reset record
    have hnone : o.recs (.slot i) = none := not_not.1 hold
    have key : ∀ s, o1.recs (.slot i) = some s → s.fbo_state = FBO_INFO_UNUSED := by
      intro s hs
      cases hstep with
      | frame r s0 s1 hr hst how =>
        rw [Obs.setRec_recs] at hs
        split at hs
        · rename_i e; subst e; rw [hnone] at hr; cases hr
        · rw [hnone] at hs; cases hs
      | evict j s0 a hr hst how =>
        rw [Obs.setRec_recs] at hs
        split at hs
        · cases hs; rfl
        · rw [Obs.setAssoc_recs, hnone] at hs; cases hs
      | attach_new j s0 s1 t hr hst has how hs1 =>
        rw [Obs.setAssoc_recs, Obs.setRec_recs] at hs
        split at hs
        · rename_i e; cases e; rw [hnone] at hr; cases hr
        · rw [hnone] at hs; cases hs
      | attach_old r s0 s1 t hr has how hs1 =>
        rw [Obs.setAssoc_recs, Obs.setRec_recs] at hs
        split at hs
        · rename_i e; subst e; rw [hnone] at hr; cases hr
        · rw [hnone] at hs; cases hs
      | fail r t has =>
        rw [Obs.setAssoc_recs, Obs.setRec_recs] at hs
        split at hs
        · cases hs; rfl
        · rw [hnone] at hs; cases hs
      | create k x t hr has how hst =>
        rw [Obs.setAssoc_recs, Obs.setRec_recs] at hs
        split at hs
        · rename_i e; cases e
        · rw [hnone] at hs; cases hs
      | persist j k s0 hlit hr hst hk =>
        rw [Obs.setRec_recs] at hs
        split at hs
        · cases hs; rfl
        · rw [Obs.setRec_recs] at hs
          split at hs
          · rename_i e; cases e
          · rw [hnone] at hs; cases hs
      | promote j k s0 t hr hst hk has =>
        rw [Obs.setAssoc_recs, Obs.setRec_recs] at hs
        split at hs
        · cases hs; rfl
        · rw [Obs.setRec_recs] at hs
          split at hs
          · rename_i e; cases e
          · rw [hnone] at hs; cases hs
    intro s hs hst
    exact absurd (key s hs) hst

theorem attached_in_use (s s1 : ALLEGRO_FBO_INFO)
    (hs1 : s1.fbo_state =
      (if s.fbo_state = FBO_INFO_UNUSED then FBO_INFO_TRANSIENT else s.fbo_state)) :
    s1.fbo_state ≠ FBO_INFO_UNUSED := by
  rw [hs1]
  by_cases h : s.fbo_state = FBO_INFO_UNUSED
  · simp [h]
  · simp [h]

/-- `Fwd` at a bitmap whose association the update does not write and whose
record it does not store to. -/
theorem Obs.Fwd_frame (o o1 : Obs) (b : Nat) (h : o.Fwd b)
    (hassoc : o1.assoc b = o.assoc b)
    (hrecs : ∀ r, o.assoc b = some r → o1.recs r = o.recs r) : o1.Fwd b := by
  intro r hr
  rw [hassoc] at hr
  obtain ⟨s, hs, hst, how⟩ := h r hr
  exact ⟨s, by rw [hrecs r hr]; exact hs, hst, how⟩

/-- When every promotion stores its result, every elementary update keeps
`Fwd` at every bitmap. -/
theorem absStep_fwd (o o1 : Obs) (hstep : AbsStep false o o1)
    (hpool : o.PoolNotPersistent) (hfwd : ∀ b, o.Fwd b) : ∀ b, o1.Fwd b := by
  intro b
  cases hstep with
  | frame r s s1 hr hst how =>
    intro r1 hr1
    obtain ⟨x, hx, hxs, hxo⟩ := hfwd b r1 hr1
    by_cases e : r1 = r
    · subst e
      rw [hr] at hx; cases hx
      exact ⟨s1, by simp, by rw [hst]; exact hxs, by rw [how]; exact hxo⟩
    · exact ⟨x, by simp [e, hx], hxs, hxo⟩
  | evict i s a hr hst how =>
    by_cases e : b = a
    · subst e
      intro r1 hr1
      simp at hr1
    · apply Obs.Fwd_frame o _ b (hfwd b)
      · simp [e]
      · intro r1 hr1
        obtain ⟨x, hx, _, hxo⟩ := hfwd b r1 hr1
        have : r1 ≠ .slot i := by
          intro e2; subst e2
          rw [hr] at hx; cases hx
          rw [how] at hxo; cases hxo; exact e rfl
        simp [this]
  | attach_new i s s1 t hr hst has how hs1 =>
    have hunused : s.fbo_state = FBO_INFO_UNUSED := by
      have := hpool i s hr
      cases hs : s.fbo_state <;> simp_all
    by_cases e : b = t
    · subst e
      intro r1 hr1
      simp at hr1
      subst hr1
      exact ⟨s1, by simp, attached_in_use s s1 hs1, how⟩
    · apply Obs.Fwd_frame o _ b (hfwd b)
      · simp [e]
      · intro r1 hr1
        obtain ⟨x, hx, hxs, _⟩ := hfwd b r1 hr1
        have : r1 ≠ .slot i := by
          intro e2; subst e2
          rw [hr] at hx; cases hx
          exact hxs hunused
        simp [this]
  | attach_old r s s1 t hr has how hs1 =>
    by_cases e : b = t
    · subst e
      intro r1 hr1
      simp at hr1
      subst hr1
      exact ⟨s1, by simp, attached_in_use s s1 hs1, how⟩
    · apply Obs.Fwd_frame o _ b (hfwd b)
      · simp [e]
      · intro r1 hr1
        obtain ⟨x, hx, _, hxo⟩ := hfwd b r1 hr1
        obtain ⟨y, hy, _, hyo⟩ := hfwd t r has
        have : r1 ≠ r := by
          intro e2; subst e2
          rw [hx] at hy; cases hy
          rw [hxo] at hyo; cases hyo; exact e rfl
        simp [this]
  | fail r t has =>
    by_cases e : b = t
    · subst e
      intro r1 hr1
      simp at hr1
    · apply Obs.Fwd_frame o _ b (hfwd b)
      · simp [e]
      · intro r1 hr1
        obtain ⟨x, hx, _, hxo⟩ := hfwd b r1 hr1
        obtain ⟨y, hy, _, hyo⟩ := hfwd t r has
        have : r1 ≠ r := by
          intro e2; subst e2
          rw [hx] at hy; cases hy
          rw [hxo] at hyo; cases hyo; exact e rfl
        simp [this]
  | create k x t hr has how hst =>
    by_cases e : b = t
    · subst e
      intro r1 hr1
      simp at hr1
      subst hr1
      exact ⟨x, by simp, by simp [hst], how⟩
    · apply Obs.Fwd_frame o _ b (hfwd b)
      · simp [e]
      · intro r1 hr1
        obtain ⟨y, hy, _, _⟩ := hfwd b r1 hr1
        have : r1 ≠ .heap k := by
          intro e2; subst e2
          rw [hr] at hy; cases hy
        simp [this]
  | persist i k s hlit hr hst hk => cases hlit
  | promote i k s t hr hst hk has =>
    obtain ⟨y, hy, _, hyo⟩ := hfwd t _ has
    rw [hr] at hy; cases hy
    by_cases e : b = t
    · subst e
      intro r1 hr1
      simp at hr1
      subst hr1
      exact ⟨{ s with fbo_state := FBO_INFO_PERSISTENT }, by simp, by simp, hyo⟩
    · apply Obs.Fwd_frame o _ b (hfwd b)
      · simp [e]
      · intro r1 hr1
        obtain ⟨x, hx, _, hxo⟩ := hfwd b r1 hr1
        have h1 : r1 ≠ .slot i := by
          intro e2; subst e2
          rw [hr] at hx; cases hx
          rw [hxo] at hyo; cases hyo; exact e rfl
        have h2 : r1 ≠ .heap k := by
          intro e2; subst e2
          rw [hk] at hx; cases hx
        simp [h1, h2]

/-- When every promotion stores its result, every elementary update keeps
`Back` at every pointer. -/
theorem absStep_back_all (o o1 : Obs) (hstep : AbsStep false o o1)
    (hback : ∀ r, o.Back r) (hfwd : ∀ b, o.Fwd b) : ∀ r, o1.Back r := by
  intro r1
  by_cases hold : o.recs r1 ≠ none
  · exact absStep_back false o o1 hstep (fun i => hback _) r1 (hback r1) hold
  · have hnone : o.recs r1 = none := not_not.1 hold
    intro x hx hxs
    cases hstep with
    | frame r s s1 hr hst how =>
      rw [Obs.setRec_recs] at hx
      split at hx
      · rename_i e; subst e; rw [hnone] at hr; cases hr
      · rw [hnone] at hx; cases hx
    | evict j s a hr hst how =>
      rw [Obs.setRec_recs] at hx
      split at hx
      · cases hx; exact absurd rfl hxs
      · rw [Obs.setAssoc_recs, hnone] at hx; cases hx
    | attach_new j s s1 t hr hst has how hs1 =>
      rw [Obs.setAssoc_recs, Obs.setRec_recs] at hx
      split at hx
      · rename_i e; subst e; rw [hnone] at hr; cases hr
      · rw [hnone] at hx; cases hx
    | attach_old r s s1 t hr has how hs1 =>
      rw [Obs.setAssoc_recs, Obs.setRec_recs] at hx
      split at hx
      · rename_i e; subst e; rw [hnone] at hr; cases hr
      · rw [hnone] at hx; cases hx
    | fail r t has =>
      rw [Obs.setAssoc_recs, Obs.setRec_recs] at hx
      split at hx
      · cases hx; exact absurd rfl hxs
      · rw [hnone] at hx; cases hx
    | create k y t hr has how hst =>
      rw [Obs.setAssoc_recs, Obs.setRec_recs] at hx
      split at hx
      · rename_i e; subst e; cases hx
        exact ⟨t, how, by simp⟩
      · rw [hnone] at hx; cases hx
    | persist j k s hlit hr hst hk => cases hlit
    | promote j k s t hr hst hk has =>
      obtain ⟨y, hy, _, hyo⟩ := hfwd t _ has
      rw [hr] at hy; cases hy
      rw [Obs.setAssoc_recs, Obs.setRec_recs] at hx
      split at hx
      · cases hx; exact absurd rfl hxs
      · rw [Obs.setRec_recs] at hx
        split at hx
        · rename_i e; subst e; cases hx
          exact ⟨t, hyo, by simp⟩
        · rw [hnone] at hx; cases hx

/-! ## The view of the stores of the model -/

theorem Obs.eq_of (o1 o2 : Obs) (h1 : o1.assoc = o2.assoc) (h2 : o1.recs = o2.recs) :
    o1 = o2 := by
  cases o1; cases o2; simp_all

theorem obs_congr (w w1 : World) (hf : w1.fbos = w.fbos) (hh : w1.heap = w.heap)
    (hb : w1.bitmaps = w.bitmaps) : obs w1 = obs w := by
  apply Obs.eq_of
  · funext b; simp [obs, hb]
  · funext r; cases r <;> simp [obs, getRec, hf, hh]

theorem obs_set_fbo_info (w : World) (b : Nat) (v : Option Ref) :
    obs (set_fbo_info w b v) = (obs w).setAssoc b v := by
  apply Obs.eq_of
  · funext c
    rw [Obs.setAssoc_assoc]
    by_cases h : c = b
    · subst h; simp [obs]
    · simp [obs, h, set_fbo_info_ne w b c v h]
  · funext r; simp [obs]

theorem obs_setRec (w : World) (r : Ref) (s s1 : ALLEGRO_FBO_INFO)
    (h : getRec w r = some s) : obs (setRec w r s1) = (obs w).setRec r s1 := by
  apply Obs.eq_of
  · funext c; simp [obs]
  · funext r1
    rw [Obs.setRec_recs]
    by_cases e : r1 = r
    · subst e; simp [obs, getRec_setRec_self w r1 s s1 h]
    · simp [obs, e, getRec_setRec_ne w r r1 s1 e]

theorem getRec_heap_length (w : World) : getRec w (.heap w.heap.length) = none := by
  simp [getRec]

theorem obs_alloc (w : World) (x : ALLEGRO_FBO_INFO) :
    obs { w with heap := w.heap ++ [x] } = (obs w).setRec (.heap w.heap.length) x := by
  apply Obs.eq_of
  · rfl
  · funext r
    rw [Obs.setRec_recs]
    cases r with
    | slot i => simp [obs, getRec]
    | heap k =>
      by_cases e : k = w.heap.length
      · subst e; simp [obs, getRec]
      · have e2 : Ref.heap k ≠ Ref.heap w.heap.length := fun h => e (by cases h; rfl)
        simp only [obs, getRec, if_neg e2]
        by_cases hk : k < w.heap.length
        · rw [List.getElem?_append_left hk]
        · have hk2 : w.heap.length < k := by omega
          rw [List.getElem?_eq_none (by simp; omega), List.getElem?_eq_none (by omega)]

theorem slotAt_some (fbos : List ALLEGRO_FBO_INFO) (idx : Int) (s : ALLEGRO_FBO_INFO)
    (h : slotAt fbos idx = some s) : idx = (idx.toNat : Int) ∧ fbos[idx.toNat]? = some s := by
  unfold slotAt at h
  split at h
  · rename_i hnn
    exact ⟨(Int.toNat_of_nonneg hnn).symm, h⟩
  · cases h

theorem absSteps_trans (lit : Bool) (o o1 o2 : Obs) (h1 : AbsSteps lit o o1)
    (h2 : AbsSteps lit o1 o2) : AbsSteps lit o o2 := by
  induction h2 with
  | refl => exact h1
  | tail o3 o4 _ hstep ih => exact AbsSteps.tail _ _ _ ih hstep

theorem absSteps_single (lit : Bool) (o o1 : Obs) (h : AbsStep lit o o1) :
    AbsSteps lit o o1 :=
  AbsSteps.tail _ _ _ (AbsSteps.refl o) h

theorem absSteps_of_eq (lit : Bool) (o o1 : Obs) (h : o1 = o) : AbsSteps lit o o1 := by
  subst h; exact AbsSteps.refl _

/-! ## The calls as sequences of elementary updates -/

@[simp] theorem obs_bind_framebuffer (w : World) (n : Nat) :
    obs (_al_ogl_bind_framebuffer w n).1 = obs w :=
  obs_congr w _ rfl rfl rfl

@[simp] theorem obs_opengl_target (w : World) (t : Option Nat) :
    obs { w with opengl_target := t } = obs w :=
  obs_congr w _ rfl rfl rfl

@[simp] theorem obs_bound_fbo (w : World) (n : Nat) :
    obs { w with bound_fbo := n } = obs w :=
  obs_congr w _ rfl rfl rfl

theorem absSteps_congr_right (lit : Bool) (o o1 o2 : Obs) (h : AbsSteps lit o o1)
    (e : o2 = o1) : AbsSteps lit o o2 := by
  subst e; exact h

/-- Lines 267-299 for a bitmap `t` without association: an eviction or not,
then the store of the generated handle; the slot handed out is not TRANSIENT
any more and `t` is still without association. -/
theorem take_pool_slot_steps (lit : Bool) (w w1 : World) (env : GLEnv) (t : Nat)
    (info : Option Ref) (h : take_pool_slot w env = some (w1, info))
    (ht : (obs w).assoc t = none) :
    AbsSteps lit (obs w) (obs w1) ∧
    ∃ i s, info = some (.slot i) ∧ getRec w1 (.slot i) = some s ∧
      s.fbo_state ≠ FBO_INFO_TRANSIENT ∧ (obs w1).assoc t = none := by
  unfold take_pool_slot at h
  simp only at h
  split at h
  · cases h
  · rename_i s hs
    obtain ⟨_, hget⟩ := slotAt_some _ _ _ hs
    have hrec : getRec w (.slot (ogl_find_unused_fbo w.fbos).toNat) = some s := hget
    split at h
    · rename_i htr
      split at h
      · cases h
      · rename_i a ha
        simp only [Option.some.injEq, Prod.mk.injEq] at h
        obtain ⟨hw1, hinfo⟩ := h
        subst hw1
        have hrec1 : getRec (set_fbo_info w a none)
            (.slot (ogl_find_unused_fbo w.fbos).toNat) = some s := by
          rw [getRec_set_fbo_info]; exact hrec
        have hrec2 := getRec_setRec_self _ _ s _al_ogl_reset_fbo_info hrec1
        have ho1 : obs (setRec (set_fbo_info w a none)
            (.slot (ogl_find_unused_fbo w.fbos).toNat) _al_ogl_reset_fbo_info) =
            ((obs w).setAssoc a none).setRec (.slot (ogl_find_unused_fbo w.fbos).toNat)
              _al_ogl_reset_fbo_info := by
          rw [obs_setRec _ _ s _ hrec1, obs_set_fbo_info]
        refine ⟨?_, _, _, hinfo.symm, getRec_setRec_self _ _ _ _ hrec2, by
          simp [_al_ogl_reset_fbo_info], ?_⟩
        · rw [obs_setRec _ _ _ _ hrec2, ho1]
          apply AbsSteps.tail _ _ _ (absSteps_single _ _ _
            (AbsStep.evict (obs w) _ s a hrec htr ha))
          apply AbsStep.frame _ _ _al_ogl_reset_fbo_info
          · simp
          · rfl
          · rfl
        · rw [obs_setRec _ _ _ _ hrec2, ho1]
          simp only [Obs.setRec_assoc, Obs.setAssoc_assoc]
          split
          · rfl
          · exact ht
    · rename_i htr
      simp only [Option.some.injEq, Prod.mk.injEq] at h
      obtain ⟨hw1, hinfo⟩ := h
      subst hw1
      refine ⟨?_, _, _, hinfo.symm, getRec_setRec_self _ _ _ _ hrec, htr, ?_⟩
      · rw [obs_setRec _ _ _ _ hrec]
        exact absSteps_single _ _ _ (AbsStep.frame (obs w) _ s _ hrec rfl rfl)
      · rw [obs_setRec _ _ _ _ hrec]
        exact ht

/-- Lines 306-381, for the `info` that lines 252-304 choose. -/
theorem bind_fbo_info_steps (lit : Bool) (w w2 : World) (env : GLEnv) (t : Nat)
    (info : Option Ref) (h : bind_fbo_info w env t info = some w2)
    (hinfo : ∀ r, info = some r → (obs w).assoc t = some r ∨
      ((obs w).assoc t = none ∧ ∃ i s, r = .slot i ∧ getRec w r = some s ∧
        s.fbo_state ≠ FBO_INFO_TRANSIENT)) :
    AbsSteps lit (obs w) (obs w2) := by
  cases info with
  | none =>
    simp only [bind_fbo_info, Option.some.injEq] at h
    subst h; exact AbsSteps.refl _
  | some r =>
    simp only [bind_fbo_info] at h
    split at h
    · cases h
    · rename_i s hs
      split at h
      · simp only [Option.some.injEq] at h
        subst h; exact AbsSteps.refl _
      · -- the record is bound and the bitmap attached
        have hattach : ∀ s1 : ALLEGRO_FBO_INFO, s1.owner = some t →
            s1.fbo_state =
              (if s.fbo_state = FBO_INFO_UNUSED then FBO_INFO_TRANSIENT else s.fbo_state) →
            AbsStep lit (obs w) (((obs w).setRec r s1).setAssoc t (some r)) := by
          intro s1 ho hst
          rcases hinfo r rfl with hold | ⟨hnone, i, s0, hr, hs0, hntr⟩
          · exact AbsStep.attach_old (obs w) r s s1 t hs hold ho hst
          · subst hr
            rw [hs] at hs0; cases hs0
            exact AbsStep.attach_new (obs w) i s s1 t hs hntr hnone ho hst
        have hobs1 : ∀ (s1 : ALLEGRO_FBO_INFO) (n : Nat),
            obs (_al_ogl_bind_framebuffer (set_fbo_info (setRec w r s1) t (some r)) n).1 =
              ((obs w).setRec r s1).setAssoc t (some r) := by
          intro s1 n
          rw [obs_bind_framebuffer, obs_set_fbo_info, obs_setRec _ _ s _ hs]
        split at h
        · simp only [Option.some.injEq] at h
          subst h
          rw [obs_set_fbo_info]
          have hv : getRec (_al_ogl_bind_framebuffer
              (_al_ogl_bind_framebuffer (set_fbo_info (setRec w r
                { fbo_state :=
                    if s.fbo_state = FBO_INFO_UNUSED then FBO_INFO_TRANSIENT
                    else s.fbo_state,
                  fbo := s.fbo, owner := some t, last_use_time := env.now })
                t (some r)) s.fbo).1 0).1 r = some
                { fbo_state :=
                    if s.fbo_state = FBO_INFO_UNUSED then FBO_INFO_TRANSIENT
                    else s.fbo_state,
                  fbo := s.fbo, owner := some t, last_use_time := env.now } := by
            show getRec (set_fbo_info (setRec w r _) t (some r)) r = _
            rw [getRec_set_fbo_info, getRec_setRec_self w r s _ hs]
          rw [obs_setRec _ _ _ _ hv, obs_bind_framebuffer, hobs1]
          apply AbsSteps.tail _ _ _ (absSteps_single _ _ _ (hattach
            { fbo_state :=
                if s.fbo_state = FBO_INFO_UNUSED then FBO_INFO_TRANSIENT else s.fbo_state,
              fbo := s.fbo, owner := some t, last_use_time := env.now } rfl rfl))
          apply AbsStep.fail
          simp
        · simp only [Option.some.injEq] at h
          subst h
          apply absSteps_congr_right _ _ _ _ (absSteps_single _ _ _ (hattach
            { fbo_state :=
                if s.fbo_state = FBO_INFO_UNUSED then FBO_INFO_TRANSIENT else s.fbo_state,
              fbo := s.fbo, owner := some t, last_use_time := env.now } rfl rfl))
          exact (obs_opengl_target _ _).trans (hobs1 _ _)

/-- `_al_ogl_setup_fbo` as a sequence of elementary updates. -/
theorem setup_fbo_steps (lit : Bool) (w w2 : World) (env : GLEnv) (b : Nat)
    (h : _al_ogl_setup_fbo w env b = some w2) : AbsSteps lit (obs w) (obs w2) := by
  unfold _al_ogl_setup_fbo at h
  simp only at h
  split at h
  · split at h
    · cases h
    · rename_i w1 info hsel
      unfold select_fbo_info at hsel
      split at hsel
      · rename_i hc
        split at hsel
        · obtain ⟨hsteps, i, s, hi, hs, hntr, hnone⟩ :=
            take_pool_slot_steps lit w w1 env (resolve w b) info hsel hc.1
          apply absSteps_trans _ _ _ _ hsteps
          apply bind_fbo_info_steps lit w1 w2 env (resolve w b) info h
          intro r hr
          right
          rw [hi] at hr; cases hr
          exact ⟨hnone, i, s, rfl, hs, hntr⟩
        · simp only [Option.some.injEq, Prod.mk.injEq] at hsel
          obtain ⟨hw, hinfo⟩ := hsel
          subst hw; subst hinfo
          apply bind_fbo_info_steps lit w w2 env (resolve w b) none h
          intro r hr; cases hr
      · simp only [Option.some.injEq, Prod.mk.injEq] at hsel
        obtain ⟨hw, hinfo⟩ := hsel
        subst hw; subst hinfo
        apply bind_fbo_info_steps lit w w2 env (resolve w b) _ h
        intro r hr
        left; exact hr
  · simp only [Option.some.injEq] at h
    subst h
    apply absSteps_of_eq
    apply obs_congr
    · unfold setup_backbuffer _al_ogl_bind_framebuffer; simp only; split
      · rfl
      · split <;> rfl
    · unfold setup_backbuffer _al_ogl_bind_framebuffer; simp only; split
      · rfl
      · split <;> rfl
    · unfold setup_backbuffer _al_ogl_bind_framebuffer; simp only; split
      · rfl
      · split <;> rfl

/-- The result of `_al_ogl_persist_fbo` on a slot of the array. -/
theorem persist_fbo_slot (w : World) (i : Nat) (s : ALLEGRO_FBO_INFO)
    (hs : w.fbos[i]? = some s) :
    _al_ogl_persist_fbo w (.slot i) =
      ({ w with heap := w.heap ++ [{ s with fbo_state := FBO_INFO_PERSISTENT }],
                fbos := w.fbos.set i _al_ogl_reset_fbo_info }, .heap w.heap.length) := by
  obtain ⟨hi, _⟩ := List.getElem?_eq_some.1 hs
  simp [_al_ogl_persist_fbo, pool_index_of_slot, hi, hs]

/-- The result of `_al_ogl_persist_fbo` on a record outside the array. -/
theorem persist_fbo_heap (w : World) (k : Nat) :
    _al_ogl_persist_fbo w (.heap k) = (w, .heap k) := by
  simp [_al_ogl_persist_fbo, pool_index_of_heap]

/-- The view after the copy and the reset of `_al_ogl_persist_fbo`. -/
theorem obs_persist_slot (w : World) (i : Nat) (s : ALLEGRO_FBO_INFO)
    (hs : w.fbos[i]? = some s) :
    obs (_al_ogl_persist_fbo w (.slot i)).1 =
      ((obs w).setRec (.heap w.heap.length)
        { s with fbo_state := FBO_INFO_PERSISTENT }).setRec (.slot i)
        _al_ogl_reset_fbo_info := by
  rw [persist_fbo_slot w i s hs]
  have h1 : getRec { w with heap := w.heap ++ [{ s with fbo_state := FBO_INFO_PERSISTENT }] }
      (.slot i) = some s := hs
  have h2 := obs_setRec _ (.slot i) s _al_ogl_reset_fbo_info h1
  rw [obs_alloc] at h2
  rw [← h2]
  rfl

/-- `_al_ogl_persist_fbo`, the result dropped, as elementary updates. -/
theorem persist_fbo_steps (w : World) (r : Ref) (s : ALLEGRO_FBO_INFO)
    (hs : getRec w r = some s) (ht : s.fbo_state = FBO_INFO_TRANSIENT) :
    AbsSteps true (obs w) (obs (_al_ogl_persist_fbo w r).1) := by
  cases r with
  | slot i =>
    rw [obs_persist_slot w i s hs]
    exact absSteps_single _ _ _
      (AbsStep.persist (obs w) i w.heap.length s rfl hs ht (getRec_heap_length w))
  | heap k =>
    rw [persist_fbo_heap]
    exact AbsSteps.refl _

/-- `_al_ogl_persist_fbo` with the caller's store, as elementary updates. -/
theorem persist_and_store_steps (lit : Bool) (w w1 : World) (b : Nat)
    (h : persist_and_store w b = some w1) : AbsSteps lit (obs w) (obs w1) := by
  unfold persist_and_store at h
  split at h
  · cases h
  · rename_i r hr
    split at h
    · cases h
    · rename_i s hs
      split at h
      · rename_i ht
        simp only [Option.some.injEq] at h
        subst h
        rw [obs_set_fbo_info]
        cases r with
        | slot i =>
          rw [obs_persist_slot w i s hs, persist_fbo_slot w i s hs]
          exact absSteps_single _ _ _
            (AbsStep.promote (obs w) i w.heap.length s b hs ht (getRec_heap_length w) hr)
        | heap k =>
          rw [persist_fbo_heap]
          apply absSteps_of_eq
          apply Obs.eq_of
          · funext c
            rw [Obs.setAssoc_assoc]
            split
            · rename_i e; subst e; exact hr.symm
            · rfl
          · rfl
      · cases h

/-- `_al_ogl_create_persistent_fbo`, called on a bitmap without association,
as elementary updates. -/
theorem create_persistent_fbo_steps (lit : Bool) (w : World) (env : GLEnv) (b : Nat)
    (h : (w.bitmaps (resolve w b)).fbo_info = none) :
    AbsSteps lit (obs w) (obs (_al_ogl_create_persistent_fbo w env b).1) := by
  unfold _al_ogl_create_persistent_fbo
  simp only
  split
  · exact AbsSteps.refl _
  · split
    · exact AbsSteps.refl _
    · split
      · exact AbsSteps.refl _
      · split
        · exact absSteps_of_eq _ _ _ (obs_congr _ _ rfl rfl rfl)
        · rw [obs_set_fbo_info]
          have e : obs { (_al_ogl_bind_framebuffer (_al_ogl_bind_framebuffer w env.gen).1
                (_al_ogl_bind_framebuffer w env.gen).2).1 with
              heap := (_al_ogl_bind_framebuffer (_al_ogl_bind_framebuffer w env.gen).1
                (_al_ogl_bind_framebuffer w env.gen).2).1.heap ++
                [{ fbo_state := FBO_INFO_PERSISTENT, fbo := env.gen,
                   owner := some (resolve w b), last_use_time := env.now }] } =
              (obs w).setRec (.heap w.heap.length)
                { fbo_state := FBO_INFO_PERSISTENT, fbo := env.gen,
                  owner := some (resolve w b), last_use_time := env.now } := by
            rw [← obs_alloc]
            exact obs_congr _ _ rfl rfl rfl
          apply absSteps_congr_right _ _ _ _ (absSteps_single _ _ _
            (AbsStep.create (obs w) w.heap.length
              { fbo_state := FBO_INFO_PERSISTENT, fbo := env.gen,
                owner := some (resolve w b), last_use_time := env.now }
              (resolve w b) (getRec_heap_length w) h rfl rfl))
          rw [e]
          rfl

/-- Every call is a sequence of elementary updates; only a promotion whose
result is dropped needs the update `persist`. -/
theorem call_run_steps (lit : Bool) (w w1 : World) (c : Call)
    (hlit : c.stores = false → lit = true) (h : c.run w = some w1) :
    AbsSteps lit (obs w) (obs w1) := by
  cases c with
  | setup env b => exact setup_fbo_steps lit w w1 env b h
  | persist r =>
    have hl : lit = true := hlit rfl
    subst hl
    simp only [Call.run] at h
    split at h
    · cases h
    · rename_i s hs
      split at h
      · rename_i ht
        simp only [Option.some.injEq] at h
        subst h
        exact persist_fbo_steps w r s hs ht
      · cases h
  | promote b => exact persist_and_store_steps lit w w1 b h
  | create env b =>
    simp only [Call.run] at h
    split at h
    · rename_i hn
      simp only [Option.some.injEq] at h
      subst h
      exact create_persistent_fbo_steps lit w env b hn
    · cases h

/-- A sequence of calls is a sequence of elementary updates. -/
theorem runCalls_steps (lit : Bool) (cs : List Call) :
    ∀ (w w1 : World), (∀ c ∈ cs, c.stores = false → lit = true) →
      runCalls w cs = some w1 → AbsSteps lit (obs w) (obs w1) := by
  induction cs with
  | nil =>
    intro w w1 _ h
    simp only [runCalls, Option.some.injEq] at h
    subst h; exact AbsSteps.refl _
  | cons c cs ih =>
    intro w w1 hlit h
    simp only [runCalls] at h
    cases hc : c.run w with
    | none => rw [hc] at h; cases h
    | some w2 =>
      rw [hc] at h
      simp only [Option.some_bind] at h
      exact absSteps_trans _ _ _ _
        (call_run_steps lit w w2 c (hlit c (List.mem_cons_self _ _)) hc)
        (ih w2 w1 (fun c1 hc1 => hlit c1 (List.mem_cons_of_mem _ hc1)) h)

/-! ## The invariants along sequences of calls -/

theorem absSteps_ownerStateAll (lit : Bool) (o o1 : Obs) (h : AbsSteps lit o o1)
    (hinv : o.OwnerStateAll) : o1.OwnerStateAll := by
  induction h with
  | refl => exact hinv
  | tail o2 o3 _ hstep ih => exact absStep_ownerStateAll lit o2 o3 hstep ih

theorem absSteps_poolNotPersistent (lit : Bool) (o o1 : Obs) (h : AbsSteps lit o o1)
    (hinv : o.PoolNotPersistent) : o1.PoolNotPersistent := by
  induction h with
  | refl => exact hinv
  | tail o2 o3 _ hstep ih => exact absStep_poolNotPersistent lit o2 o3 hstep ih

theorem absSteps_back_slots (lit : Bool) (o o1 : Obs) (h : AbsSteps lit o o1)
    (hinv : ∀ i, o.Back (.slot i)) : ∀ i, o1.Back (.slot i) := by
  induction h with
  | refl => exact hinv
  | tail o2 o3 _ hstep ih => exact absStep_back_slots lit o2 o3 hstep ih

theorem absSteps_agree (o o1 : Obs) (h : AbsSteps false o o1)
    (hinv : o.PoolNotPersistent ∧ (∀ r, o.Back r) ∧ ∀ b, o.Fwd b) :
    o1.PoolNotPersistent ∧ (∀ r, o1.Back r) ∧ ∀ b, o1.Fwd b := by
  induction h with
  | refl => exact hinv
  | tail o2 o3 _ hstep ih =>
    exact ⟨absStep_poolNotPersistent false o2 o3 hstep ih.1,
      absStep_back_all o2 o3 hstep ih.2.1 ih.2.2,
      absStep_fwd o2 o3 hstep ih.1 ih.2.2⟩

/-- In an initialised pool every record the view shows is a reset slot. -/
theorem initial_recs_reset (w : World) (h : Initial w) (r : Ref) (s : ALLEGRO_FBO_INFO)
    (hs : (obs w).recs r = some s) : s = _al_ogl_reset_fbo_info := by
  cases r with
  | slot i => exact h.1 s (List.getElem?_mem hs)
  | heap k =>
    have : w.heap[k]? = some s := hs
    rw [h.2.1] at this
    simp at this

theorem initial_ownerStateAll (w : World) (h : Initial w) : (obs w).OwnerStateAll := by
  intro r s hs
  rw [initial_recs_reset w h r s hs]
  exact ownerState_reset

theorem initial_poolNotPersistent (w : World) (h : Initial w) :
    (obs w).PoolNotPersistent := by
  intro i s hs
  rw [initial_recs_reset w h _ s hs]
  simp [_al_ogl_reset_fbo_info]

theorem initial_back (w : World) (h : Initial w) (r : Ref) : (obs w).Back r := by
  intro s hs hst
  rw [initial_recs_reset w h r s hs] at hst
  exact absurd rfl hst

theorem initial_fwd (w : World) (h : Initial w) (b : Nat) : (obs w).Fwd b := by
  intro r hr
  have : (w.bitmaps b).fbo_info = some r := hr
  rw [h.2.2 b] at this
  cases this

/-- The invariants of every reachable state. -/
theorem reachable_invariants (w : World) (h : Reachable w) :
    (obs w).OwnerStateAll ∧ (obs w).PoolNotPersistent ∧ ∀ i, (obs w).Back (.slot i) := by
  obtain ⟨w0, cs, hinit, hrun⟩ := h
  have hsteps := runCalls_steps true cs w0 w (fun _ _ _ => rfl) hrun
  exact ⟨absSteps_ownerStateAll _ _ _ hsteps (initial_ownerStateAll w0 hinit),
    absSteps_poolNotPersistent _ _ _ hsteps (initial_poolNotPersistent w0 hinit),
    absSteps_back_slots _ _ _ hsteps (fun i => initial_back w0 hinit _)⟩

theorem world_reset2_initial : Initial world_reset2 :=
  ⟨by decide, rfl, fun _ => rfl⟩

/-- C10: in every state reachable from an initialised pool by calls of
`_al_ogl_setup_fbo`, `_al_ogl_persist_fbo` (its result stored or not) and
`_al_ogl_create_persistent_fbo`, every pool slot and every allocated record has
a non-NULL owner exactly when its state is not `FBO_INFO_UNUSED`. -/
theorem owner_iff_in_use (w : World) (h : Reachable w) (r : Ref) (s : ALLEGRO_FBO_INFO)
    (hs : getRec w r = some s) : s.owner ≠ none ↔ s.fbo_state ≠ FBO_INFO_UNUSED :=
  (reachable_invariants w h).1 r s hs

/-- C10, at the first slot after bitmaps `1`, `2`, `1` were activated. -/
theorem owner_iff_in_use_witness :
    (some 1 : Option Nat) ≠ none ↔ FBO_INFO_TRANSIENT ≠ FBO_INFO_UNUSED :=
  owner_iff_in_use world_after_ABA ⟨world_reset2, calls_ABA, world_reset2_initial, rfl⟩
    (.slot 0)
    { fbo_state := FBO_INFO_TRANSIENT, fbo := 11, owner := some 1, last_use_time := 3 } rfl

/-- C8, as stated, fails: `_al_ogl_persist_fbo` resets the slot and returns the
new record, but does not write the bitmap.  After the call bitmap `1` still
refers to slot `0`, which is UNUSED, and the PERSISTENT record owned by bitmap
`1` is referred to by no bitmap. -/
theorem persist_fbo_leaves_dangling_association :
    Reachable world_persist_dropped ∧
    (world_persist_dropped.bitmaps 1).fbo_info = some (.slot 0) ∧
    getRec world_persist_dropped (.slot 0) = some _al_ogl_reset_fbo_info ∧
    getRec world_persist_dropped (.heap 0) =
      some { fbo_state := FBO_INFO_PERSISTENT, fbo := 11, owner := some 1,
             last_use_time := 1 } ∧
    ¬ Agree world_persist_dropped := by
  refine ⟨⟨world_reset2, calls_persist_dropped, world_reset2_initial, rfl⟩,
    rfl, rfl, rfl, ?_⟩
  intro hagree
  obtain ⟨s, hs, hst, _⟩ := (hagree 1 (.slot 0)).1 rfl
  have : s = _al_ogl_reset_fbo_info := by
    have h0 : getRec world_persist_dropped (.slot 0) = some _al_ogl_reset_fbo_info := rfl
    rw [h0] at hs; cases hs; rfl
  subst this
  exact hst rfl

/-- C8, amended: in every state reachable from an initialised pool by calls of
`_al_ogl_setup_fbo` and `_al_ogl_create_persistent_fbo` and by promotions whose
caller stores the pointer returned by `_al_ogl_persist_fbo` in the bitmap, a
bitmap's `fbo_info` refers to the record `r` exactly when `r` is not UNUSED and
its owner is that bitmap. -/
theorem associations_agree (w : World) (h : ReachableStored w) : Agree w := by
  obtain ⟨w0, cs, hinit, hstored, hrun⟩ := h
  have hsteps := runCalls_steps false cs w0 w
    (fun c hc hf => by rw [hstored c hc] at hf; cases hf) hrun
  obtain ⟨_, hback, hfwd⟩ := absSteps_agree _ _ hsteps
    ⟨initial_poolNotPersistent w0 hinit, initial_back w0 hinit, initial_fwd w0 hinit⟩
  intro b r
  constructor
  · intro hb
    exact hfwd b r hb
  · rintro ⟨s, hs, hst, how⟩
    obtain ⟨b1, hb1, hab⟩ := hback r s hs hst
    rw [how] at hb1; cases hb1
    exact hab

/-- C8, amended, at a state reached with a promotion whose result is stored. -/
theorem associations_agree_witness : Agree world_promote_stored :=
  associations_agree world_promote_stored
    ⟨world_reset2, calls_promote_stored, world_reset2_initial, by decide, rfl⟩

/-- The activation of a bitmap without association when the finder returns
the TRANSIENT slot `i` owned by `o`: the call in closed form. -/
theorem setup_fbo_evict_eq (w : World) (env : GLEnv) (b i o : Nat) (s : ALLEGRO_FBO_INFO)
    (hfind : ogl_find_unused_fbo w.fbos = (i : Int)) (hs : w.fbos[i]? = some s)
    (hst : s.fbo_state = FBO_INFO_TRANSIENT) (how : s.owner = some o)
    (hbb : (w.bitmaps (resolve w b)).is_backbuffer = false)
    (hnone : (w.bitmaps (resolve w b)).fbo_info = none)
    (hfl : (w.bitmaps (resolve w b)).force_locking = false)
    (hext : env.is_opengles = true ∨ env.cur_fbo_ext = true)
    (hgen : env.gen ≠ 0) (hok : env.incomplete = false) :
    _al_ogl_setup_fbo w env b =
      some { (set_fbo_info
               (setRec
                 (setRec (setRec (set_fbo_info w o none) (.slot i) _al_ogl_reset_fbo_info)
                   (.slot i) { fbo_state := FBO_INFO_UNUSED, fbo := env.gen, owner := none,
                               last_use_time := 0 })
                 (.slot i)
                 { fbo_state := FBO_INFO_TRANSIENT, fbo := env.gen,
                   owner := some (resolve w b), last_use_time := env.now })
               (resolve w b) (some (.slot i))) with
             bound_fbo := env.gen, opengl_target := some (resolve w b) } := by
  have htake : take_pool_slot w env =
      some (setRec (setRec (set_fbo_info w o none) (.slot i) _al_ogl_reset_fbo_info)
        (.slot i) { fbo_state := FBO_INFO_UNUSED, fbo := env.gen, owner := none,
                    last_use_time := 0 }, some (.slot i)) := by
    simp only [take_pool_slot, hfind, slotAt_natCast, hs, hst, how, if_true, Int.toNat_ofNat]
    rfl
  have hsel : select_fbo_info w env (resolve w b) =
      some (setRec (setRec (set_fbo_info w o none) (.slot i) _al_ogl_reset_fbo_info)
        (.slot i) { fbo_state := FBO_INFO_UNUSED, fbo := env.gen, owner := none,
                    last_use_time := 0 }, some (.slot i)) := by
    unfold select_fbo_info
    rw [if_pos ⟨hnone, hfl⟩, if_pos hext, htake]
  have hrec1 : getRec (set_fbo_info w o none) (.slot i) = some s := by
    rw [getRec_set_fbo_info]; exact hs
  have hrec : getRec (setRec (setRec (set_fbo_info w o none) (.slot i)
      _al_ogl_reset_fbo_info) (.slot i)
      { fbo_state := FBO_INFO_UNUSED, fbo := env.gen, owner := none, last_use_time := 0 })
      (.slot i) =
      some { fbo_state := FBO_INFO_UNUSED, fbo := env.gen, owner := none,
             last_use_time := 0 } :=
    getRec_setRec_self _ _ _ _ (getRec_setRec_self _ _ _ _ hrec1)
  simp only [_al_ogl_setup_fbo, hbb, if_true, hsel, bind_fbo_info, hrec, hgen, if_false, hok,
    _al_ogl_bind_framebuffer, Bool.false_eq_true]

/-- C1: in a reachable state whose pool is full of TRANSIENT slots with
timestamps below `DBL_MAX`, a bitmap that is not the backbuffer, has no
association and no `ALLEGRO_FORCE_LOCKING` is activated, with the FBO extension
available, a handle generated and the completeness check passing.  The call
returns.  The bitmap gets the slot `i` that has the smallest `last_use_time`
(the first such slot); the owner `o` of that slot, which referred to it, has no
association afterwards; every other bitmap is unchanged.  Slot `i` holds the new
handle with the bitmap as owner, and no other slot or allocated record changes. -/
theorem setup_fbo_evicts_lru (w : World) (env : GLEnv) (b : Nat)
    (hreach : Reachable w) (hne : w.fbos ≠ [])
    (hfull : ∀ x ∈ w.fbos, x.fbo_state = FBO_INFO_TRANSIENT)
    (htime : ∀ x ∈ w.fbos, x.last_use_time < DBL_MAX)
    (hbb : (w.bitmaps (resolve w b)).is_backbuffer = false)
    (hnone : (w.bitmaps (resolve w b)).fbo_info = none)
    (hfl : (w.bitmaps (resolve w b)).force_locking = false)
    (hext : env.is_opengles = true ∨ env.cur_fbo_ext = true)
    (hgen : env.gen ≠ 0) (hok : env.incomplete = false) :
    ∃ (i : Nat) (s : ALLEGRO_FBO_INFO) (o : Nat) (w1 : World),
      w.fbos[i]? = some s ∧
      (∀ x ∈ w.fbos, s.last_use_time ≤ x.last_use_time) ∧
      (∀ j x, j < i → w.fbos[j]? = some x → s.last_use_time < x.last_use_time) ∧
      s.owner = some o ∧ (w.bitmaps o).fbo_info = some (.slot i) ∧ o ≠ resolve w b ∧
      _al_ogl_setup_fbo w env b = some w1 ∧
      (w1.bitmaps (resolve w b)).fbo_info = some (.slot i) ∧
      (w1.bitmaps o).fbo_info = none ∧
      (∀ c, c ≠ resolve w b → c ≠ o → w1.bitmaps c = w.bitmaps c) ∧
      w1.fbos[i]? = some { fbo_state := FBO_INFO_TRANSIENT, fbo := env.gen,
                           owner := some (resolve w b), last_use_time := env.now } ∧
      (∀ j, j ≠ i → w1.fbos[j]? = w.fbos[j]?) ∧ w1.heap = w.heap := by
  obtain ⟨a, ha⟩ := List.exists_mem_of_ne_nil w.fbos hne
  obtain ⟨i, s, hfind, hs, hmin, hfirst⟩ := find_oldest_of_full w.fbos
    (fun x hx => by rw [hfull x hx]; simp) ⟨a, ha, htime a ha⟩
  have hst : s.fbo_state = FBO_INFO_TRANSIENT := hfull s (List.getElem?_mem hs)
  obtain ⟨o, how, hassoc⟩ := (reachable_invariants w hreach).2.2 i s hs (by rw [hst]; simp)
  have hassoc1 : (w.bitmaps o).fbo_info = some (.slot i) := hassoc
  have hot : o ≠ resolve w b := by
    intro e; rw [e, hnone] at hassoc1; cases hassoc1
  obtain ⟨hi, _⟩ := List.getElem?_eq_some.1 hs
  refine ⟨i, s, o, _, hs, hmin, hfirst, how, hassoc1, hot,
    setup_fbo_evict_eq w env b i o s hfind hs hst how hbb hnone hfl hext hgen hok,
    ?_, ?_, ?_, ?_, ?_, ?_⟩
  · exact set_fbo_info_self _ _ _
  · show ((set_fbo_info _ (resolve w b) (some (.slot i))).bitmaps o).fbo_info = none
    rw [set_fbo_info_ne _ _ _ _ hot]
    simp
  · intro c hc hco
    show (set_fbo_info _ (resolve w b) (some (.slot i))).bitmaps c = _
    rw [set_fbo_info_ne _ _ _ _ hc]
    simp only [setRec_bitmaps]
    exact set_fbo_info_ne _ _ _ _ hco
  · simp [set_fbo_info, setRec, hi]
  · intro j hj
    simp [set_fbo_info, setRec, Ne.symm hj]
  · simp [set_fbo_info, setRec]

/-- C1, at capacity 2 after bitmaps `1`, `2`, `1` have been activated: the
activation of bitmap `3` evicts the owner of the older slot. -/
theorem setup_fbo_evicts_lru_witness :
    ∃ (i : Nat) (s : ALLEGRO_FBO_INFO) (o : Nat) (w1 : World),
      world_after_ABA.fbos[i]? = some s ∧
      (∀ x ∈ world_after_ABA.fbos, s.last_use_time ≤ x.last_use_time) ∧
      (∀ j x, j < i → world_after_ABA.fbos[j]? = some x →
        s.last_use_time < x.last_use_time) ∧
      s.owner = some o ∧ (world_after_ABA.bitmaps o).fbo_info = some (.slot i) ∧
      o ≠ resolve world_after_ABA 3 ∧
      _al_ogl_setup_fbo world_after_ABA (env_ok 14 4) 3 = some w1 ∧
      (w1.bitmaps (resolve world_after_ABA 3)).fbo_info = some (.slot i) ∧
      (w1.bitmaps o).fbo_info = none ∧
      (∀ c, c ≠ resolve world_after_ABA 3 → c ≠ o →
        w1.bitmaps c = world_after_ABA.bitmaps c) ∧
      w1.fbos[i]? = some { fbo_state := FBO_INFO_TRANSIENT, fbo := (env_ok 14 4).gen,
                           owner := some (resolve world_after_ABA 3),
                           last_use_time := (env_ok 14 4).now } ∧
      (∀ j, j ≠ i → w1.fbos[j]? = world_after_ABA.fbos[j]?) ∧
      w1.heap = world_after_ABA.heap :=
  setup_fbo_evicts_lru world_after_ABA (env_ok 14 4) 3
    ⟨world_reset2, calls_ABA, world_reset2_initial, rfl⟩
    (by decide) (by decide) (by decide) rfl rfl rfl (Or.inr rfl) (by decide) rfl

/-- The scenario A, B, A, C evaluated: capacity 2, bitmaps `1`, `2`, `1`, `3` activated
in this order.  Bitmap `3` ends in slot `1`, the former slot of bitmap `2`;
bitmap `2` has no association; bitmap `1` keeps slot `0`. -/
theorem scenario_ABAC :
    (runCalls world_reset2 (calls_ABA ++ [.setup (env_ok 14 4) 3])).map
        (fun w => (w.fbos, (w.bitmaps 1).fbo_info, (w.bitmaps 2).fbo_info,
          (w.bitmaps 3).fbo_info)) =
      some ([ { fbo_state := FBO_INFO_TRANSIENT, fbo := 11, owner := some 1,
                last_use_time := 3 },
              { fbo_state := FBO_INFO_TRANSIENT, fbo := 14, owner := some 3,
                last_use_time := 4 } ],
            some (.slot 0), none, some (.slot 1)) ∧
    (world_after_ABA.bitmaps 2).fbo_info = some (.slot 1) := by
  decide

theorem set_length_append (pre rest : List ALLEGRO_FBO_INFO) (u x : ALLEGRO_FBO_INFO) :
    (pre ++ u :: rest).set pre.length x = pre ++ x :: rest := by
  induction pre with
  | nil => rfl
  | cons a pre ih => simp [ih]

/-- The activation of a bitmap without association when the pool has an UNUSED
slot: the call in closed form. -/
theorem setup_fbo_first_unused_eq (w : World) (env : GLEnv) (b : Nat)
    (pre rest : List ALLEGRO_FBO_INFO) (u : ALLEGRO_FBO_INFO)
    (hfbos : w.fbos = pre ++ u :: rest)
    (hpre : ∀ x ∈ pre, x.fbo_state ≠ FBO_INFO_UNUSED) (hu : u.fbo_state = FBO_INFO_UNUSED)
    (hbb : (w.bitmaps (resolve w b)).is_backbuffer = false)
    (hnone : (w.bitmaps (resolve w b)).fbo_info = none)
    (hfl : (w.bitmaps (resolve w b)).force_locking = false)
    (hext : env.is_opengles = true ∨ env.cur_fbo_ext = true)
    (hgen : env.gen ≠ 0) (hok : env.incomplete = false) :
    ∃ w1, _al_ogl_setup_fbo w env b = some w1 ∧
      w1.fbos = pre ++ { fbo_state := FBO_INFO_TRANSIENT, fbo := env.gen,
                         owner := some (resolve w b), last_use_time := env.now } :: rest ∧
      (w1.bitmaps (resolve w b)).fbo_info = some (.slot pre.length) ∧
      (∀ c, c ≠ resolve w b → w1.bitmaps c = w.bitmaps c) ∧
      (∀ c, (w1.bitmaps c).parent = (w.bitmaps c).parent ∧
        (w1.bitmaps c).is_backbuffer = (w.bitmaps c).is_backbuffer ∧
        (w1.bitmaps c).force_locking = (w.bitmaps c).force_locking) := by
  have hfind : ogl_find_unused_fbo w.fbos = (pre.length : Int) := by
    unfold ogl_find_unused_fbo
    rw [hfbos, find_loop_unused pre u rest hpre hu]; simp
  have hs : w.fbos[pre.length]? = some u := by
    rw [hfbos, List.getElem?_append_right (le_refl _)]; simp
  have hntr : u.fbo_state ≠ FBO_INFO_TRANSIENT := by rw [hu]; simp
  have htake : take_pool_slot w env =
      some (setRec w (.slot pre.length)
        { fbo_state := FBO_INFO_UNUSED, fbo := env.gen, owner := u.owner,
          last_use_time := u.last_use_time }, some (.slot pre.length)) := by
    simp only [take_pool_slot, hfind, slotAt_natCast, hs, hntr, if_false, Int.toNat_ofNat]
    rw [← hu]
  have hsel : select_fbo_info w env (resolve w b) =
      some (setRec w (.slot pre.length)
        { fbo_state := FBO_INFO_UNUSED, fbo := env.gen, owner := u.owner,
          last_use_time := u.last_use_time }, some (.slot pre.length)) := by
    unfold select_fbo_info
    rw [if_pos ⟨hnone, hfl⟩, if_pos hext, htake]
  have hrec : getRec (setRec w (.slot pre.length)
      { fbo_state := FBO_INFO_UNUSED, fbo := env.gen, owner := u.owner,
        last_use_time := u.last_use_time }) (.slot pre.length) =
      some { fbo_state := FBO_INFO_UNUSED, fbo := env.gen, owner := u.owner,
             last_use_time := u.last_use_time } :=
    getRec_setRec_self _ _ _ _ hs
  have hcall : _al_ogl_setup_fbo w env b =
      some { (set_fbo_info
               (setRec
                 (setRec w (.slot pre.length)
                   { fbo_state := FBO_INFO_UNUSED, fbo := env.gen, owner := u.owner,
                     last_use_time := u.last_use_time })
                 (.slot pre.length)
                 { fbo_state := FBO_INFO_TRANSIENT, fbo := env.gen,
                   owner := some (resolve w b), last_use_time := env.now })
               (resolve w b) (some (.slot pre.length))) with
             bound_fbo := env.gen, opengl_target := some (resolve w b) } := by
    simp only [_al_ogl_setup_fbo, hbb, if_true, hsel, bind_fbo_info, hrec, hgen, if_false, hok,
      _al_ogl_bind_framebuffer, Bool.false_eq_true]
  refine ⟨_, hcall, ?_, ?_, ?_, ?_⟩
  · show (List.set (List.set w.fbos pre.length _) pre.length _) = _
    rw [hfbos, set_length_append, set_length_append]
  · exact set_fbo_info_self _ _ _
  · intro c hc
    show (set_fbo_info _ (resolve w b) (some (.slot pre.length))).bitmaps c = _
    rw [set_fbo_info_ne _ _ _ _ hc]
    simp
  · intro c
    refine ⟨?_, ?_, ?_⟩
    · show ((set_fbo_info _ (resolve w b) (some (.slot pre.length))).bitmaps c).parent = _
      simp
    · show ((set_fbo_info _ (resolve w b) (some (.slot pre.length))).bitmaps c).is_backbuffer
        = _
      simp
    · show ((set_fbo_info _ (resolve w b) (some (.slot pre.length))).bitmaps c).force_locking
        = _
      simp

/-- Equal entries of a list without duplicates sit at the same index. -/
theorem nodup_index_eq {α : Type} (l : List α) (h : l.Nodup) (j k : Nat) (x : α)
    (hj : l[j]? = some x) (hk : l[k]? = some x) : j = k := by
  obtain ⟨hj1, hj2⟩ := List.getElem?_eq_some.1 hj
  obtain ⟨hk1, hk2⟩ := List.getElem?_eq_some.1 hk
  exact (List.Nodup.getElem_inj_iff h).1 (hj2.trans hk2.symm)

/-- Activations of distinct bitmaps without association while UNUSED slots
remain: the `k`-th bitmap gets the `k`-th UNUSED slot. -/
theorem activate_fresh_aux (acts : List (GLEnv × Nat)) :
    ∀ (w : World) (pre rest : List ALLEGRO_FBO_INFO),
    w.fbos = pre ++ rest →
    (∀ x ∈ pre, x.fbo_state ≠ FBO_INFO_UNUSED) →
    (∀ x ∈ rest, x.fbo_state = FBO_INFO_UNUSED) →
    acts.length ≤ rest.length →
    (∀ a ∈ acts, (w.bitmaps a.2).parent = none ∧ (w.bitmaps a.2).is_backbuffer = false ∧
      (w.bitmaps a.2).force_locking = false ∧ (w.bitmaps a.2).fbo_info = none) →
    (acts.map Prod.snd).Nodup →
    (∀ a ∈ acts, (a.1.is_opengles = true ∨ a.1.cur_fbo_ext = true) ∧ a.1.gen ≠ 0 ∧
      a.1.incomplete = false) →
    ∃ w1, runCalls w (acts.map (fun a => Call.setup a.1 a.2)) = some w1 ∧
      (∀ k a, acts[k]? = some a →
        (w1.bitmaps a.2).fbo_info = some (.slot (pre.length + k)) ∧
        w1.fbos[pre.length + k]? =
          some { fbo_state := FBO_INFO_TRANSIENT, fbo := a.1.gen, owner := some a.2,
                 last_use_time := a.1.now }) ∧
      (∀ c, c ∉ acts.map Prod.snd → w1.bitmaps c = w.bitmaps c) ∧
      (∀ j, j < pre.length → w1.fbos[j]? = w.fbos[j]?) := by
  induction acts with
  | nil =>
    intro w pre rest _ _ _ _ _ _ _
    exact ⟨w, rfl, by intro k a h; simp at h, fun _ _ => rfl, fun _ _ => rfl⟩
  | cons a acts ih =>
    intro w pre rest hfbos hpre hrest hlen hbm hnd henv
    cases rest with
    | nil => simp at hlen
    | cons u rest =>
      obtain ⟨hpar, hbb, hfl, hnone⟩ := hbm a (List.mem_cons_self _ _)
      obtain ⟨hext, hgen, hok⟩ := henv a (List.mem_cons_self _ _)
      have hres : resolve w a.2 = a.2 := by simp [resolve, hpar]
      obtain ⟨w1, hcall, hfbos1, hassoc1, hothers1, hfields1⟩ :=
        setup_fbo_first_unused_eq w a.1 a.2 pre rest u hfbos hpre
          (hrest u (List.mem_cons_self _ _)) (by rw [hres]; exact hbb)
          (by rw [hres]; exact hnone) (by rw [hres]; exact hfl) hext hgen hok
      rw [hres] at hfbos1 hassoc1 hothers1
      have hnd2 : a.2 ∉ acts.map Prod.snd ∧ (acts.map Prod.snd).Nodup := by
        simpa using hnd
      have hne : ∀ c ∈ acts, c.2 ≠ a.2 := by
        intro c hc e
        exact hnd2.1 (by rw [← e]; exact List.mem_map_of_mem _ hc)
      obtain ⟨w2, hrun, hslots, hframe, hkept⟩ := ih w1
        (pre ++ [{ fbo_state := FBO_INFO_TRANSIENT, fbo := a.1.gen, owner := some a.2,
                   last_use_time := a.1.now }]) rest
        (by rw [hfbos1]; simp)
        (by
          intro x hx
          rcases List.mem_append.1 hx with hx | hx
          · exact hpre x hx
          · simp at hx; subst hx; simp)
        (fun x hx => hrest x (List.mem_cons_of_mem _ hx))
        (by simp at hlen; omega)
        (by
          intro c hc
          rw [hothers1 c.2 (hne c hc)]
          exact hbm c (List.mem_cons_of_mem _ hc))
        hnd2.2
        (fun c hc => henv c (List.mem_cons_of_mem _ hc))
      refine ⟨w2, ?_, ?_, ?_, ?_⟩
      · simp only [List.map_cons, runCalls, Call.run, hcall, Option.some_bind]
        exact hrun
      · intro k c hk
        cases k with
        | zero =>
          simp at hk; subst hk
          simp only [Nat.add_zero]
          constructor
          · rw [hframe a.2 hnd2.1]; exact hassoc1
          · rw [hkept pre.length (by simp), hfbos1,
              List.getElem?_append_right (le_refl _)]
            simp
        | succ k =>
          simp at hk
          obtain ⟨h1, h2⟩ := hslots k c hk
          simp only [List.length_append, List.length_singleton] at h1 h2
          have e : pre.length + (k + 1) = pre.length + 1 + k := by omega
          rw [e]
          exact ⟨h1, h2⟩
      · intro c hc
        have hc1 : c ≠ a.2 := by
          intro e; apply hc; simp [e]
        have hc2 : c ∉ acts.map Prod.snd := by
          intro h; apply hc; simp only [List.map_cons]; exact List.mem_cons_of_mem _ h
        rw [hframe c hc2, hothers1 c hc1]
      · intro j hj
        rw [hkept j (by simp; omega), hfbos1, hfbos]
        rw [List.getElem?_append_left hj, List.getElem?_append_left hj]

/-- C9: from a pool whose slots are all UNUSED, `N ≤ ALLEGRO_MAX_OPENGL_FBOS`
pairwise distinct bitmaps are activated, none a sub-bitmap, the backbuffer,
force-locked or associated, every activation with the extension available, the
completeness check passing and a non-zero handle different from the others.
All calls return; the `k`-th bitmap is associated with pool slot `k`, which
holds its handle; and any two of the bitmaps refer to different records with
different handles. -/
theorem distinct_targets_distinct_slots (w : World) (acts : List (GLEnv × Nat))
    (hunused : ∀ x ∈ w.fbos, x.fbo_state = FBO_INFO_UNUSED)
    (hlen : acts.length ≤ w.fbos.length)
    (hbm : ∀ a ∈ acts, (w.bitmaps a.2).parent = none ∧
      (w.bitmaps a.2).is_backbuffer = false ∧ (w.bitmaps a.2).force_locking = false ∧
      (w.bitmaps a.2).fbo_info = none)
    (hnd : (acts.map Prod.snd).Nodup)
    (henv : ∀ a ∈ acts,
      (a.1.is_opengles = true ∨ a.1.cur_fbo_ext = true) ∧ a.1.gen ≠ 0 ∧
      a.1.incomplete = false)
    (hfresh : (acts.map (fun a => a.1.gen)).Nodup) :
    ∃ w1, runCalls w (acts.map (fun a => Call.setup a.1 a.2)) = some w1 ∧
      (∀ k a, acts[k]? = some a →
        (w1.bitmaps a.2).fbo_info = some (.slot k) ∧
        w1.fbos[k]? = some { fbo_state := FBO_INFO_TRANSIENT, fbo := a.1.gen,
                             owner := some a.2, last_use_time := a.1.now }) ∧
      (∀ (j k : Nat) (a c : GLEnv × Nat) (rj rk : Ref) (sj sk : ALLEGRO_FBO_INFO),
        j ≠ k → acts[j]? = some a → acts[k]? = some c →
        (w1.bitmaps a.2).fbo_info = some rj → (w1.bitmaps c.2).fbo_info = some rk →
        getRec w1 rj = some sj → getRec w1 rk = some sk →
        rj ≠ rk ∧ sj.fbo ≠ sk.fbo) := by
  obtain ⟨w1, hrun, hslots, _, _⟩ :=
    activate_fresh_aux acts w [] w.fbos rfl (by simp) hunused hlen hbm hnd henv
  have hslots1 : ∀ k a, acts[k]? = some a →
      (w1.bitmaps a.2).fbo_info = some (.slot k) ∧
      w1.fbos[k]? = some { fbo_state := FBO_INFO_TRANSIENT, fbo := a.1.gen,
                           owner := some a.2, last_use_time := a.1.now } := by
    intro k a hk
    have := hslots k a hk
    simpa using this
  refine ⟨w1, hrun, hslots1, ?_⟩
  intro j k a c rj rk sj sk hjk hj hk haj hck hsj hsk
  obtain ⟨h1, h2⟩ := hslots1 j a hj
  obtain ⟨h3, h4⟩ := hslots1 k c hk
  rw [h1] at haj; cases haj
  rw [h3] at hck; cases hck
  have h5 : w1.fbos[j]? = some sj := hsj
  have h6 : w1.fbos[k]? = some sk := hsk
  rw [h2] at h5; cases h5
  rw [h4] at h6; cases h6
  refine ⟨fun e => hjk (by cases e; rfl), ?_⟩
  intro e
  apply hjk
  apply nodup_index_eq _ hfresh j k a.1.gen
  · rw [List.getElem?_map, hj]; rfl
  · rw [List.getElem?_map, hk]; exact congrArg some e.symm

/-- C9, at capacity 2 with bitmaps `1` and `2`. -/
theorem distinct_targets_distinct_slots_witness :
    ∃ w1, runCalls world_reset2 (acts_two.map (fun a => Call.setup a.1 a.2)) = some w1 ∧
      (∀ k a, acts_two[k]? = some a →
        (w1.bitmaps a.2).fbo_info = some (.slot k) ∧
        w1.fbos[k]? = some { fbo_state := FBO_INFO_TRANSIENT, fbo := a.1.gen,
                             owner := some a.2, last_use_time := a.1.now }) ∧
      (∀ (j k : Nat) (a c : GLEnv × Nat) (rj rk : Ref) (sj sk : ALLEGRO_FBO_INFO),
        j ≠ k → acts_two[j]? = some a → acts_two[k]? = some c →
        (w1.bitmaps a.2).fbo_info = some rj → (w1.bitmaps c.2).fbo_info = some rk →
        getRec w1 rj = some sj → getRec w1 rk = some sk →
        rj ≠ rk ∧ sj.fbo ≠ sk.fbo) :=
  distinct_targets_distinct_slots world_reset2 acts_two (by decide) (by decide) (by decide)
    (by decide) (by decide) (by decide)

/-! ## A record that is out of use has no handle -/

theorem getRec_eq_obs (w : World) (r : Ref) : getRec w r = (obs w).recs r := rfl

/-- Lines 267-299 leave every record but the slot handed out as it was. -/
theorem take_pool_slot_others (w w1 : World) (env : GLEnv) (info : Option Ref)
    (h : take_pool_slot w env = some (w1, info)) :
    ∃ i, info = some (.slot i) ∧ ∀ r, r ≠ .slot i → getRec w1 r = getRec w r := by
  unfold take_pool_slot at h
  simp only at h
  split at h
  · cases h
  · split at h
    · split at h
      · cases h
      · simp only [Option.some.injEq, Prod.mk.injEq] at h
        obtain ⟨hw1, hinfo⟩ := h
        subst hw1
        refine ⟨_, hinfo.symm, ?_⟩
        intro r hr
        rw [getRec_setRec_ne _ _ _ _ hr, getRec_setRec_ne _ _ _ _ hr, getRec_set_fbo_info]
    · simp only [Option.some.injEq, Prod.mk.injEq] at h
      obtain ⟨hw1, hinfo⟩ := h
      subst hw1
      refine ⟨_, hinfo.symm, ?_⟩
      intro r hr
      rw [getRec_setRec_ne _ _ _ _ hr]

/-- Lines 306-381 leave no UNUSED record with a handle, provided the records
other than `info` had none. -/
theorem bind_fbo_info_noStaleHandle (w w2 : World) (env : GLEnv) (t : Nat)
    (info : Option Ref) (h : bind_fbo_info w env t info = some w2)
    (hothers : ∀ r s, info ≠ some r → getRec w r = some s →
      s.fbo_state = FBO_INFO_UNUSED → s.fbo = 0) : NoStaleHandle w2 := by
  cases info with
  | none =>
    simp only [bind_fbo_info, Option.some.injEq] at h
    subst h
    intro r s hs hu
    exact hothers r s (by simp) hs hu
  | some r0 =>
    simp only [bind_fbo_info] at h
    split at h
    · cases h
    · rename_i s0 hs0
      split at h
      · rename_i hz
        simp only [Option.some.injEq] at h
        subst h
        intro r s hs hu
        by_cases e : r = r0
        · subst e; rw [hs0] at hs; cases hs; exact hz
        · exact hothers r s (fun e2 => e (by cases e2; rfl)) hs hu
      · have hkey : ∀ (w3 : World) (s1 : ALLEGRO_FBO_INFO),
            (s1.fbo_state = FBO_INFO_UNUSED → s1.fbo = 0) →
            (∀ r, r ≠ r0 → getRec w3 r = getRec w r) →
            (∀ x, getRec w3 r0 = some x → x = s1) → NoStaleHandle w3 := by
          intro w3 s1 hs1 hne heq r s hs hu
          by_cases e : r = r0
          · subst e
            rw [heq s hs] at hu ⊢
            exact hs1 hu
          · rw [hne r e] at hs
            exact hothers r s (fun e2 => e (by cases e2; rfl)) hs hu
        split at h
        · simp only [Option.some.injEq] at h
          subst h
          apply hkey _ _al_ogl_reset_fbo_info (fun _ => rfl)
          · intro r hr
            rw [getRec_set_fbo_info, getRec_setRec_ne _ _ _ _ hr]
            show getRec (set_fbo_info (setRec w r0 _) t (some r0)) r = _
            rw [getRec_set_fbo_info, getRec_setRec_ne _ _ _ _ hr]
          · intro x hx
            rw [getRec_set_fbo_info] at hx
            rcases getRec_setRec _ _ _ _ _ hx with ⟨_, h1⟩ | ⟨h1, _⟩
            · exact h1
            · exact absurd rfl h1
        · simp only [Option.some.injEq] at h
          subst h
          apply hkey _
            { fbo_state :=
                if s0.fbo_state = FBO_INFO_UNUSED then FBO_INFO_TRANSIENT else s0.fbo_state,
              fbo := s0.fbo, owner := some t, last_use_time := env.now }
          · intro hu
            exact absurd hu (attached_in_use s0 _ rfl)
          · intro r hr
            show getRec (set_fbo_info (setRec w r0 _) t (some r0)) r = _
            rw [getRec_set_fbo_info, getRec_setRec_ne _ _ _ _ hr]
          · intro x hx
            have hx1 : getRec (set_fbo_info (setRec w r0 _) t (some r0)) r0 = some x := hx
            rw [getRec_set_fbo_info] at hx1
            rcases getRec_setRec _ _ _ _ _ hx1 with ⟨_, h1⟩ | ⟨h1, _⟩
            · exact h1
            · exact absurd rfl h1

/-- `_al_ogl_setup_fbo` leaves no UNUSED record with a handle. -/
theorem setup_fbo_noStaleHandle (w w2 : World) (env : GLEnv) (b : Nat)
    (h : _al_ogl_setup_fbo w env b = some w2) (hinv : NoStaleHandle w) :
    NoStaleHandle w2 := by
  unfold _al_ogl_setup_fbo at h
  simp only at h
  split at h
  · split at h
    · cases h
    · rename_i w1 info hsel
      unfold select_fbo_info at hsel
      split at hsel
      · split at hsel
        · obtain ⟨i, hi, hothers⟩ := take_pool_slot_others w w1 env info hsel
          apply bind_fbo_info_noStaleHandle w1 w2 env (resolve w b) info h
          intro r s hr hs hu
          have hne : r ≠ .slot i := fun e => hr (by rw [hi, e])
          rw [hothers r hne] at hs
          exact hinv r s hs hu
        · simp only [Option.some.injEq, Prod.mk.injEq] at hsel
          obtain ⟨hw, hinfo⟩ := hsel
          subst hw; subst hinfo
          exact bind_fbo_info_noStaleHandle w w2 env (resolve w b) none h
            (fun r s _ hs hu => hinv r s hs hu)
      · simp only [Option.some.injEq, Prod.mk.injEq] at hsel
        obtain ⟨hw, hinfo⟩ := hsel
        subst hw; subst hinfo
        exact bind_fbo_info_noStaleHandle w w2 env (resolve w b) _ h
          (fun r s _ hs hu => hinv r s hs hu)
  · simp only [Option.some.injEq] at h
    subst h
    intro r s hs hu
    have e : obs (setup_backbuffer w env (resolve w b)) = obs w := by
      apply obs_congr
      · unfold setup_backbuffer _al_ogl_bind_framebuffer; simp only; split
        · rfl
        · split <;> rfl
      · unfold setup_backbuffer _al_ogl_bind_framebuffer; simp only; split
        · rfl
        · split <;> rfl
      · unfold setup_backbuffer _al_ogl_bind_framebuffer; simp only; split
        · rfl
        · split <;> rfl
    rw [getRec_eq_obs, e] at hs
    exact hinv r s hs hu

/-- The stores of `_al_ogl_persist_fbo` and `_al_ogl_create_persistent_fbo`:
a PERSISTENT record, and possibly a reset one. -/
theorem noStaleHandle_of_recs (w w1 : World) (hinv : NoStaleHandle w)
    (h : (obs w1).recs = (obs w).recs ∨
      (∃ r1 s1, s1.fbo_state = FBO_INFO_PERSISTENT ∧
        (obs w1).recs = ((obs w).setRec r1 s1).recs) ∨
      (∃ r1 s1 r2, s1.fbo_state = FBO_INFO_PERSISTENT ∧
        (obs w1).recs = (((obs w).setRec r1 s1).setRec r2 _al_ogl_reset_fbo_info).recs)) :
    NoStaleHandle w1 := by
  intro r s hs hu
  rw [getRec_eq_obs] at hs
  rcases h with h | ⟨r1, s1, hp, h⟩ | ⟨r1, s1, r2, hp, h⟩
  · rw [h] at hs; exact hinv r s hs hu
  · rw [h, Obs.setRec_recs] at hs
    split at hs
    · cases hs; rw [hp] at hu; cases hu
    · exact hinv r s hs hu
  · rw [h, Obs.setRec_recs] at hs
    split at hs
    · cases hs; rfl
    · rw [Obs.setRec_recs] at hs
      split at hs
      · cases hs; rw [hp] at hu; cases hu
      · exact hinv r s hs hu

/-- Every call leaves no UNUSED record with a handle. -/
theorem call_run_noStaleHandle (w w1 : World) (c : Call) (h : c.run w = some w1)
    (hinv : NoStaleHandle w) : NoStaleHandle w1 := by
  cases c with
  | setup env b => exact setup_fbo_noStaleHandle w w1 env b h hinv
  | persist r =>
    simp only [Call.run] at h
    split at h
    · cases h
    · rename_i s hs
      split at h
      · simp only [Option.some.injEq] at h
        subst h
        apply noStaleHandle_of_recs w _ hinv
        cases r with
        | slot i =>
          right; right
          exact ⟨.heap w.heap.length, { s with fbo_state := FBO_INFO_PERSISTENT }, .slot i,
            rfl, congrArg Obs.recs (obs_persist_slot w i s hs)⟩
        | heap k =>
          left; rw [persist_fbo_heap]
      · cases h
  | promote b =>
    simp only [Call.run, persist_and_store] at h
    split at h
    · cases h
    · rename_i r hr
      split at h
      · cases h
      · rename_i s hs
        split at h
        · simp only [Option.some.injEq] at h
          subst h
          apply noStaleHandle_of_recs w _ hinv
          rw [obs_set_fbo_info, Obs.setAssoc_recs]
          cases r with
          | slot i =>
            right; right
            exact ⟨.heap w.heap.length, { s with fbo_state := FBO_INFO_PERSISTENT }, .slot i,
              rfl, congrArg Obs.recs (obs_persist_slot w i s hs)⟩
          | heap k =>
            left; rw [persist_fbo_heap]
        · cases h
  | create env b =>
    simp only [Call.run] at h
    split at h
    · simp only [Option.some.injEq] at h
      subst h
      apply noStaleHandle_of_recs w _ hinv
      unfold _al_ogl_create_persistent_fbo
      simp only
      split
      · left; rfl
      · split
        · left; rfl
        · split
          · left; rfl
          · split
            · left; exact congrArg Obs.recs (obs_congr _ _ rfl rfl rfl)
            · right; left
              refine ⟨.heap w.heap.length,
                { fbo_state := FBO_INFO_PERSISTENT, fbo := env.gen,
                  owner := some (resolve w b), last_use_time := env.now }, rfl, ?_⟩
              rw [obs_set_fbo_info]
              show (obs { w with heap := w.heap ++ [_] }).recs = _
              rw [obs_alloc]
    · cases h

/-- In every reachable state an UNUSED record has handle 0; so a record with
a non-zero handle is in use. -/
theorem reachable_noStaleHandle (w : World) (h : Reachable w) : NoStaleHandle w := by
  obtain ⟨w0, cs, hinit, hrun⟩ := h
  have h0 : NoStaleHandle w0 := by
    intro r s hs _
    rw [initial_recs_reset w0 hinit r s hs]
    rfl
  clear hinit
  induction cs generalizing w0 with
  | nil =>
    simp only [runCalls, Option.some.injEq] at hrun
    subst hrun; exact h0
  | cons c cs ih =>
    simp only [runCalls] at hrun
    cases hc : c.run w0 with
    | none => rw [hc] at hrun; cases hrun
    | some w2 =>
      rw [hc] at hrun
      simp only [Option.some_bind] at hrun
      exact ih w2 hrun (call_run_noStaleHandle w0 w2 c hc h0)

/-! ## `_al_ogl_create_persistent_fbo`: failure and success -/

/-- The state and the result of `_al_ogl_create_persistent_fbo` on a failure
path, and on the success path. -/
theorem create_persistent_fbo_cases (w : World) (env : GLEnv) (b : Nat) :
    (((w.is_shared (w.bitmaps (resolve w b)).display = false ∧
          (w.bitmaps (resolve w b)).display ≠ env.current_display) ∨
        (w.bitmaps (resolve w b)).is_backbuffer = true ∨ env.gen = 0 ∨
        env.incomplete = true) ∧
      _al_ogl_create_persistent_fbo w env b = (w, false)) ∨
    (¬ ((w.is_shared (w.bitmaps (resolve w b)).display = false ∧
          (w.bitmaps (resolve w b)).display ≠ env.current_display) ∨
        (w.bitmaps (resolve w b)).is_backbuffer = true ∨ env.gen = 0 ∨
        env.incomplete = true) ∧
      _al_ogl_create_persistent_fbo w env b =
        (set_fbo_info
          { w with heap := w.heap ++
              [{ fbo_state := FBO_INFO_PERSISTENT, fbo := env.gen,
                 owner := some (resolve w b), last_use_time := env.now }] }
          (resolve w b) (some (.heap w.heap.length)), true)) := by
  unfold _al_ogl_create_persistent_fbo
  simp only
  by_cases h1 : w.is_shared (w.bitmaps (resolve w b)).display = false ∧
      (w.bitmaps (resolve w b)).display ≠ env.current_display
  · left
    rw [if_pos h1]
    exact ⟨Or.inl h1, rfl⟩
  · rw [if_neg h1]
    by_cases h2 : (w.bitmaps (resolve w b)).is_backbuffer = true
    · left
      rw [if_pos h2]
      exact ⟨Or.inr (Or.inl h2), rfl⟩
    · rw [if_neg h2]
      by_cases h3 : env.gen = 0
      · left
        rw [if_pos h3]
        exact ⟨Or.inr (Or.inr (Or.inl h3)), rfl⟩
      · rw [if_neg h3]
        by_cases h4 : env.incomplete = true
        · left
          rw [if_pos h4]
          exact ⟨Or.inr (Or.inr (Or.inr h4)), rfl⟩
        · right
          rw [if_neg h4]
          refine ⟨?_, rfl⟩
          rintro (h | h | h | h)
          · exact h1 h
          · exact h2 h
          · exact h3 h
          · exact h4 h

/-- C13: for a bitmap without association, `_al_ogl_create_persistent_fbo`
returns false exactly when the bitmap's display is neither shared nor the
current display, or the bitmap is the backbuffer, or the generated handle is 0,
or the completeness check fails; and when it returns false the state is the one
before the call: the bitmap's `fbo_info` is still NULL, no pool slot and no
record has changed, and the framebuffer bound before is bound again. -/
theorem create_persistent_fbo_failure (w : World) (env : GLEnv) (b : Nat)
    (_hnone : (w.bitmaps (resolve w b)).fbo_info = none) :
    ((_al_ogl_create_persistent_fbo w env b).2 = false ↔
      ((w.is_shared (w.bitmaps (resolve w b)).display = false ∧
          (w.bitmaps (resolve w b)).display ≠ env.current_display) ∨
        (w.bitmaps (resolve w b)).is_backbuffer = true ∨ env.gen = 0 ∨
        env.incomplete = true)) ∧
    ((_al_ogl_create_persistent_fbo w env b).2 = false →
      ((_al_ogl_create_persistent_fbo w env b).1.bitmaps (resolve w b)).fbo_info = none ∧
      (_al_ogl_create_persistent_fbo w env b).1.bitmaps = w.bitmaps ∧
      (_al_ogl_create_persistent_fbo w env b).1.fbos = w.fbos ∧
      (_al_ogl_create_persistent_fbo w env b).1.heap = w.heap ∧
      (_al_ogl_create_persistent_fbo w env b).1.bound_fbo = w.bound_fbo ∧
      (_al_ogl_create_persistent_fbo w env b).1.opengl_target = w.opengl_target) := by
  rcases create_persistent_fbo_cases w env b with ⟨hc, he⟩ | ⟨hc, he⟩
  · rw [he]
    exact ⟨⟨fun _ => hc, fun _ => rfl⟩, fun _ => ⟨_hnone, rfl, rfl, rfl, rfl, rfl⟩⟩
  · rw [he]
    refine ⟨⟨fun h => ?_, fun h => absurd h hc⟩, fun h => ?_⟩
    · cases h
    · cases h

/-- C13, at bitmap `3` of `world_two_targets` when the completeness check
fails. -/
theorem create_persistent_fbo_failure_witness :
    (_al_ogl_create_persistent_fbo world_two_targets (env_incomplete 30 5) 3).2 = false ∧
    ((_al_ogl_create_persistent_fbo world_two_targets (env_incomplete 30 5) 3).1.bitmaps
      3).fbo_info = none ∧
    (_al_ogl_create_persistent_fbo world_two_targets (env_incomplete 30 5) 3).1.fbos =
      world_two_targets.fbos ∧
    (_al_ogl_create_persistent_fbo world_two_targets (env_incomplete 30 5) 3).1.bound_fbo =
      12 :=
  have h := create_persistent_fbo_failure world_two_targets (env_incomplete 30 5) 3 rfl
  have hf := h.1.2 (Or.inr (Or.inr (Or.inr rfl)))
  ⟨hf, (h.2 hf).1, (h.2 hf).2.2.1, (h.2 hf).2.2.2.2.1⟩

/-- C14: when `_al_ogl_create_persistent_fbo` returns true, the bitmap (its
parent, for a sub-bitmap) refers to a record that did not exist before the call
and is not a slot of the pool array; the record is PERSISTENT, owned by that
bitmap, holds the generated handle, which is not 0, and the clock value read
by the call.  No pool slot and no earlier record has changed, and the
framebuffer bound before is bound again. -/
theorem create_persistent_fbo_success (w : World) (env : GLEnv) (b : Nat)
    (h : (_al_ogl_create_persistent_fbo w env b).2 = true) :
    ((_al_ogl_create_persistent_fbo w env b).1.bitmaps (resolve w b)).fbo_info =
      some (.heap w.heap.length) ∧
    getRec w (.heap w.heap.length) = none ∧
    getRec (_al_ogl_create_persistent_fbo w env b).1 (.heap w.heap.length) =
      some { fbo_state := FBO_INFO_PERSISTENT, fbo := env.gen,
             owner := some (resolve w b), last_use_time := env.now } ∧
    env.gen ≠ 0 ∧
    (_al_ogl_create_persistent_fbo w env b).1.fbos = w.fbos ∧
    (∀ k, k < w.heap.length →
      (_al_ogl_create_persistent_fbo w env b).1.heap[k]? = w.heap[k]?) ∧
    (∀ c, c ≠ resolve w b →
      (_al_ogl_create_persistent_fbo w env b).1.bitmaps c = w.bitmaps c) ∧
    (_al_ogl_create_persistent_fbo w env b).1.bound_fbo = w.bound_fbo := by
  rcases create_persistent_fbo_cases w env b with ⟨_, he⟩ | ⟨hc, he⟩
  · rw [he] at h; cases h
  · rw [he]
    refine ⟨set_fbo_info_self _ _ _, getRec_heap_length w, ?_, ?_, rfl, ?_, ?_, rfl⟩
    · rw [getRec_set_fbo_info]
      simp [getRec]
    · intro h0; exact hc (Or.inr (Or.inr (Or.inl h0)))
    · intro k hk
      show (w.heap ++ [_])[k]? = _
      rw [List.getElem?_append_left hk]
    · intro c hc2
      exact set_fbo_info_ne _ _ _ _ hc2

/-- C14, at bitmap `3` of `world_two_targets`. -/
theorem create_persistent_fbo_success_witness :
    ((_al_ogl_create_persistent_fbo world_two_targets (env_ok 30 5) 3).1.bitmaps
      3).fbo_info = some (.heap 1) ∧
    getRec (_al_ogl_create_persistent_fbo world_two_targets (env_ok 30 5) 3).1 (.heap 1) =
      some { fbo_state := FBO_INFO_PERSISTENT, fbo := 30, owner := some 3,
             last_use_time := 5 } ∧
    (_al_ogl_create_persistent_fbo world_two_targets (env_ok 30 5) 3).1.fbos =
      world_two_targets.fbos :=
  have h := create_persistent_fbo_success world_two_targets (env_ok 30 5) 3 rfl
  ⟨h.1, h.2.2.1, h.2.2.2.2.1⟩

/-- C15: for a TRANSIENT record that is not a slot of the display's pool
array, `_al_ogl_persist_fbo` returns the pointer it was given and leaves the
whole state, the record and every pool slot included, as it was. -/
theorem persist_fbo_not_in_pool (w : World) (r : Ref) (s : ALLEGRO_FBO_INFO)
    (_hs : getRec w r = some s) (_ht : s.fbo_state = FBO_INFO_TRANSIENT)
    (hout : ∀ i, i < w.fbos.length → r ≠ .slot i) :
    (_al_ogl_persist_fbo w r).2 = r ∧ (_al_ogl_persist_fbo w r).1 = w ∧
    getRec (_al_ogl_persist_fbo w r).1 r = some s ∧
    (_al_ogl_persist_fbo w r).1.fbos = w.fbos := by
  have he : _al_ogl_persist_fbo w r = (w, r) := by
    cases r with
    | slot i =>
      have hi : ¬ i < w.fbos.length := fun hi => hout i hi rfl
      simp [_al_ogl_persist_fbo, pool_index_of_slot, hi]
    | heap k => exact persist_fbo_heap w k
  rw [he]
  exact ⟨rfl, rfl, _hs, rfl⟩

/-- C15, at the TRANSIENT record `heap 0` of `world_transient_heap`. -/
theorem persist_fbo_not_in_pool_witness :
    (_al_ogl_persist_fbo world_transient_heap (.heap 0)).2 = .heap 0 ∧
    (_al_ogl_persist_fbo world_transient_heap (.heap 0)).1 = world_transient_heap ∧
    getRec (_al_ogl_persist_fbo world_transient_heap (.heap 0)).1 (.heap 0) =
      some { fbo_state := FBO_INFO_TRANSIENT, fbo := 21, owner := some 1,
             last_use_time := 4 } ∧
    (_al_ogl_persist_fbo world_transient_heap (.heap 0)).1.fbos =
      world_transient_heap.fbos :=
  persist_fbo_not_in_pool world_transient_heap (.heap 0)
    { fbo_state := FBO_INFO_TRANSIENT, fbo := 21, owner := some 1, last_use_time := 4 }
    rfl rfl (by intro i _ h; cases h)

/-- C17: in every state reachable from an initialised pool by calls of
`_al_ogl_setup_fbo`, `_al_ogl_persist_fbo` and `_al_ogl_create_persistent_fbo`,
every slot of the `fbos` array is UNUSED or TRANSIENT; so the slot that
`ogl_find_unused_fbo` returns in `_al_ogl_setup_fbo` is not PERSISTENT, which is
what the assertion of line 268 tests. -/
theorem pool_never_persistent (w : World) (h : Reachable w) :
    (∀ s ∈ w.fbos,
      s.fbo_state = FBO_INFO_UNUSED ∨ s.fbo_state = FBO_INFO_TRANSIENT) ∧
    ∀ s, slotAt w.fbos (ogl_find_unused_fbo w.fbos) = some s →
      s.fbo_state ≠ FBO_INFO_PERSISTENT := by
  have hpool := (reachable_invariants w h).2.1
  constructor
  · intro s hs
    obtain ⟨i, hi⟩ := List.getElem?_of_mem hs
    have := hpool i s hi
    cases hst : s.fbo_state
    · left; rfl
    · right; rfl
    · exact absurd hst this
  · intro s hs
    exact hpool _ s (slotAt_some _ _ _ hs).2

/-- C17, at the state after bitmaps `1`, `2`, `1` were activated. -/
theorem pool_never_persistent_witness :
    (∀ s ∈ world_after_ABA.fbos,
      s.fbo_state = FBO_INFO_UNUSED ∨ s.fbo_state = FBO_INFO_TRANSIENT) ∧
    ∀ s, slotAt world_after_ABA.fbos (ogl_find_unused_fbo world_after_ABA.fbos) = some s →
      s.fbo_state ≠ FBO_INFO_PERSISTENT :=
  pool_never_persistent world_after_ABA
    ⟨world_reset2, calls_ABA, world_reset2_initial, rfl⟩

/-! ## Window modules (`src/win/wwnd.c`) -/

/-- C16 fails on the code: only the keyboard is installed, and the record
behind `wm` holds left-over values.  `memset(wm, 0, sizeof(wm))` clears four
bytes (eight on a 64-bit build), so `sound` and `sound_input` are still
non-zero after `exit_window_modules`, and `init_window_modules` then asks for
sound and sound input, with the left-over card numbers. -/
theorem exit_window_modules_keeps_leftover :
    (exit_window_modules (win_env 4) (some wm_leftover) globals_keyboard_only).1 =
      some { keyboard := -1, mouse := 0, sound := 1, digi_card := 7, midi_card := 9,
             sound_input := 1, digi_input_card := 3, midi_input_card := 5 } ∧
    (exit_window_modules (win_env 8) (some wm_leftover) globals_keyboard_only).1 =
      some { keyboard := -1, mouse := 0, sound := 1, digi_card := 7, midi_card := 9,
             sound_input := 1, digi_input_card := 3, midi_input_card := 5 } ∧
    globals_keyboard_only._sound_installed = 0 ∧
    globals_keyboard_only._sound_input_installed = 0 ∧
    win_set_window_modules (win_env 4) wm_leftover globals_keyboard_only =
      some { keyboard := true, mouse := false, sound := some (7, 9),
             sound_input := some (3, 5) } := by
  decide

/-- With the size of the record in place of the size of the pointer
(`sizeof(*wm)`, 32 bytes), the record is cleared first, and every one of the
four flags of `wm` is non-zero exactly when its module was installed at the
call, provided `TRUE` is not 0 and a removal function leaves the flags of the
other modules alone. -/
theorem exit_window_modules_cleared (e : WinEnv) (wm : WINDOW_MODULES) (g : WinGlobals)
    (hsize : 32 ≤ e.sizeof_ptr) (htrue : e.TRUE ≠ 0)
    (hk : ∀ x, (e.remove_keyboard x)._mouse_installed = x._mouse_installed ∧
      (e.remove_keyboard x)._sound_installed = x._sound_installed ∧
      (e.remove_keyboard x)._sound_input_installed = x._sound_input_installed)
    (hm : ∀ x, (e.remove_mouse x)._sound_installed = x._sound_installed ∧
      (e.remove_mouse x)._sound_input_installed = x._sound_input_installed)
    (hs : ∀ x, (e.remove_sound x)._sound_input_installed = x._sound_input_installed) :
    ∃ m, (exit_window_modules e (some wm) g).1 = some m ∧
      (m.keyboard ≠ 0 ↔ g._keyboard_installed ≠ 0) ∧
      (m.mouse ≠ 0 ↔ g._mouse_installed ≠ 0) ∧
      (m.sound ≠ 0 ↔ g._sound_installed ≠ 0) ∧
      (m.sound_input ≠ 0 ↔ g._sound_input_installed ≠ 0) := by
  have h0 : memset_zero wm e.sizeof_ptr =
      { keyboard := 0, mouse := 0, sound := 0, digi_card := 0, midi_card := 0,
        sound_input := 0, digi_input_card := 0, midi_input_card := 0 } := by
    simp only [memset_zero, memset_field]
    have h1 : 0 + 4 ≤ e.sizeof_ptr := by omega
    have h2 : 4 + 4 ≤ e.sizeof_ptr := by omega
    have h3 : 8 + 4 ≤ e.sizeof_ptr := by omega
    have h4 : 12 + 4 ≤ e.sizeof_ptr := by omega
    have h5 : 16 + 4 ≤ e.sizeof_ptr := by omega
    have h6 : 20 + 4 ≤ e.sizeof_ptr := by omega
    have h7 : 24 + 4 ≤ e.sizeof_ptr := by omega
    have h8 : 28 + 4 ≤ e.sizeof_ptr := by omega
    simp only [h1, h2, h3, h4, h5, h6, h7, h8, if_true]
  unfold exit_window_modules
  simp only [Option.map_some', h0]
  by_cases c1 : g._keyboard_installed = 0 <;> by_cases c2 : g._mouse_installed = 0 <;>
    by_cases c3 : g._sound_installed = 0 <;> by_cases c4 : g._sound_input_installed = 0 <;>
    simp [exit_keyboard, exit_mouse, exit_sound, exit_sound_input, c1, c2, c3, c4,
      (hk _).1, (hk _).2.1, (hk _).2.2, (hm _).1, (hm _).2, hs, htrue]

/-! ## What one activation leaves alone -/

/-- Two bitmaps that differ at most in `fbo_info`. -/
theorem set_fbo_info_shape (w : World) (b c : Nat) (v : Option Ref) :
    ((set_fbo_info w b v).bitmaps c).parent = (w.bitmaps c).parent ∧
    ((set_fbo_info w b v).bitmaps c).display = (w.bitmaps c).display ∧
    ((set_fbo_info w b v).bitmaps c).force_locking = (w.bitmaps c).force_locking ∧
    ((set_fbo_info w b v).bitmaps c).is_backbuffer = (w.bitmaps c).is_backbuffer :=
  ⟨set_fbo_info_parent w b c v, set_fbo_info_display w b c v,
    set_fbo_info_force_locking w b c v, set_fbo_info_is_backbuffer w b c v⟩

/-- Lines 267-299 write no bitmap but the owner of a TRANSIENT slot, whose
association they clear. -/
theorem take_pool_slot_bitmaps (w w1 : World) (env : GLEnv) (info : Option Ref)
    (h : take_pool_slot w env = some (w1, info)) (c : Nat) :
    w1.bitmaps c = w.bitmaps c ∨
    (w1.bitmaps c = { w.bitmaps c with fbo_info := none } ∧
      ∃ (i : Nat) (s : ALLEGRO_FBO_INFO),
        w.fbos[i]? = some s ∧ s.fbo_state = FBO_INFO_TRANSIENT ∧ s.owner = some c) := by
  unfold take_pool_slot at h
  simp only at h
  split at h
  · cases h
  · rename_i s hs
    obtain ⟨_, hget⟩ := slotAt_some _ _ _ hs
    split at h
    · rename_i htr
      split at h
      · cases h
      · rename_i a ha
        simp only [Option.some.injEq, Prod.mk.injEq] at h
        obtain ⟨hw1, _⟩ := h
        subst hw1
        simp only [setRec_bitmaps]
        by_cases e : c = a
        · subst e
          right
          refine ⟨?_, _, s, hget, htr, ha⟩
          simp [set_fbo_info]
        · left
          exact set_fbo_info_ne w a c none e
    · simp only [Option.some.injEq, Prod.mk.injEq] at h
      obtain ⟨hw1, _⟩ := h
      subst hw1
      left
      simp

/-- Lines 267-299 leave the display fields and the binding alone. -/
theorem take_pool_slot_display (w w1 : World) (env : GLEnv) (info : Option Ref)
    (h : take_pool_slot w env = some (w1, info)) :
    w1.bound_fbo = w.bound_fbo ∧ w1.opengl_target = w.opengl_target ∧
    w1.heap = w.heap ∧ w1.fbos.length = w.fbos.length := by
  unfold take_pool_slot at h
  simp only at h
  split at h
  · cases h
  · split at h
    · split at h
      · cases h
      · simp only [Option.some.injEq, Prod.mk.injEq] at h
        obtain ⟨hw1, _⟩ := h
        subst hw1
        simp [setRec, set_fbo_info]
    · simp only [Option.some.injEq, Prod.mk.injEq] at h
      obtain ⟨hw1, _⟩ := h
      subst hw1
      simp [setRec]

/-- Lines 306-381 write no record but `info` and no bitmap but `t`, of which
they write `fbo_info` only. -/
theorem bind_fbo_info_frame (w w2 : World) (env : GLEnv) (t : Nat) (info : Option Ref)
    (h : bind_fbo_info w env t info = some w2) :
    (∀ r, info ≠ some r → getRec w2 r = getRec w r) ∧
    (∀ c, c ≠ t → w2.bitmaps c = w.bitmaps c) ∧
    (∀ c, (w2.bitmaps c).parent = (w.bitmaps c).parent ∧
      (w2.bitmaps c).display = (w.bitmaps c).display ∧
      (w2.bitmaps c).force_locking = (w.bitmaps c).force_locking ∧
      (w2.bitmaps c).is_backbuffer = (w.bitmaps c).is_backbuffer) := by
  cases info with
  | none =>
    simp only [bind_fbo_info, Option.some.injEq] at h
    subst h
    exact ⟨fun _ _ => rfl, fun _ _ => rfl, fun _ => ⟨rfl, rfl, rfl, rfl⟩⟩
  | some r0 =>
    simp only [bind_fbo_info] at h
    split at h
    · cases h
    · rename_i s0 hs0
      split at h
      · simp only [Option.some.injEq] at h
        subst h
        exact ⟨fun _ _ => rfl, fun _ _ => rfl, fun _ => ⟨rfl, rfl, rfl, rfl⟩⟩
      · split at h
        · simp only [Option.some.injEq] at h
          subst h
          refine ⟨?_, ?_, ?_⟩
          · intro r hr
            have hne : r ≠ r0 := fun e => hr (by rw [e])
            rw [getRec_set_fbo_info, getRec_setRec_ne _ _ _ _ hne]
            show getRec (set_fbo_info (setRec w r0 _) t (some r0)) r = _
            rw [getRec_set_fbo_info, getRec_setRec_ne _ _ _ _ hne]
          · intro c hc
            rw [set_fbo_info_ne _ _ _ _ hc]
            simp only [setRec_bitmaps]
            show (set_fbo_info (setRec w r0 _) t (some r0)).bitmaps c = _
            rw [set_fbo_info_ne _ _ _ _ hc]
            simp
          · intro c
            have h1 := set_fbo_info_shape
              (setRec (_al_ogl_bind_framebuffer (_al_ogl_bind_framebuffer
                (set_fbo_info (setRec w r0
                  { fbo_state :=
                      if s0.fbo_state = FBO_INFO_UNUSED then FBO_INFO_TRANSIENT
                      else s0.fbo_state,
                    fbo := s0.fbo, owner := some t, last_use_time := env.now })
                  t (some r0)) s0.fbo).1 0).1 r0 _al_ogl_reset_fbo_info) t c none
            have h2 := set_fbo_info_shape (setRec w r0
                  { fbo_state :=
                      if s0.fbo_state = FBO_INFO_UNUSED then FBO_INFO_TRANSIENT
                      else s0.fbo_state,
                    fbo := s0.fbo, owner := some t, last_use_time := env.now })
                  t c (some r0)
            simp only [setRec_bitmaps] at h1 h2
            exact ⟨h1.1.trans h2.1, h1.2.1.trans h2.2.1, h1.2.2.1.trans h2.2.2.1,
              h1.2.2.2.trans h2.2.2.2⟩
        · simp only [Option.some.injEq] at h
          subst h
          refine ⟨?_, ?_, ?_⟩
          · intro r hr
            have hne : r ≠ r0 := fun e => hr (by rw [e])
            show getRec (set_fbo_info (setRec w r0 _) t (some r0)) r = _
            rw [getRec_set_fbo_info, getRec_setRec_ne _ _ _ _ hne]
          · intro c hc
            show (set_fbo_info (setRec w r0 _) t (some r0)).bitmaps c = _
            rw [set_fbo_info_ne _ _ _ _ hc]
            simp
          · intro c
            have h2 := set_fbo_info_shape (setRec w r0
                  { fbo_state :=
                      if s0.fbo_state = FBO_INFO_UNUSED then FBO_INFO_TRANSIENT
                      else s0.fbo_state,
                    fbo := s0.fbo, owner := some t, last_use_time := env.now })
                  t c (some r0)
            simp only [setRec_bitmaps] at h2
            exact h2

theorem setup_backbuffer_frame (w : World) (env : GLEnv) (t : Nat) :
    (setup_backbuffer w env t).bitmaps = w.bitmaps ∧
    (setup_backbuffer w env t).fbos = w.fbos ∧
    (setup_backbuffer w env t).heap = w.heap := by
  unfold setup_backbuffer _al_ogl_bind_framebuffer
  simp only
  split
  · exact ⟨rfl, rfl, rfl⟩
  · split
    · exact ⟨rfl, rfl, rfl⟩
    · exact ⟨rfl, rfl, rfl⟩

/-- One call of `_al_ogl_setup_fbo` with target `t` (the bitmap, or its parent).
A bitmap other than `t` is left as it was, unless it owned a TRANSIENT slot, in
which case its association may have been cleared.  A record outside the array
is left as it was unless `t` referred to it.  No field of a bitmap other than
`fbo_info` changes. -/
theorem setup_fbo_frame (w w2 : World) (env : GLEnv) (b : Nat)
    (h : _al_ogl_setup_fbo w env b = some w2) :
    (∀ c, c ≠ resolve w b →
      w2.bitmaps c = w.bitmaps c ∨
      (w2.bitmaps c = { w.bitmaps c with fbo_info := none } ∧
        ∃ (i : Nat) (s : ALLEGRO_FBO_INFO),
          w.fbos[i]? = some s ∧ s.fbo_state = FBO_INFO_TRANSIENT ∧ s.owner = some c)) ∧
    (∀ r, (∀ i, r ≠ .slot i) → (w.bitmaps (resolve w b)).fbo_info ≠ some r →
      getRec w2 r = getRec w r) ∧
    (∀ c, (w2.bitmaps c).parent = (w.bitmaps c).parent ∧
      (w2.bitmaps c).display = (w.bitmaps c).display ∧
      (w2.bitmaps c).force_locking = (w.bitmaps c).force_locking ∧
      (w2.bitmaps c).is_backbuffer = (w.bitmaps c).is_backbuffer) := by
  unfold _al_ogl_setup_fbo at h
  simp only at h
  split at h
  · split at h
    · cases h
    · rename_i w1 info hsel
      obtain ⟨hrecs, hothers, hshape⟩ := bind_fbo_info_frame w1 w2 env (resolve w b) info h
      unfold select_fbo_info at hsel
      split at hsel
      · split at hsel
        · obtain ⟨i, hi, hrecs1⟩ := take_pool_slot_others w w1 env info hsel
          have hbm := take_pool_slot_bitmaps w w1 env info hsel
          refine ⟨?_, ?_, ?_⟩
          · intro c hc
            rw [hothers c hc]
            exact hbm c
          · intro r hr _
            rw [hrecs r (by rw [hi]; intro e; cases e; exact hr i rfl), hrecs1 r (hr i)]
          · intro c
            obtain ⟨h1, h2, h3, h4⟩ := hshape c
            rcases hbm c with e | ⟨e, _⟩
            · rw [e] at h1 h2 h3 h4; exact ⟨h1, h2, h3, h4⟩
            · rw [e] at h1 h2 h3 h4; exact ⟨h1, h2, h3, h4⟩
        · simp only [Option.some.injEq, Prod.mk.injEq] at hsel
          obtain ⟨hw, hinfo⟩ := hsel
          subst hw; subst hinfo
          exact ⟨fun c hc => Or.inl (hothers c hc), fun r _ _ => hrecs r (by simp), hshape⟩
      · simp only [Option.some.injEq, Prod.mk.injEq] at hsel
        obtain ⟨hw, hinfo⟩ := hsel
        subst hw; subst hinfo
        exact ⟨fun c hc => Or.inl (hothers c hc), fun r _ hr => hrecs r hr, hshape⟩
  · simp only [Option.some.injEq] at h
    subst h
    obtain ⟨h1, h2, h3⟩ := setup_backbuffer_frame w env (resolve w b)
    refine ⟨fun c _ => Or.inl (by rw [h1]), ?_, fun c => by rw [h1]; exact ⟨rfl, rfl, rfl, rfl⟩⟩
    intro r _ _
    cases r with
    | slot i => simp [getRec, h2]
    | heap k => simp [getRec, h3]

/-- `_al_ogl_setup_fbo` does not change which bitmap a bitmap resolves to. -/
theorem setup_fbo_resolve (w w2 : World) (env : GLEnv) (b : Nat)
    (h : _al_ogl_setup_fbo w env b = some w2) (c : Nat) : resolve w2 c = resolve w c := by
  unfold resolve
  rw [((setup_fbo_frame w w2 env b h).2.2 c).1]

/-- Lines 267-299 keep every record in place and write no owner but NULL. -/
theorem take_pool_slot_owner (w w1 : World) (env : GLEnv) (info : Option Ref)
    (h : take_pool_slot w env = some (w1, info)) (r : Ref) (s0 : ALLEGRO_FBO_INFO)
    (hr : getRec w r = some s0) :
    ∃ s1, getRec w1 r = some s1 ∧ (s1.owner = s0.owner ∨ s1.owner = none) := by
  unfold take_pool_slot at h
  simp only at h
  split at h
  · cases h
  · rename_i s hs
    obtain ⟨_, hget⟩ := slotAt_some _ _ _ hs
    have hrec : getRec w (.slot (ogl_find_unused_fbo w.fbos).toNat) = some s := hget
    split at h
    · split at h
      · cases h
      · rename_i a _
        simp only [Option.some.injEq, Prod.mk.injEq] at h
        obtain ⟨hw1, _⟩ := h
        subst hw1
        have hrec1 : getRec (set_fbo_info w a none)
            (.slot (ogl_find_unused_fbo w.fbos).toNat) = some s := by
          rw [getRec_set_fbo_info]; exact hrec
        by_cases e : r = .slot (ogl_find_unused_fbo w.fbos).toNat
        · subst e
          exact ⟨{ _al_ogl_reset_fbo_info with fbo := env.gen }, getRec_setRec_self _ _ _ _
            (getRec_setRec_self _ _ s _al_ogl_reset_fbo_info hrec1), Or.inr rfl⟩
        · refine ⟨s0, ?_, Or.inl rfl⟩
          rw [getRec_setRec_ne _ _ _ _ e, getRec_setRec_ne _ _ _ _ e, getRec_set_fbo_info]
          exact hr
    · simp only [Option.some.injEq, Prod.mk.injEq] at h
      obtain ⟨hw1, _⟩ := h
      subst hw1
      by_cases e : r = .slot (ogl_find_unused_fbo w.fbos).toNat
      · subst e
        have hss : s = s0 := by rw [hrec] at hr; cases hr; rfl
        exact ⟨{ s with fbo := env.gen }, getRec_setRec_self _ _ _ _ hrec,
          Or.inl (by rw [← hss])⟩
      · refine ⟨s0, ?_, Or.inl rfl⟩
        rw [getRec_setRec_ne _ _ _ _ e]
        exact hr

/-- Lines 306-381 write no owner but `t` and NULL, and no target but `t`. -/
theorem bind_fbo_info_writes (w w2 : World) (env : GLEnv) (t : Nat) (info : Option Ref)
    (h : bind_fbo_info w env t info = some w2) :
    (w2.opengl_target = w.opengl_target ∨ w2.opengl_target = some t) ∧
    ∀ r s0 s2, getRec w r = some s0 → getRec w2 r = some s2 →
      s2.owner = s0.owner ∨ s2.owner = some t ∨ s2.owner = none := by
  obtain ⟨hframe, _, _⟩ := bind_fbo_info_frame w w2 env t info h
  cases info with
  | none =>
    simp only [bind_fbo_info, Option.some.injEq] at h
    subst h
    exact ⟨Or.inl rfl, fun r s0 s2 h0 h2 => by rw [h0] at h2; cases h2; exact Or.inl rfl⟩
  | some r0 =>
    have hkey : ∀ (x : ALLEGRO_FBO_INFO), getRec w2 r0 = some x →
        (x.owner = some t ∨ x.owner = none) →
        ∀ r s0 s2, getRec w r = some s0 → getRec w2 r = some s2 →
          s2.owner = s0.owner ∨ s2.owner = some t ∨ s2.owner = none := by
      intro x hx hxo r s0 s2 h0 h2
      by_cases e : r = r0
      · subst e
        rw [hx] at h2; cases h2
        exact Or.inr hxo
      · rw [hframe r (fun e2 => e (by cases e2; rfl)), h0] at h2
        cases h2; exact Or.inl rfl
    simp only [bind_fbo_info] at h
    split at h
    · cases h
    · rename_i s hs
      split at h
      · simp only [Option.some.injEq] at h
        subst h
        exact ⟨Or.inl rfl, fun r s0 s2 h0 h2 => by rw [h0] at h2; cases h2; exact Or.inl rfl⟩
      · have hv : getRec (set_fbo_info (setRec w r0
            { fbo_state :=
                if s.fbo_state = FBO_INFO_UNUSED then FBO_INFO_TRANSIENT else s.fbo_state,
              fbo := s.fbo, owner := some t, last_use_time := env.now })
            t (some r0)) r0 = some
            { fbo_state :=
                if s.fbo_state = FBO_INFO_UNUSED then FBO_INFO_TRANSIENT else s.fbo_state,
              fbo := s.fbo, owner := some t, last_use_time := env.now } := by
          rw [getRec_set_fbo_info, getRec_setRec_self w r0 s _ hs]
        split at h
        · simp only [Option.some.injEq] at h
          subst h
          refine ⟨Or.inl ?_, hkey _al_ogl_reset_fbo_info ?_ (Or.inr rfl)⟩
          · simp [set_fbo_info, _al_ogl_bind_framebuffer]
          · rw [getRec_set_fbo_info]
            exact getRec_setRec_self _ _ _ _ hv
        · simp only [Option.some.injEq] at h
          subst h
          exact ⟨Or.inr rfl, hkey _ hv (Or.inl rfl)⟩

/-- One call of `_al_ogl_setup_fbo` with target `t` (the bitmap, or its
parent): the display's `opengl_target` is left as it was or becomes `t`, and
the owner of a record is left as it was or becomes `t` or NULL. -/
theorem setup_fbo_writes (w w2 : World) (env : GLEnv) (b : Nat)
    (h : _al_ogl_setup_fbo w env b = some w2) :
    (w2.opengl_target = w.opengl_target ∨ w2.opengl_target = some (resolve w b)) ∧
    ∀ r s0 s2, getRec w r = some s0 → getRec w2 r = some s2 →
      s2.owner = s0.owner ∨ s2.owner = some (resolve w b) ∨ s2.owner = none := by
  unfold _al_ogl_setup_fbo at h
  simp only at h
  split at h
  · split at h
    · cases h
    · rename_i w1 info hsel
      obtain ⟨htgt, hown⟩ := bind_fbo_info_writes w1 w2 env (resolve w b) info h
      unfold select_fbo_info at hsel
      split at hsel
      · split at hsel
        · have hd := take_pool_slot_display w w1 env info hsel
          refine ⟨by rw [← hd.2.1]; exact htgt, ?_⟩
          intro r s0 s2 h0 h2
          obtain ⟨s1, h1, ho1⟩ := take_pool_slot_owner w w1 env info hsel r s0 h0
          rcases hown r s1 s2 h1 h2 with e | e | e
          · rcases ho1 with e1 | e1
            · exact Or.inl (e.trans e1)
            · exact Or.inr (Or.inr (e.trans e1))
          · exact Or.inr (Or.inl e)
          · exact Or.inr (Or.inr e)
        · simp only [Option.some.injEq, Prod.mk.injEq] at hsel
          obtain ⟨hw, hinfo⟩ := hsel
          subst hw; subst hinfo
          exact ⟨htgt, hown⟩
      · simp only [Option.some.injEq, Prod.mk.injEq] at hsel
        obtain ⟨hw, hinfo⟩ := hsel
        subst hw; subst hinfo
        exact ⟨htgt, hown⟩
  · simp only [Option.some.injEq] at h
    subst h
    obtain ⟨_, h2, h3⟩ := setup_backbuffer_frame w env (resolve w b)
    refine ⟨Or.inr ?_, ?_⟩
    · unfold setup_backbuffer _al_ogl_bind_framebuffer
      simp only
      split
      · rfl
      · split <;> rfl
    · intro r s0 s2 h0 hs2
      have : getRec (setup_backbuffer w env (resolve w b)) r = getRec w r := by
        cases r with
        | slot i => simp [getRec, h2]
        | heap k => simp [getRec, h3]
      rw [this, h0] at hs2
      cases hs2; exact Or.inl rfl

/-! ## Sub-bitmaps -/

/-- In `world_nested` bitmap `5` has parent `4`, and `4` has parent `3`: a
parent that is itself a sub-bitmap, which the data model excludes.  The
statement `if (bitmap->parent) bitmap = bitmap->parent;` goes up one level, so
there the call on `5` works on `4` and the call on `4` works on `3`. -/
theorem sub_bitmap_of_sub_bitmap_differs :
    (world_nested.bitmaps 5).parent = some 4 ∧
    (_al_ogl_setup_fbo world_nested (env_ok 11 1) 5).map
        (fun w => (w.opengl_target, (w.bitmaps 4).fbo_info, (w.bitmaps 3).fbo_info)) =
      some (some 4, some (.slot 0), none) ∧
    (_al_ogl_setup_fbo world_nested (env_ok 11 1) 4).map
        (fun w => (w.opengl_target, (w.bitmaps 4).fbo_info, (w.bitmaps 3).fbo_info)) =
      some (some 3, none, some (.slot 0)) ∧
    _al_ogl_setup_fbo world_nested (env_ok 11 1) 5 ≠
      _al_ogl_setup_fbo world_nested (env_ok 11 1) 4 ∧
    (_al_ogl_create_persistent_fbo world_nested (env_ok 11 1) 5).1.heap =
      [{ fbo_state := FBO_INFO_PERSISTENT, fbo := 11, owner := some 4,
         last_use_time := 1 }] ∧
    (_al_ogl_create_persistent_fbo world_nested (env_ok 11 1) 4).1.heap =
      [{ fbo_state := FBO_INFO_PERSISTENT, fbo := 11, owner := some 3,
         last_use_time := 1 }] := by
  have h5 : (_al_ogl_setup_fbo world_nested (env_ok 11 1) 5).map
      (fun w => w.opengl_target) = some (some 4) := by decide
  have h4 : (_al_ogl_setup_fbo world_nested (env_ok 11 1) 4).map
      (fun w => w.opengl_target) = some (some 3) := by decide
  refine ⟨rfl, by decide, by decide, ?_, by decide, by decide⟩
  intro e
  rw [e, h4] at h5
  cases h5

/-! ## Records outside the array have one referrer -/

/-- No elementary update frees a record. -/
theorem absStep_recs_some (lit : Bool) (o o1 : Obs) (hstep : AbsStep lit o o1) (r : Ref)
    (h : o.recs r ≠ none) : o1.recs r ≠ none := by
  cases hstep <;>
    simp only [Obs.setAssoc_recs, Obs.setRec_recs] <;>
    repeat' split <;> simp_all

/-- Every elementary update keeps associations valid and the referrer of a
record outside the array unique. -/
theorem absStep_heapUnique (lit : Bool) (o o1 : Obs) (hstep : AbsStep lit o o1)
    (hv : o.AssocValid) (hu : o.HeapUnique) : o1.AssocValid ∧ o1.HeapUnique := by
  have hgrow := absStep_recs_some lit o o1 hstep
  cases hstep with
  | frame r s s1 hr hst how =>
    exact ⟨fun b r1 hb => hgrow r1 (hv b r1 hb), hu⟩
  | evict i s a hr hst how =>
    constructor
    · intro b r1 hb
      rw [Obs.setRec_assoc, Obs.setAssoc_assoc] at hb
      split at hb
      · cases hb
      · exact hgrow r1 (hv b r1 hb)
    · intro b c k hb hc
      rw [Obs.setRec_assoc, Obs.setAssoc_assoc] at hb hc
      split at hb
      · cases hb
      · split at hc
        · cases hc
        · exact hu b c k hb hc
  | attach_new i s s1 t hr hst has how hs1 =>
    constructor
    · intro b r1 hb
      rw [Obs.setAssoc_assoc] at hb
      split at hb
      · cases hb; simp
      · exact hgrow r1 (hv b r1 hb)
    · intro b c k hb hc
      rw [Obs.setAssoc_assoc] at hb hc
      split at hb
      · cases hb
      · split at hc
        · cases hc
        · exact hu b c k hb hc
  | attach_old r s s1 t hr has how hs1 =>
    have hsame : ∀ b, ((o.setRec r s1).setAssoc t (some r)).assoc b = o.assoc b := by
      intro b
      rw [Obs.setAssoc_assoc]
      split
      · rename_i e; subst e; exact has.symm
      · rfl
    constructor
    · intro b r1 hb
      rw [hsame] at hb
      exact hgrow r1 (hv b r1 hb)
    · intro b c k hb hc
      rw [hsame] at hb hc
      exact hu b c k hb hc
  | fail r t has =>
    constructor
    · intro b r1 hb
      rw [Obs.setAssoc_assoc] at hb
      split at hb
      · cases hb
      · exact hgrow r1 (hv b r1 hb)
    · intro b c k hb hc
      rw [Obs.setAssoc_assoc] at hb hc
      split at hb
      · cases hb
      · split at hc
        · cases hc
        · exact hu b c k hb hc
  | create k x t hr has how hst =>
    have hfresh : ∀ b, o.assoc b ≠ some (.heap k) := fun b hb => hv b _ hb hr
    constructor
    · intro b r1 hb
      rw [Obs.setAssoc_assoc] at hb
      split at hb
      · cases hb; simp
      · exact hgrow r1 (hv b r1 hb)
    · intro b c k1 hb hc
      rw [Obs.setAssoc_assoc] at hb hc
      split at hb
      · rename_i eb
        cases hb
        split at hc
        · rename_i ec; rw [eb, ec]
        · exact absurd hc (hfresh c)
      · split at hc
        · cases hc
          exact absurd hb (hfresh b)
        · exact hu b c k1 hb hc
  | persist i k s hlit hr hst hk =>
    exact ⟨fun b r1 hb => hgrow r1 (hv b r1 hb), hu⟩
  | promote i k s t hr hst hk has =>
    have hfresh : ∀ b, o.assoc b ≠ some (.heap k) := fun b hb => hv b _ hb hk
    constructor
    · intro b r1 hb
      rw [Obs.setAssoc_assoc] at hb
      split at hb
      · cases hb; simp
      · exact hgrow r1 (hv b r1 hb)
    · intro b c k1 hb hc
      rw [Obs.setAssoc_assoc] at hb hc
      split at hb
      · rename_i eb
        cases hb
        split at hc
        · rename_i ec; rw [eb, ec]
        · exact absurd hc (hfresh c)
      · split at hc
        · cases hc
          exact absurd hb (hfresh b)
        · exact hu b c k1 hb hc

theorem absSteps_heapUnique (lit : Bool) (o o1 : Obs) (h : AbsSteps lit o o1)
    (hinv : o.AssocValid ∧ o.HeapUnique) : o1.AssocValid ∧ o1.HeapUnique := by
  induction h with
  | refl => exact hinv
  | tail o2 o3 _ hstep ih => exact absStep_heapUnique lit o2 o3 hstep ih.1 ih.2

/-- In every reachable state the associations are valid and a record outside
the array has one referrer at most. -/
theorem reachable_heapUnique (w : World) (h : Reachable w) :
    (obs w).AssocValid ∧ (obs w).HeapUnique := by
  obtain ⟨w0, cs, hinit, hrun⟩ := h
  have hsteps := runCalls_steps true cs w0 w (fun _ _ _ => rfl) hrun
  apply absSteps_heapUnique _ _ _ hsteps
  constructor
  · intro b r hb
    have : (w0.bitmaps b).fbo_info = some r := hb
    rw [hinit.2.2 b] at this; cases this
  · intro b c k hb _
    have : (w0.bitmaps b).fbo_info = some (.heap k) := hb
    rw [hinit.2.2 b] at this; cases this

theorem runCalls_append (cs cs1 : List Call) :
    ∀ w, runCalls w (cs ++ cs1) = (runCalls w cs).bind (fun w1 => runCalls w1 cs1) := by
  induction cs with
  | nil => intro w; simp [runCalls]
  | cons c cs ih =>
    intro w
    simp only [List.cons_append, runCalls]
    cases c.run w with
    | none => rfl
    | some w2 => simp only [Option.some_bind]; exact ih w2

/-- A call made in a reachable state leads to a reachable state. -/
theorem reachable_run (w w1 : World) (c : Call) (h : Reachable w)
    (hc : c.run w = some w1) : Reachable w1 := by
  obtain ⟨w0, cs, hinit, hrun⟩ := h
  refine ⟨w0, cs ++ [c], hinit, ?_⟩
  rw [runCalls_append, hrun]
  simp [runCalls, hc]

/-! ## Persistent targets are not evicted -/

/-- One activation of another target in a reachable state leaves a bitmap with
a PERSISTENT record, and that record, as they were. -/
theorem setup_fbo_keeps_persistent_step (w w1 : World) (env : GLEnv) (b P : Nat) (h : Ref)
    (s : ALLEGRO_FBO_INFO) (hreach : Reachable w)
    (hassoc : (w.bitmaps P).fbo_info = some h) (hrec : getRec w h = some s)
    (hpers : s.fbo_state = FBO_INFO_PERSISTENT) (hother : resolve w b ≠ P)
    (hrun : _al_ogl_setup_fbo w env b = some w1) :
    w1.bitmaps P = w.bitmaps P ∧ getRec w1 h = some s := by
  obtain ⟨_, hpool, hback⟩ := reachable_invariants w hreach
  obtain ⟨_, huniq⟩ := reachable_heapUnique w hreach
  obtain ⟨hbm, hrecs, _⟩ := setup_fbo_frame w w1 env b hrun
  cases h with
  | slot i => exact absurd hpers (hpool i s hrec)
  | heap k =>
    constructor
    · rcases hbm P (Ne.symm hother) with e | ⟨_, i, x, hx, hxt, hxo⟩
      · exact e
      · obtain ⟨b1, hb1, hab⟩ := hback i x hx (by rw [hxt]; simp)
        rw [hxo] at hb1; cases hb1
        have : (w.bitmaps P).fbo_info = some (.slot i) := hab
        rw [hassoc] at this; cases this
    · rw [hrecs (.heap k) (fun i e => by cases e) ?_]
      · exact hrec
      · intro e
        exact hother (huniq (resolve w b) P k e hassoc)

/-- Activations of other targets, in a row, leave a bitmap with a PERSISTENT
record, and that record, as they were. -/
theorem setup_fbo_keeps_persistent (calls : List (GLEnv × Nat)) (P : Nat) (h : Ref)
    (s : ALLEGRO_FBO_INFO) :
    ∀ (w w1 : World), Reachable w →
    (w.bitmaps P).fbo_info = some h → getRec w h = some s →
    s.fbo_state = FBO_INFO_PERSISTENT →
    (∀ a ∈ calls, resolve w a.2 ≠ P) →
    runCalls w (calls.map (fun a => Call.setup a.1 a.2)) = some w1 →
    w1.bitmaps P = w.bitmaps P ∧ (w1.bitmaps P).fbo_info = some h ∧
      getRec w1 h = some s := by
  induction calls with
  | nil =>
    intro w w1 _ hassoc hrec _ _ hrun
    simp only [List.map_nil, runCalls, Option.some.injEq] at hrun
    subst hrun
    exact ⟨rfl, hassoc, hrec⟩
  | cons a calls ih =>
    intro w w1 hreach hassoc hrec hpers hother hrun
    simp only [List.map_cons, runCalls, Call.run] at hrun
    cases hc : _al_ogl_setup_fbo w a.1 a.2 with
    | none => rw [hc] at hrun; cases hrun
    | some w2 =>
      rw [hc] at hrun
      simp only [Option.some_bind] at hrun
      obtain ⟨hbm, hrec2⟩ := setup_fbo_keeps_persistent_step w w2 a.1 a.2 P h s hreach
        hassoc hrec hpers (hother a (List.mem_cons_self _ _)) hc
      have hreach2 : Reachable w2 := reachable_run w w2 (.setup a.1 a.2) hreach hc
      obtain ⟨h1, h2, h3⟩ := ih w2 w1 hreach2 (by rw [hbm]; exact hassoc) hrec2 hpers
        (fun c hcm => by
          rw [setup_fbo_resolve w w2 a.1 a.2 hc]
          exact hother c (List.mem_cons_of_mem _ hcm))
        hrun
      exact ⟨h1.trans hbm, h2, h3⟩

/-! ## `_al_ogl_setup_fbo` returns -/

theorem poolTimesFinite_setRec (w : World) (r : Ref) (s1 : ALLEGRO_FBO_INFO)
    (h : PoolTimesFinite w) (h1 : s1.last_use_time < DBL_MAX) :
    PoolTimesFinite (setRec w r s1) := by
  cases r with
  | slot i =>
    intro x hx
    rcases List.mem_or_eq_of_mem_set hx with hx | hx
    · exact h x hx
    · rw [hx]; exact h1
  | heap k => exact h

theorem poolTimesFinite_of_fbos (w w2 : World) (h : w2.fbos = w.fbos)
    (ht : PoolTimesFinite w) : PoolTimesFinite w2 := by
  unfold PoolTimesFinite
  rw [h]
  exact ht

theorem setRec_fbos_length (w : World) (r : Ref) (s1 : ALLEGRO_FBO_INFO) :
    (setRec w r s1).fbos.length = w.fbos.length := by
  cases r <;> simp [setRec]

theorem reset_time_finite : _al_ogl_reset_fbo_info.last_use_time < DBL_MAX := by
  decide

/-- Lines 267-299 keep the timestamps of the pool finite. -/
theorem take_pool_slot_times (w w1 : World) (env : GLEnv) (info : Option Ref)
    (h : take_pool_slot w env = some (w1, info)) (ht : PoolTimesFinite w) :
    PoolTimesFinite w1 := by
  unfold take_pool_slot at h
  simp only at h
  split at h
  · cases h
  · rename_i s hs
    obtain ⟨_, hget⟩ := slotAt_some _ _ _ hs
    split at h
    · split at h
      · cases h
      · simp only [Option.some.injEq, Prod.mk.injEq] at h
        obtain ⟨hw1, _⟩ := h
        subst hw1
        refine poolTimesFinite_setRec _ _ _ ?_ (by exact reset_time_finite)
        exact poolTimesFinite_setRec (set_fbo_info w _ none) _ _
          (poolTimesFinite_of_fbos w _ rfl ht) reset_time_finite
    · simp only [Option.some.injEq, Prod.mk.injEq] at h
      obtain ⟨hw1, _⟩ := h
      subst hw1
      exact poolTimesFinite_setRec _ _ _ ht (ht s (List.getElem?_mem hget))

/-- Lines 306-381 keep the timestamps of the pool finite when the clock reads
a finite value, and keep the length of the pool. -/
theorem bind_fbo_info_times (w w2 : World) (env : GLEnv) (t : Nat) (info : Option Ref)
    (h : bind_fbo_info w env t info = some w2) (hnow : env.now < DBL_MAX)
    (ht : PoolTimesFinite w) :
    PoolTimesFinite w2 ∧ w2.fbos.length = w.fbos.length := by
  cases info with
  | none =>
    simp only [bind_fbo_info, Option.some.injEq] at h
    subst h; exact ⟨ht, rfl⟩
  | some r0 =>
    simp only [bind_fbo_info] at h
    split at h
    · cases h
    · rename_i s hs
      split at h
      · simp only [Option.some.injEq] at h
        subst h; exact ⟨ht, rfl⟩
      · have h1 : PoolTimesFinite (setRec w r0
            { fbo_state :=
                if s.fbo_state = FBO_INFO_UNUSED then FBO_INFO_TRANSIENT else s.fbo_state,
              fbo := s.fbo, owner := some t, last_use_time := env.now }) :=
          poolTimesFinite_setRec _ _ _ ht hnow
        split at h
        · simp only [Option.some.injEq] at h
          subst h
          constructor
          · refine poolTimesFinite_of_fbos _ _ rfl
              (poolTimesFinite_setRec _ r0 _al_ogl_reset_fbo_info ?_ reset_time_finite)
            exact poolTimesFinite_of_fbos _ _ rfl h1
          · exact (setRec_fbos_length _ r0 _al_ogl_reset_fbo_info).trans
              (setRec_fbos_length w r0 _)
        · simp only [Option.some.injEq] at h
          subst h
          exact ⟨h1, setRec_fbos_length _ _ _⟩

/-- `_al_ogl_setup_fbo` keeps the timestamps of the pool finite when the clock
reads a finite value, and keeps the length of the pool. -/
theorem setup_fbo_times (w w2 : World) (env : GLEnv) (b : Nat)
    (h : _al_ogl_setup_fbo w env b = some w2) (hnow : env.now < DBL_MAX)
    (ht : PoolTimesFinite w) :
    PoolTimesFinite w2 ∧ w2.fbos.length = w.fbos.length := by
  unfold _al_ogl_setup_fbo at h
  simp only at h
  split at h
  · split at h
    · cases h
    · rename_i w1 info hsel
      unfold select_fbo_info at hsel
      split at hsel
      · split at hsel
        · obtain ⟨h1, h2⟩ := bind_fbo_info_times w1 w2 env (resolve w b) info h hnow
            (take_pool_slot_times w w1 env info hsel ht)
          exact ⟨h1, h2.trans (take_pool_slot_display w w1 env info hsel).2.2.2⟩
        · simp only [Option.some.injEq, Prod.mk.injEq] at hsel
          obtain ⟨hw, hinfo⟩ := hsel
          subst hw; subst hinfo
          exact bind_fbo_info_times w w2 env (resolve w b) none h hnow ht
      · simp only [Option.some.injEq, Prod.mk.injEq] at hsel
        obtain ⟨hw, hinfo⟩ := hsel
        subst hw; subst hinfo
        exact bind_fbo_info_times w w2 env (resolve w b) _ h hnow ht
  · simp only [Option.some.injEq] at h
    subst h
    obtain ⟨_, h2, _⟩ := setup_backbuffer_frame w env (resolve w b)
    unfold PoolTimesFinite
    rw [h2]
    exact ⟨ht, rfl⟩

/-- Lines 306-381 return when `info` is NULL or refers to a record. -/
theorem bind_fbo_info_returns (w : World) (env : GLEnv) (t : Nat) (info : Option Ref)
    (hv : ∀ r, info = some r → getRec w r ≠ none) :
    ∃ w2, bind_fbo_info w env t info = some w2 := by
  cases info with
  | none => exact ⟨w, rfl⟩
  | some r =>
    cases hr : getRec w r with
    | none => exact absurd hr (hv r rfl)
    | some s =>
      simp only [bind_fbo_info, hr]
      split
      · exact ⟨_, rfl⟩
      · split
        · exact ⟨_, rfl⟩
        · exact ⟨_, rfl⟩

/-- On a non-empty pool with finite timestamps the finder returns a slot of
the array. -/
theorem find_unused_in_pool (fbos : List ALLEGRO_FBO_INFO) (hne : fbos ≠ [])
    (ht : ∀ x ∈ fbos, x.last_use_time < DBL_MAX) :
    ∃ (i : Nat) (s : ALLEGRO_FBO_INFO),
      ogl_find_unused_fbo fbos = (i : Int) ∧ fbos[i]? = some s := by
  by_cases hu : ∃ x ∈ fbos, x.fbo_state = FBO_INFO_UNUSED
  · obtain ⟨i, s, hi, hs, _⟩ := find_unused_of_exists fbos hu
    exact ⟨i, s, hi, hs⟩
  · obtain ⟨a, ha⟩ := List.exists_mem_of_ne_nil fbos hne
    obtain ⟨i, s, hi, hs, _⟩ := find_oldest_of_full fbos
      (fun x hx hxs => hu ⟨x, hx, hxs⟩) ⟨a, ha, ht a ha⟩
    exact ⟨i, s, hi, hs⟩

/-- Lines 267-299 return, with a slot of the array, on a non-empty pool with
finite timestamps whose TRANSIENT slots have an owner. -/
theorem take_pool_slot_returns (w : World) (env : GLEnv) (hown : (obs w).OwnerStateAll)
    (hne : w.fbos ≠ []) (ht : PoolTimesFinite w) :
    ∃ w1 i, take_pool_slot w env = some (w1, some (.slot i)) ∧
      getRec w1 (.slot i) ≠ none := by
  obtain ⟨i, s, hfind, hs⟩ := find_unused_in_pool w.fbos hne ht
  have hrec : getRec w (.slot i) = some s := hs
  by_cases htr : s.fbo_state = FBO_INFO_TRANSIENT
  · cases ho : s.owner with
    | none =>
      have := (hown (.slot i) s hrec).2 (by rw [htr]; simp)
      exact absurd ho this
    | some o =>
      simp only [take_pool_slot, hfind, slotAt_natCast, hs, htr, ho, if_true,
        Int.toNat_ofNat]
      refine ⟨_, i, rfl, ?_⟩
      · have hrec1 : getRec (set_fbo_info w o none) (.slot i) = some s := by
          rw [getRec_set_fbo_info]; exact hrec
        rw [getRec_setRec_self _ _ _ _ (getRec_setRec_self _ _ _ _ hrec1)]
        simp
  · simp only [take_pool_slot, hfind, slotAt_natCast, hs, htr, if_false, Int.toNat_ofNat]
    refine ⟨_, i, rfl, ?_⟩
    rw [getRec_setRec_self _ _ _ _ hrec]
    simp

/-- `_al_ogl_setup_fbo` returns in a state whose associations are valid and
whose TRANSIENT slots have an owner, on a non-empty pool with finite
timestamps. -/
theorem setup_fbo_returns (w : World) (env : GLEnv) (b : Nat)
    (hown : (obs w).OwnerStateAll) (hvalid : (obs w).AssocValid)
    (hne : w.fbos ≠ []) (ht : PoolTimesFinite w) :
    ∃ w1, _al_ogl_setup_fbo w env b = some w1 := by
  by_cases hbb : (w.bitmaps (resolve w b)).is_backbuffer = false
  · by_cases hsel : (w.bitmaps (resolve w b)).fbo_info = none ∧
        (w.bitmaps (resolve w b)).force_locking = false
    · by_cases hext : env.is_opengles = true ∨ env.cur_fbo_ext = true
      · obtain ⟨w1, i, htake, hrec⟩ := take_pool_slot_returns w env hown hne ht
        simp only [_al_ogl_setup_fbo, hbb, select_fbo_info, hsel, hext, htake, if_true,
          and_self]
        exact bind_fbo_info_returns w1 env (resolve w b) _
          (fun r hr => by cases hr; exact hrec)
      · simp only [_al_ogl_setup_fbo, hbb, select_fbo_info, hsel, hext, if_true, if_false,
          and_self]
        exact bind_fbo_info_returns w env (resolve w b) none (fun r hr => by cases hr)
    · simp only [_al_ogl_setup_fbo, hbb, select_fbo_info, hsel, if_true, if_false]
      exact bind_fbo_info_returns w env (resolve w b) _
        (fun r hr => hvalid (resolve w b) r hr)
  · simp only [_al_ogl_setup_fbo, hbb, if_false]
    exact ⟨_, rfl⟩

/-- Activations in a row all return when the pool is not empty and the clock
readings, those stored in the pool and those of the calls, are finite. -/
theorem setup_fbo_calls_return (calls : List (GLEnv × Nat)) :
    ∀ (w : World), Reachable w → w.fbos ≠ [] → PoolTimesFinite w →
    (∀ a ∈ calls, a.1.now < DBL_MAX) →
    ∃ w1, runCalls w (calls.map (fun a => Call.setup a.1 a.2)) = some w1 := by
  induction calls with
  | nil => intro w _ _ _ _; exact ⟨w, rfl⟩
  | cons a calls ih =>
    intro w hreach hne ht hnow
    obtain ⟨w2, hc⟩ := setup_fbo_returns w a.1 a.2 (reachable_invariants w hreach).1
      (reachable_heapUnique w hreach).1 hne ht
    obtain ⟨ht2, hlen⟩ := setup_fbo_times w w2 a.1 a.2 hc
      (hnow a (List.mem_cons_self _ _)) ht
    have hne2 : w2.fbos ≠ [] := by
      intro e
      rw [e] at hlen
      exact hne (List.length_eq_zero.mp hlen.symm)
    obtain ⟨w1, h1⟩ := ih w2 (reachable_run w w2 (.setup a.1 a.2) hreach hc) hne2 ht2
      (fun c hcm => hnow c (List.mem_cons_of_mem _ hcm))
    refine ⟨w1, ?_⟩
    simp only [List.map_cons, runCalls, Call.run, hc, Option.some_bind]
    exact h1

/-- C11: in a reachable state the bitmap `P` refers to a PERSISTENT record.
`_al_ogl_setup_fbo` is called any number of times, each time on a bitmap that
is not `P` and not a sub-bitmap of `P`.  Whatever the pool holds, in the state
the calls leave the bitmap `P`, its association included, and its record
(handle, owner, state and `last_use_time`) are what they were.  The calls do
return when the pool is not empty and the clock readings are finite. -/
theorem persistent_not_evicted (w : World) (hreach : Reachable w) (P : Nat) (h : Ref)
    (s : ALLEGRO_FBO_INFO) (hassoc : (w.bitmaps P).fbo_info = some h)
    (hrec : getRec w h = some s) (hpers : s.fbo_state = FBO_INFO_PERSISTENT)
    (calls : List (GLEnv × Nat))
    (hother : ∀ a ∈ calls, a.2 ≠ P ∧ (w.bitmaps a.2).parent ≠ some P) :
    (∀ w1, runCalls w (calls.map (fun a => Call.setup a.1 a.2)) = some w1 →
      w1.bitmaps P = w.bitmaps P ∧ (w1.bitmaps P).fbo_info = some h ∧
      getRec w1 h = some s) ∧
    (w.fbos ≠ [] → (∀ x ∈ w.fbos, x.last_use_time < DBL_MAX) →
      (∀ a ∈ calls, a.1.now < DBL_MAX) →
      ∃ w1, runCalls w (calls.map (fun a => Call.setup a.1 a.2)) = some w1) := by
  constructor
  · intro w1 hrun
    refine setup_fbo_keeps_persistent calls P h s w w1 hreach hassoc hrec hpers ?_ hrun
    intro a ha
    obtain ⟨h1, h2⟩ := hother a ha
    unfold resolve
    cases hp : (w.bitmaps a.2).parent with
    | none => exact h1
    | some p =>
      intro e
      apply h2
      exact hp.trans (congrArg some e)
  · intro hne ht hnow
    exact setup_fbo_calls_return calls w hreach hne ht hnow

/-- C11, at capacity 2: bitmap `1` refers to the PERSISTENT record `heap 0`;
bitmaps `2`, `4`, `5` and `6` are activated, which fills the pool and evicts
twice. -/
theorem persistent_not_evicted_witness :
    (∀ w1, runCalls world_promote_stored
        (acts_pressure.map (fun a => Call.setup a.1 a.2)) = some w1 →
      w1.bitmaps 1 = world_promote_stored.bitmaps 1 ∧
      (w1.bitmaps 1).fbo_info = some (.heap 0) ∧
      getRec w1 (.heap 0) = some { fbo_state := FBO_INFO_PERSISTENT, fbo := 11,
                                   owner := some 1, last_use_time := 1 }) ∧
    (world_promote_stored.fbos ≠ [] →
      (∀ x ∈ world_promote_stored.fbos, x.last_use_time < DBL_MAX) →
      (∀ a ∈ acts_pressure, a.1.now < DBL_MAX) →
      ∃ w1, runCalls world_promote_stored
        (acts_pressure.map (fun a => Call.setup a.1 a.2)) = some w1) :=
  persistent_not_evicted world_promote_stored
    ⟨world_reset2, calls_promote_stored, world_reset2_initial, rfl⟩ 1 (.heap 0)
    { fbo_state := FBO_INFO_PERSISTENT, fbo := 11, owner := some 1, last_use_time := 1 }
    rfl rfl rfl acts_pressure (by decide)

/-- The activations of `persistent_not_evicted_witness` evaluated: they
return; the pool ends with bitmaps `5` and `6` in its two slots, bitmaps `2`
and `4` evicted, and the record `heap 0` of bitmap `1` as it was. -/
theorem persistent_under_pressure :
    ∃ w1, runCalls world_promote_stored
        (acts_pressure.map (fun a => Call.setup a.1 a.2)) = some w1 ∧
      w1.fbos = [ { fbo_state := FBO_INFO_TRANSIENT, fbo := 16, owner := some 5,
                    last_use_time := 6 },
                  { fbo_state := FBO_INFO_TRANSIENT, fbo := 17, owner := some 6,
                    last_use_time := 7 } ] ∧
      (w1.bitmaps 2).fbo_info = none ∧ (w1.bitmaps 4).fbo_info = none ∧
      (w1.bitmaps 1).fbo_info = some (.heap 0) ∧
      w1.heap[0]? = some { fbo_state := FBO_INFO_PERSISTENT, fbo := 11,
                           owner := some 1, last_use_time := 1 } :=
  ⟨_, rfl, by decide, by decide, by decide, by decide, by decide⟩

/-! ## The binding when the backbuffer is activated -/

/-- The calls of `runAsserted` are calls of `runCalls`. -/
theorem runAsserted_runCalls (cfg : Bool) (cs : List Call) :
    ∀ (w w2 : World), runAsserted cfg w cs = some w2 → runCalls w cs = some w2 := by
  induction cs with
  | nil => intro w w2 h; exact h
  | cons c cs ih =>
    intro w w2 h
    simp only [runAsserted] at h
    split at h
    · cases hc : c.run w with
      | none => rw [hc] at h; cases h
      | some w1 =>
        rw [hc] at h
        simp only [Option.some_bind] at h
        simp only [runCalls, hc, Option.some_bind]
        exact ih w1 w2 h
    · cases h

/-- C2: the pool holds an UNUSED slot, or it is the pool of a state reachable
from an initialised pool by calls of the three entry points, holds an UNUSED or
TRANSIENT slot and only timestamps below `DBL_MAX`.  Then
`ogl_find_unused_fbo` returns a slot of the pool, and that slot is not
PERSISTENT. -/
theorem find_unused_not_persistent (fbos : List ALLEGRO_FBO_INFO)
    (h : (∃ x ∈ fbos, x.fbo_state = FBO_INFO_UNUSED) ∨
      ∃ w, Reachable w ∧ w.fbos = fbos ∧
        (∃ x ∈ fbos, x.fbo_state = FBO_INFO_UNUSED ∨ x.fbo_state = FBO_INFO_TRANSIENT) ∧
        ∀ x ∈ fbos, x.last_use_time < DBL_MAX) :
    ∃ (i : Nat) (s : ALLEGRO_FBO_INFO),
      ogl_find_unused_fbo fbos = (i : Int) ∧ fbos[i]? = some s ∧
      slotAt fbos (ogl_find_unused_fbo fbos) = some s ∧
      s.fbo_state ≠ FBO_INFO_PERSISTENT := by
  by_cases hu : ∃ x ∈ fbos, x.fbo_state = FBO_INFO_UNUSED
  · obtain ⟨i, s, hi, hs, hst, _⟩ := find_unused_of_exists fbos hu
    exact ⟨i, s, hi, hs, by rw [hi, slotAt_natCast, hs], by simp [hst]⟩
  · rcases h with h | ⟨w, hreach, hw, ⟨a, ha, _⟩, ht⟩
    · exact absurd h hu
    · have hfull : ∀ x ∈ fbos, x.fbo_state ≠ FBO_INFO_UNUSED :=
        fun x hx hxs => hu ⟨x, hx, hxs⟩
      obtain ⟨i, s, hi, hs, _, _⟩ := find_oldest_of_full fbos hfull ⟨a, ha, ht a ha⟩
      refine ⟨i, s, hi, hs, by rw [hi, slotAt_natCast, hs], ?_⟩
      have hpool := (reachable_invariants w hreach).2.1
      exact hpool i s (by rw [← hw] at hs; exact hs)

/-- C2, at the full pool of TRANSIENT slots after bitmaps `1`, `2`, `1` were
activated. -/
theorem find_unused_not_persistent_witness :
    ∃ (i : Nat) (s : ALLEGRO_FBO_INFO),
      ogl_find_unused_fbo world_after_ABA.fbos = (i : Int) ∧
      world_after_ABA.fbos[i]? = some s ∧
      slotAt world_after_ABA.fbos (ogl_find_unused_fbo world_after_ABA.fbos) = some s ∧
      s.fbo_state ≠ FBO_INFO_PERSISTENT :=
  find_unused_not_persistent world_after_ABA.fbos
    (Or.inr ⟨world_after_ABA, ⟨world_reset2, calls_ABA, world_reset2_initial, rfl⟩, rfl,
      by decide, by decide⟩)

/-! ## Sub-bitmaps have no association of their own -/

/-- No call writes the `parent` field of a bitmap. -/
theorem call_run_parent (w w2 : World) (c : Call) (hrun : c.run w = some w2) (x : Nat) :
    (w2.bitmaps x).parent = (w.bitmaps x).parent := by
  cases c with
  | setup env b => exact ((setup_fbo_frame w w2 env b hrun).2.2 x).1
  | persist r =>
    simp only [Call.run] at hrun
    split at hrun
    · cases hrun
    · split at hrun
      · simp only [Option.some.injEq] at hrun
        subst hrun
        unfold _al_ogl_persist_fbo
        split
        · split <;> rfl
        · rfl
      · cases hrun
  | promote b =>
    simp only [Call.run, persist_and_store] at hrun
    split at hrun
    · cases hrun
    · rename_i r _
      split at hrun
      · cases hrun
      · split at hrun
        · simp only [Option.some.injEq] at hrun
          subst hrun
          rw [set_fbo_info_parent]
          unfold _al_ogl_persist_fbo
          split
          · split <;> rfl
          · rfl
        · cases hrun
  | create env b =>
    simp only [Call.run] at hrun
    split at hrun
    · simp only [Option.some.injEq] at hrun
      subst hrun
      rcases create_persistent_fbo_cases w env b with ⟨_, he⟩ | ⟨_, he⟩
      · rw [he]
      · rw [he, set_fbo_info_parent]
    · cases hrun

/-- `_al_ogl_persist_fbo` writes no bitmap. -/
theorem persist_fbo_bitmaps (w : World) (r : Ref) :
    (_al_ogl_persist_fbo w r).1.bitmaps = w.bitmaps := by
  unfold _al_ogl_persist_fbo
  split
  · split <;> rfl
  · rfl

/-- With parents that are not sub-bitmaps, `resolve` yields a bitmap that is
not a sub-bitmap. -/
theorem resolve_parent_none (w : World) (hflat : FlatParents w) (b : Nat) :
    (w.bitmaps (resolve w b)).parent = none := by
  unfold resolve
  cases hp : (w.bitmaps b).parent with
  | none => exact hp
  | some p => exact hflat b p hp

/-- With parents that are not sub-bitmaps, a call gives no sub-bitmap an
association. -/
theorem call_run_subBitmaps (w w2 : World) (c : Call) (hrun : c.run w = some w2)
    (hflat : FlatParents w) (hinv : SubBitmapsUnassociated w) :
    SubBitmapsUnassociated w2 := by
  intro x hx
  have hpx : (w.bitmaps x).parent ≠ none := by
    rw [← call_run_parent w w2 c hrun x]; exact hx
  cases c with
  | setup env b =>
    have hne : x ≠ resolve w b := by
      intro e; rw [e] at hpx; exact hpx (resolve_parent_none w hflat b)
    rcases (setup_fbo_frame w w2 env b hrun).1 x hne with e | ⟨e, _⟩
    · rw [e]; exact hinv x hpx
    · rw [e]
  | persist r =>
    simp only [Call.run] at hrun
    split at hrun
    · cases hrun
    · split at hrun
      · simp only [Option.some.injEq] at hrun
        subst hrun
        rw [persist_fbo_bitmaps]; exact hinv x hpx
      · cases hrun
  | promote b =>
    simp only [Call.run, persist_and_store] at hrun
    split at hrun
    · cases hrun
    · rename_i r hb
      split at hrun
      · cases hrun
      · split at hrun
        · simp only [Option.some.injEq] at hrun
          subst hrun
          have hne : x ≠ b := by
            intro e; rw [e] at hpx
            have := hinv b hpx
            rw [hb] at this; cases this
          rw [set_fbo_info_ne _ _ _ _ hne, persist_fbo_bitmaps]
          exact hinv x hpx
        · cases hrun
  | create env b =>
    simp only [Call.run] at hrun
    split at hrun
    · simp only [Option.some.injEq] at hrun
      subst hrun
      have hne : x ≠ resolve w b := by
        intro e; rw [e] at hpx; exact hpx (resolve_parent_none w hflat b)
      rcases create_persistent_fbo_cases w env b with ⟨_, he⟩ | ⟨_, he⟩
      · rw [he]; exact hinv x hpx
      · rw [he, set_fbo_info_ne _ _ _ _ hne]
        exact hinv x hpx
    · cases hrun

theorem runCalls_subBitmaps (cs : List Call) :
    ∀ (w w2 : World), runCalls w cs = some w2 →
    ((∀ x, (w2.bitmaps x).parent = (w.bitmaps x).parent) ∧
      (FlatParents w → SubBitmapsUnassociated w → SubBitmapsUnassociated w2)) := by
  induction cs with
  | nil =>
    intro w w2 h
    simp only [runCalls, Option.some.injEq] at h
    subst h
    exact ⟨fun _ => rfl, fun _ hinv => hinv⟩
  | cons c cs ih =>
    intro w w2 h
    simp only [runCalls] at h
    cases hc : c.run w with
    | none => rw [hc] at h; cases h
    | some w1 =>
      rw [hc] at h
      simp only [Option.some_bind] at h
      obtain ⟨hp, hs⟩ := ih w1 w2 h
      have hp1 := call_run_parent w w1 c hc
      refine ⟨fun x => (hp x).trans (hp1 x), fun hflat hinv => ?_⟩
      apply hs
      · intro b p hb
        rw [hp1] at hb ⊢
        exact hflat b p hb
      · exact call_run_subBitmaps w w1 c hc hflat hinv

/-- In a reachable state whose parents are not sub-bitmaps, no sub-bitmap has
an association of its own. -/
theorem reachable_subBitmaps (w : World) (hreach : Reachable w) (hflat : FlatParents w) :
    SubBitmapsUnassociated w := by
  obtain ⟨w0, cs, hinit, hrun⟩ := hreach
  obtain ⟨hp, hs⟩ := runCalls_subBitmaps cs w0 w hrun
  apply hs
  · intro b p hb
    rw [← hp] at hb ⊢
    exact hflat b p hb
  · intro x _
    exact hinit.2.2 x

/-- C12: in the data model a parent is not itself a sub-bitmap.  For every
such state and every sub-bitmap `S` with parent `P`,
`_al_ogl_setup_fbo(display, S)` gives the state that
`_al_ogl_setup_fbo(display, P)` gives, and `_al_ogl_create_persistent_fbo(S)` the
state and result of `_al_ogl_create_persistent_fbo(P)`.  The calls write no
`opengl_target` and no owner but `P` (or a NULL owner), a record that
`_al_ogl_create_persistent_fbo` adds is owned by `P`, and
`_al_ogl_create_persistent_fbo` leaves the bitmap `S` as it was.  In every state
reachable from an initialised pool `S` has no association, and
`_al_ogl_setup_fbo` leaves the bitmap `S` as it was. -/
theorem sub_bitmap_resolves_to_parent (w : World) (env : GLEnv) (S P : Nat)
    (hflat : FlatParents w) (hS : (w.bitmaps S).parent = some P) :
    _al_ogl_setup_fbo w env S = _al_ogl_setup_fbo w env P ∧
    _al_ogl_create_persistent_fbo w env S = _al_ogl_create_persistent_fbo w env P ∧
    (∀ w1, _al_ogl_setup_fbo w env S = some w1 →
      (w1.opengl_target = w.opengl_target ∨ w1.opengl_target = some P) ∧
      (∀ r s0 s2, getRec w r = some s0 → getRec w1 r = some s2 →
        s2.owner = s0.owner ∨ s2.owner = some P ∨ s2.owner = none)) ∧
    (_al_ogl_create_persistent_fbo w env S).1.bitmaps S = w.bitmaps S ∧
    (∀ x ∈ (_al_ogl_create_persistent_fbo w env S).1.heap,
      x ∈ w.heap ∨ x.owner = some P) ∧
    (Reachable w →
      (w.bitmaps S).fbo_info = none ∧
      ∀ w1, _al_ogl_setup_fbo w env S = some w1 → w1.bitmaps S = w.bitmaps S) := by
  have hP : (w.bitmaps P).parent = none := hflat S P hS
  have hrS : resolve w S = P := by simp [resolve, hS]
  have hrP : resolve w P = P := by simp [resolve, hP]
  have hne : S ≠ P := by
    intro e; rw [e, hP] at hS; cases hS
  refine ⟨?_, ?_, ?_, ?_, ?_, ?_⟩
  · simp only [_al_ogl_setup_fbo, hrS, hrP]
  · simp only [_al_ogl_create_persistent_fbo, hrS, hrP]
  · intro w1 h1
    have hw := setup_fbo_writes w w1 env S h1
    rw [hrS] at hw
    exact hw
  · rcases create_persistent_fbo_cases w env S with ⟨_, he⟩ | ⟨_, he⟩
    · rw [he]
    · rw [he, hrS]
      exact set_fbo_info_ne _ _ _ _ hne
  · intro x hx
    rcases create_persistent_fbo_cases w env S with ⟨_, he⟩ | ⟨_, he⟩
    · rw [he] at hx; exact Or.inl hx
    · rw [he, hrS] at hx
      have hx1 : x ∈ w.heap ++ [⟨FBO_INFO_PERSISTENT, env.gen, some P, env.now⟩] := hx
      rcases List.mem_append.1 hx1 with h | h
      · exact Or.inl h
      · right
        simp at h
        rw [h]
  · intro hreach
    have hnone : (w.bitmaps S).fbo_info = none :=
      reachable_subBitmaps w hreach hflat S (by rw [hS]; simp)
    refine ⟨hnone, fun w1 h1 => ?_⟩
    rcases (setup_fbo_frame w w1 env S h1).1 S (by rw [hrS]; exact hne) with e | ⟨e, _⟩
    · exact e
    · rw [e]
      cases hb : w.bitmaps S with
      | mk p d f bb fi =>
        rw [hb] at hnone
        simp only at hnone
        subst hnone
        rfl

theorem world_sub_flat : FlatParents world_sub := by
  intro b p hb
  unfold world_sub at hb ⊢
  simp only at hb ⊢
  split at hb
  · cases hb
    decide
  · cases hb

/-- C12, at the sub-bitmap `5` of bitmap `4` in `world_sub`. -/
theorem sub_bitmap_resolves_to_parent_witness :
    _al_ogl_setup_fbo world_sub (env_ok 11 1) 5 =
      _al_ogl_setup_fbo world_sub (env_ok 11 1) 4 ∧
    _al_ogl_create_persistent_fbo world_sub (env_ok 11 1) 5 =
      _al_ogl_create_persistent_fbo world_sub (env_ok 11 1) 4 ∧
    (_al_ogl_create_persistent_fbo world_sub (env_ok 11 1) 5).1.bitmaps 5 =
      world_sub.bitmaps 5 ∧
    (world_sub.bitmaps 5).fbo_info = none ∧
    ∀ w1, _al_ogl_setup_fbo world_sub (env_ok 11 1) 5 = some w1 →
      w1.bitmaps 5 = world_sub.bitmaps 5 :=
  have h := sub_bitmap_resolves_to_parent world_sub (env_ok 11 1) 5 4 world_sub_flat rfl
  have hr := h.2.2.2.2.2 ⟨world_sub, [], ⟨by decide, rfl, fun b => by
    unfold world_sub; simp only; split <;> rfl⟩, rfl⟩
  ⟨h.1, h.2.1, h.2.2.2.1, hr.1, hr.2⟩

/-- The sub-bitmap `5` of bitmap `4` is activated on `world_sub`: bitmap `4`
gets slot `0`, whose owner is `4`, and is the target; bitmap `5` has no
association. -/
theorem sub_bitmap_scenario :
    (_al_ogl_setup_fbo world_sub (env_ok 11 1) 5).map
        (fun w => (w.opengl_target, (w.bitmaps 4).fbo_info, (w.bitmaps 5).fbo_info,
          w.fbos[0]?)) =
      some (some 4, some (.slot 0), none,
        some { fbo_state := FBO_INFO_TRANSIENT, fbo := 11, owner := some 4,
               last_use_time := 1 }) := by
  decide

end OglFbo
